import Mathlib

/-!
# athena/pstream.hpp : buffered stream adapter over a child-process pipe

Shallow embedding of `detail::popenbuf_base` (the pipe handle) and of
`basic_popenbuf<char, std::char_traits<char>>` (the buffered adapter).

Modelling conventions

* Target: LP64 (64-bit `std::size_t`, `std::ptrdiff_t`, `std::streamsize`; 32-bit `int`).
  Values of `std::size_t` are `Nat` reduced `% 2^64` where the source arithmetic can wrap;
  conversions to the signed types are the explicit functions `to_int` and `to_ptrdiff`.
* Pointers are integer addresses, the null pointer is `0`; memory is one flat map from
  addresses to units.
* The `FILE` behind the pipe is a record (`CFile`): the units the child still has to
  deliver and the end-of-file indicator.  `fread` delivers as many units as requested or
  all that are left, and sets the indicator exactly when it comes up short.
* Outcomes the operating system decides (`::popen`, `::fwrite`, `::fflush`, `::pclose`,
  `new[]`) are inputs of each call, collected in `Env`.
* Every call of an OS primitive is appended to the ghost field `trace`.
* `assert` aborts unless `NDEBUG` is defined (`Config.ndebug`); a violated assertion is
  `Fault.assertion`, behaviour the language leaves undefined (a null `FILE*` handed to
  `feof`, a null pointer dereferenced) is `Fault.undefined`.
-/

namespace athena

/-! ## Character types and traits (`char`, `std::char_traits<char>`) -/

/-- Unit of the `char` instantiation, as its `unsigned char` value. -/
abbrev char_type := Fin 256

/-- Integer type of the traits (`int`). -/
abbrev int_type := Int

namespace traits_type

/-- End-of-file value of the traits, `EOF`. -/
def eof : int_type := -1

/-- Unit to integer: the `unsigned char` value. -/
def to_int_type (c : char_type) : int_type := (c.val : Int)

/-- Integer to unit: narrowing conversion to `char` (also what an implicit
conversion of an `int` argument to a `char` parameter does). -/
def to_char_type (i : int_type) : char_type := ⟨(i % 256).toNat, by omega⟩

/-- Equality of two units, `traits_type::eq`; its parameters are of type `char_type`. -/
def eq (a b : char_type) : Bool := decide (a = b)

/-- Value that is not `eof`: the argument itself unless it is `eof`. -/
def not_eof (i : int_type) : int_type := if i = eof then 0 else i

end traits_type

/-! ## Machine integers -/

/-- Number of values of `std::size_t`. -/
def SIZE_MOD : Nat := 2 ^ 64

/-- Conversion of an integer value to `std::size_t`. -/
def to_size (z : Int) : Nat := (z % 2 ^ 64).toNat

/-- Conversion of an integer value to the 32-bit `int`. -/
def to_int (z : Int) : Int := (z + 2 ^ 31) % 2 ^ 32 - 2 ^ 31

/-- Conversion of an integer value to `std::ptrdiff_t` / `std::streamsize`. -/
def to_ptrdiff (z : Int) : Int := (z + 2 ^ 63) % 2 ^ 64 - 2 ^ 63

/-- Value of the macro `ATHENA_POPEN_STREAM_BUFFER_SIZE` when the build does not define it. -/
def ATHENA_POPEN_STREAM_BUFFER_SIZE : Nat := 512

namespace ios_base

/-- Open-mode bit `std::ios_base::in`. -/
def in_ : Nat := 8

/-- Open-mode bit `std::ios_base::out`. -/
def out : Nat := 16

end ios_base

/-! ## Build configuration, faults, the operating system -/

/-- Build configuration: the two preprocessor conditions the header depends on. -/
structure Config where
  /-- One of `macintosh`, `__APPLE__`, `__APPLE_CC__` is defined. -/
  apple : Bool
  /-- Macro `NDEBUG` is defined: `assert` expands to nothing. -/
  ndebug : Bool
deriving DecidableEq, Repr

/-- Ways a call can fail to return. -/
inductive Fault where
  /-- An `assert` failed (the program aborts). -/
  | assertion
  /-- Undefined behaviour was reached. -/
  | undefined
deriving DecidableEq, Repr

/-- Mode strings handed to `::popen`. -/
inductive ModeStr where
  | r
  | w
  | rplus
deriving DecidableEq, Repr

/-- One call of an OS primitive. -/
inductive OsCall where
  | popen (mode_str : ModeStr)
  | pclose
  | fread (n : Nat)
  | fwrite (block : List char_type)
  | fflush
deriving DecidableEq, Repr

/-- The stdio stream behind the pipe. -/
structure CFile where
  /-- Units the child process still has to deliver on its output. -/
  childOut : List char_type
  /-- End-of-file indicator of the stream (`feof`). -/
  eofInd : Bool
deriving DecidableEq, Repr

/-- Outcomes decided by the operating system during one call. -/
structure Env where
  /-- Result of `::popen`: `none` is a null handle, `some out` a stream whose child
  delivers `out`. -/
  spawn : Option (List char_type)
  /-- `::fwrite` asked for `n` units returns `n - fwriteShort`. -/
  fwriteShort : Nat
  /-- Result of `::fflush` (`0` on success). -/
  fflushRet : Int
  /-- Result of `::pclose` (`-1` on error, otherwise the wait status). -/
  pcloseRet : Int
  /-- Address returned by `new char_type[...]`. -/
  newAddr : Int
deriving DecidableEq, Repr

/-- Memory: one unit per address. -/
abbrev Mem := Int → char_type

/-- The `n` units stored from address `p` on. -/
def peek (mem : Mem) (p : Int) (n : Nat) : List char_type :=
  (List.range n).map (fun (i : Nat) => mem (p + (i : Int)))

/-- Memory after storing `data` from address `p` on. -/
def poke (mem : Mem) (p : Int) (data : List char_type) : Mem :=
  fun a => if p ≤ a ∧ a < p + (data.length : Int) then data.getD (a - p).toNat 0 else mem a

/-- Memory after storing one unit at address `p`. -/
def store (mem : Mem) (p : Int) (c : char_type) : Mem :=
  fun a => if a = p then c else mem a

/-! ## `detail::popenbuf_base` : the pipe handle -/

/-- Pipe handle: `openmode_`, `c_file_ptr_` (`none` is the null pointer), and the ghost
trace of OS calls. -/
structure popenbuf_base where
  openmode_ : Nat
  c_file_ptr_ : Option CFile
  trace : List OsCall
deriving DecidableEq, Repr

namespace popenbuf_base

/-- Source `is_open()`: `c_file_ptr_ != 0`. -/
def is_open (b : popenbuf_base) : Bool := b.c_file_ptr_.isSome

/-- Source `mode()`: `static_cast<int>(openmode_)`. -/
def mode (b : popenbuf_base) : Nat := b.openmode_

/-- Condition `mode == std::ios_base::in | std::ios_base::out` as C++ parses it:
`(mode == in) | out`, an integer that is tested against zero. -/
def combined_test (mode : Nat) : Bool :=
  decide (((if mode = ios_base.in_ then 1 else 0) ||| ios_base.out) ≠ 0)

/-- Source `popen(command, mode)`.  The command string plays no part in the model: what
the child delivers is part of `env.spawn`.  With `NDEBUG` an unsupported mode leaves
`mode_str` null, and `::popen` with a null mode is undefined. -/
def popen (cfg : Config) (env : Env) (b : popenbuf_base) (mode : Nat) :
    Except Fault (Bool × popenbuf_base) :=
  let b1 := { b with openmode_ := mode }
  let mode_str : Except Fault (Option ModeStr) :=
    if cfg.apple = true ∧ combined_test mode = true then .ok (some ModeStr.rplus)
    else if mode = ios_base.in_ then .ok (some ModeStr.r)
    else if mode = ios_base.out then .ok (some ModeStr.w)
    else if cfg.ndebug = true then .ok none
    else .error Fault.assertion
  match mode_str with
  | .error e => .error e
  | .ok none => .error Fault.undefined
  | .ok (some m) =>
    let b2 := { b1 with
      c_file_ptr_ := env.spawn.map (fun o => { childOut := o, eofInd := false }),
      trace := b1.trace ++ [OsCall.popen m] }
    if cfg.ndebug = false ∧ b2.c_file_ptr_.isSome = false then .error Fault.assertion
    else .ok (b2.c_file_ptr_.isSome, b2)

/-- Source `pclose()`. -/
def pclose (cfg : Config) (env : Env) (b : popenbuf_base) :
    Except Fault (Bool × popenbuf_base) :=
  let ok := b.is_open
  if ok = true then
    let ok1 := ok && decide (env.pcloseRet ≠ -1)
    let b1 := { b with trace := b.trace ++ [OsCall.pclose] }
    if cfg.ndebug = false ∧ ok1 = false then .error Fault.assertion
    else .ok (ok1, { b1 with c_file_ptr_ := none })
  else .ok (ok, b)

/-- Source `read(buf, n)`: returns the count (`-1` when the end-of-file indicator is
already set), the handle and the memory after `::fread`. -/
def read (cfg : Config) (b : popenbuf_base) (mem : Mem) (buf : Int) (n : Int) :
    Except Fault (Int × popenbuf_base × Mem) :=
  match b.c_file_ptr_ with
  | none => if cfg.ndebug = true then .error Fault.undefined else .error Fault.assertion
  | some f =>
    if f.eofInd = true then .ok (-1, b, mem)
    else
      let cnt := to_size n
      let data := f.childOut.take cnt
      if buf = 0 ∧ data ≠ [] then .error Fault.undefined
      else
        let f1 : CFile :=
          { childOut := f.childOut.drop cnt, eofInd := decide (data.length < cnt) }
        .ok (to_ptrdiff (data.length : Int),
             { b with c_file_ptr_ := some f1, trace := b.trace ++ [OsCall.fread cnt] },
             poke mem buf data)

/-- Source `write(buf, n)`: the count returned by `::fwrite` is converted to `bool`. -/
def write (cfg : Config) (env : Env) (b : popenbuf_base) (mem : Mem) (buf : Int) (n : Int) :
    Except Fault (Bool × popenbuf_base) :=
  match b.c_file_ptr_ with
  | none => if cfg.ndebug = true then .error Fault.undefined else .error Fault.assertion
  | some f =>
    if f.eofInd = true then .ok (false, b)
    else
      let cnt := to_size n
      if buf = 0 ∧ cnt ≠ 0 then .error Fault.undefined
      else
        let ret := cnt - env.fwriteShort
        .ok (decide (ret ≠ 0),
             { b with trace := b.trace ++ [OsCall.fwrite (peek mem buf cnt)] })

/-- Source `flush()`.  With `NDEBUG` on a closed handle the call is `::fflush(NULL)`, which
is defined (it flushes every output stream). -/
def flush (cfg : Config) (env : Env) (b : popenbuf_base) :
    Except Fault (Bool × popenbuf_base) :=
  if cfg.ndebug = false ∧ b.is_open = false then .error Fault.assertion
  else if cfg.ndebug = false ∧ b.openmode_ &&& ios_base.out = 0 then .error Fault.assertion
  else .ok (decide (env.fflushRet = 0), { b with trace := b.trace ++ [OsCall.fflush] })

end popenbuf_base

/-! ## `basic_popenbuf` : the buffered adapter -/

/-- Adapter state: the six area pointers of `std::basic_streambuf`, the members of
`basic_popenbuf`, and three ghost fields (memory contents, addresses obtained from
`new[]`, addresses handed to `delete[]`). -/
structure basic_popenbuf where
  eback_ : Int
  gptr_ : Int
  egptr_ : Int
  pbase_ : Int
  pptr_ : Int
  epptr_ : Int
  base_ : popenbuf_base
  total_buff_ : Int
  total_buff_size_ : Nat
  in_buff_ : Int
  in_buff_size_ : Nat
  out_buff_ : Int
  out_buff_size_ : Nat
  user_custom_buffer_ : Bool
  mem : Mem
  allocated : List Int
  released : List Int

namespace basic_popenbuf

/-- Host framework `setg(gbeg, gnext, gend)`. -/
def setg (s : basic_popenbuf) (gbeg gnext gend : Int) : basic_popenbuf :=
  { s with eback_ := gbeg, gptr_ := gnext, egptr_ := gend }

/-- Host framework `setp(pbeg, pend)`: the next pointer is reset to `pbeg`. -/
def setp (s : basic_popenbuf) (pbeg pend : Int) : basic_popenbuf :=
  { s with pbase_ := pbeg, pptr_ := pbeg, epptr_ := pend }

/-- Host framework `pbump(int n)`. -/
def pbump (s : basic_popenbuf) (n : Int) : basic_popenbuf :=
  { s with pptr_ := s.pptr_ + n }

/-- Host framework `gbump(int n)`. -/
def gbump (s : basic_popenbuf) (n : Int) : basic_popenbuf :=
  { s with gptr_ := s.gptr_ + n }

/-- Constructor `basic_popenbuf()`.  The member `openmode_` of the handle is left
uninitialised by the source: its value is the parameter `garbage`.  The contents of the
fresh buffer are whatever `mem` holds. -/
def construct (env : Env) (garbage : Nat) (mem : Mem) : basic_popenbuf :=
  { eback_ := 0, gptr_ := 0, egptr_ := 0, pbase_ := 0, pptr_ := 0, epptr_ := 0,
    base_ := { openmode_ := garbage, c_file_ptr_ := none, trace := [] },
    total_buff_ := env.newAddr,
    total_buff_size_ := ATHENA_POPEN_STREAM_BUFFER_SIZE,
    in_buff_ := 0, in_buff_size_ := 0, out_buff_ := 0, out_buff_size_ := 0,
    user_custom_buffer_ := false,
    mem := mem, allocated := [env.newAddr], released := [] }

/-- Source `is_open()`. -/
def is_open (s : basic_popenbuf) : Bool := s.base_.is_open

/-- Conjunction of the eleven assertions at the top of `open`. -/
def open_asserts (s : basic_popenbuf) : Bool :=
  !s.is_open && decide (s.eback_ = 0) && decide (s.gptr_ = 0) && decide (s.egptr_ = 0)
    && decide (s.pbase_ = 0) && decide (s.pptr_ = 0) && decide (s.epptr_ = 0)
    && decide (s.in_buff_ = 0) && decide (s.out_buff_ = 0)
    && decide (s.in_buff_size_ = 0) && decide (s.out_buff_size_ = 0)

/-- Source `open(command, mode)`; the result `true` stands for `this`, `false` for the
null pointer.  The regions are installed whatever `popen` returned. -/
def open_ (cfg : Config) (env : Env) (s : basic_popenbuf) (mode : Nat) :
    Except Fault (Bool × basic_popenbuf) :=
  if cfg.ndebug = false ∧ s.open_asserts = false then .error Fault.assertion
  else
    match s.base_.popen cfg env mode with
    | .error e => .error e
    | .ok (ok, b) =>
      let s1 := { s with base_ := b }
      if cfg.apple = true ∧ popenbuf_base.combined_test mode = true then
        let s2 := { s1 with in_buff_ := s1.total_buff_,
                            in_buff_size_ := (s1.total_buff_size_ + 1) % SIZE_MOD / 2 }
        let s3 := { s2 with
          out_buff_ := s2.in_buff_ + (s2.in_buff_size_ : Int),
          out_buff_size_ := (s2.total_buff_size_ + SIZE_MOD - s2.in_buff_size_) % SIZE_MOD }
        .ok (ok, (s3.setg s3.in_buff_ s3.in_buff_ s3.in_buff_).setp s3.out_buff_
                    (s3.out_buff_ + (s3.out_buff_size_ : Int)))
      else if mode = ios_base.in_ then
        let s2 := { s1 with in_buff_ := s1.total_buff_, in_buff_size_ := s1.total_buff_size_ }
        .ok (ok, s2.setg s2.in_buff_ s2.in_buff_ s2.in_buff_)
      else if mode = ios_base.out then
        let s2 := { s1 with out_buff_ := s1.total_buff_,
                            out_buff_size_ := s1.total_buff_size_ }
        .ok (ok, s2.setp s2.out_buff_ (s2.out_buff_ + (s2.out_buff_size_ : Int)))
      else if cfg.ndebug = true then .ok (ok, s1)
      else .error Fault.assertion

/-- Source `sync()`. -/
def sync (cfg : Config) (env : Env) (s : basic_popenbuf) :
    Except Fault (Int × basic_popenbuf) :=
  if s.base_.mode &&& ios_base.out ≠ 0 then
    let n : Int := to_ptrdiff (s.pptr_ - s.pbase_)
    match s.base_.write cfg env s.mem s.pbase_ n with
    | .error e => .error e
    | .ok (ok, b) =>
      let s1 := ({ s with base_ := b }).pbump (to_int (-n))
      match s1.base_.flush cfg env with
      | .error e => .error e
      | .ok (fl, b2) => .ok (if (ok && fl) = true then 0 else -1, { s1 with base_ := b2 })
  else .ok (0, s)

/-- Source `close()`; the result `true` stands for `this`, `false` for the null pointer.
The value returned by `sync` is not used. -/
def close (cfg : Config) (env : Env) (s : basic_popenbuf) :
    Except Fault (Bool × basic_popenbuf) :=
  let ok := s.is_open
  let synced : Except Fault (Int × basic_popenbuf) :=
    if s.base_.mode &&& ios_base.out ≠ 0 then s.sync cfg env else .ok (0, s)
  match synced with
  | .error e => .error e
  | .ok (_, s1) =>
    match s1.base_.pclose cfg env with
    | .error e => .error e
    | .ok (r, b) =>
      let s2 := { s1 with base_ := b }
      if (ok && r) = true then
        let s3 := (s2.setg 0 0 0).setp 0 0
        .ok (true, { s3 with in_buff_ := 0, out_buff_ := 0, in_buff_size_ := 0,
                             out_buff_size_ := 0, user_custom_buffer_ := false })
      else .ok (false, s2)

/-- Source `underflow()`. -/
def underflow (cfg : Config) (s : basic_popenbuf) : Except Fault (int_type × basic_popenbuf) :=
  match s.base_.read cfg s.mem s.eback_ (to_ptrdiff (s.in_buff_size_ : Int)) with
  | .error e => .error e
  | .ok (n, b, m) =>
    let s1 := { s with base_ := b, mem := m }
    if n = -1 then .ok (traits_type.eof, s1.setg 0 0 0)
    else
      let s2 := s1.setg s1.eback_ s1.eback_ (s1.eback_ + n)
      if s2.gptr_ = 0 then .error Fault.undefined
      else .ok (traits_type.to_int_type (s2.mem s2.gptr_), s2)

/-- Source `overflow(c)`.  The test for end-of-file goes through `traits_type::eq`, whose
parameters are units: both `c` and `eof()` are narrowed to `char` first.  In the
unbuffered branch the local `c_tmp` is a one-unit view at a non-null address. -/
def overflow (cfg : Config) (env : Env) (s : basic_popenbuf) (c : int_type) :
    Except Fault (int_type × basic_popenbuf) :=
  if traits_type.eq (traits_type.to_char_type c) (traits_type.to_char_type traits_type.eof)
      = true then
    match s.sync cfg env with
    | .error e => .error e
    | .ok (_, s1) => .ok (traits_type.eof, s1)
  else if s.out_buff_size_ = 0 then
    let c_tmp := traits_type.to_char_type c
    match s.base_.write cfg env (fun _ => c_tmp) 1 1 with
    | .error e => .error e
    | .ok (ok, b) =>
      if ok = false then .ok (traits_type.eof, { s with base_ := b })
      else .ok (traits_type.not_eof c, { s with base_ := b })
  else
    match s.base_.write cfg env s.mem s.pbase_ (to_ptrdiff (s.out_buff_size_ : Int)) with
    | .error e => .error e
    | .ok (ok, b) =>
      let s1 := { s with base_ := b }
      if ok = false then .ok (traits_type.eof, s1)
      else if s1.pbase_ = 0 then .error Fault.undefined
      else
        let s2 := { s1 with mem := store s1.mem s1.pbase_ (traits_type.to_char_type c) }
        .ok (traits_type.not_eof c,
             s2.pbump (to_int (((SIZE_MOD - s2.out_buff_size_ % SIZE_MOD + 1) % SIZE_MOD : Nat) : Int)))

/-- Source `setbuf(buf, n)`; the result `true` stands for `this`, `false` for the null
pointer. -/
def setbuf (cfg : Config) (env : Env) (s : basic_popenbuf) (buf : Int) (n : Int) :
    Except Fault (Bool × basic_popenbuf) :=
  if cfg.ndebug = false ∧ s.is_open = false then .error Fault.assertion
  else if s.is_open = true then .ok (false, s)
  else if buf = 0 then
    if s.user_custom_buffer_ = false then .ok (true, s)
    else
      .ok (true, { s with user_custom_buffer_ := false,
                          total_buff_ := env.newAddr,
                          total_buff_size_ := ATHENA_POPEN_STREAM_BUFFER_SIZE,
                          allocated := s.allocated ++ [env.newAddr] })
  else
    .ok (true, { s with user_custom_buffer_ := true,
                        released := s.released ++ [s.total_buff_],
                        total_buff_ := buf,
                        total_buff_size_ := to_size n })

/-- Destructor `~basic_popenbuf()`. -/
def destroy (cfg : Config) (env : Env) (s : basic_popenbuf) :
    Except Fault (Bool × basic_popenbuf) :=
  let s1 := if s.user_custom_buffer_ = false
    then { s with released := s.released ++ [s.total_buff_] } else s
  s1.close cfg env

/-! ### Public members of the host stream buffer that drive the three hooks -/

/-- Host framework `sputc(c)`: store the unit when the put area has room, otherwise
call `overflow(to_int_type(c))`. -/
def sputc (cfg : Config) (env : Env) (s : basic_popenbuf) (c : char_type) :
    Except Fault (int_type × basic_popenbuf) :=
  if s.pptr_ < s.epptr_ then
    if s.pptr_ = 0 then .error Fault.undefined
    else .ok (traits_type.to_int_type c, ({ s with mem := store s.mem s.pptr_ c }).pbump 1)
  else s.overflow cfg env (traits_type.to_int_type c)

/-- Host framework default `uflow()`: call `underflow()`, and unless it reports
end-of-file return the unit at the next pointer and advance it. -/
def uflow (cfg : Config) (s : basic_popenbuf) : Except Fault (int_type × basic_popenbuf) :=
  match s.underflow cfg with
  | .error e => .error e
  | .ok (r, s1) =>
    if r = traits_type.eof then .ok (traits_type.eof, s1)
    else if s1.gptr_ = 0 then .error Fault.undefined
    else .ok (traits_type.to_int_type (s1.mem s1.gptr_), s1.gbump 1)

/-- Host framework `sbumpc()`: take the next unit of the get area, or call `uflow()`
when the area is exhausted. -/
def sbumpc (cfg : Config) (s : basic_popenbuf) : Except Fault (int_type × basic_popenbuf) :=
  if s.gptr_ < s.egptr_ then
    if s.gptr_ = 0 then .error Fault.undefined
    else .ok (traits_type.to_int_type (s.mem s.gptr_), s.gbump 1)
  else s.uflow cfg

end basic_popenbuf

/-! ## Sessions: the loops a caller runs, and what the OS saw -/

/-- Units written one at a time through `sputc`, in order; the values returned by the
calls are collected. -/
def put_units (cfg : Config) (env : Env) :
    List char_type → basic_popenbuf → Except Fault (List int_type × basic_popenbuf)
  | [], s => .ok ([], s)
  | c :: cs, s =>
    match s.sputc cfg env c with
    | .error e => .error e
    | .ok (r, s1) =>
      match put_units cfg env cs s1 with
      | .error e => .error e
      | .ok (rs, s2) => .ok (r :: rs, s2)

/-- Successive unit reads through `sbumpc`, `n` of them; the values returned by the calls
are collected. -/
def get_units (cfg : Config) :
    Nat → basic_popenbuf → Except Fault (List int_type × basic_popenbuf)
  | 0, s => .ok ([], s)
  | n + 1, s =>
    match s.sbumpc cfg with
    | .error e => .error e
    | .ok (r, s1) =>
      match get_units cfg n s1 with
      | .error e => .error e
      | .ok (rs, s2) => .ok (r :: rs, s2)

/-- Blocks handed to `::fwrite`, in call order. -/
def fwrite_blocks : List OsCall → List (List char_type)
  | [] => []
  | OsCall.fwrite b :: t => b :: fwrite_blocks t
  | _ :: t => fwrite_blocks t

/-- Counts requested from `::fread`, in call order. -/
def fread_counts : List OsCall → List Nat
  | [] => []
  | OsCall.fread n :: t => n :: fread_counts t
  | _ :: t => fread_counts t

/-- Write session on `s`: the units are written one at a time, then the adapter is closed.
Returns the blocks handed to `::fwrite` while the units were written, and the blocks
handed to it by `close` (blocks written before the session are left out). -/
def write_session (cfg : Config) (env : Env) (s : basic_popenbuf) (units : List char_type) :
    Except Fault (List (List char_type) × List (List char_type)) :=
  match put_units cfg env units s with
  | .error e => .error e
  | .ok (_, s1) =>
    match s1.close cfg env with
    | .error e => .error e
    | .ok (_, s2) =>
      .ok ((fwrite_blocks s1.base_.trace).drop (fwrite_blocks s.base_.trace).length,
           (fwrite_blocks s2.base_.trace).drop (fwrite_blocks s1.base_.trace).length)

/-! ## Concrete builds, environments and adapters -/

/-- Release build (`NDEBUG`) for a target outside the Apple family. -/
def release_build : Config := { apple := false, ndebug := true }

/-- Debug build (assertions active) for a target outside the Apple family. -/
def debug_build : Config := { apple := false, ndebug := false }

/-- Release build for a target of the Apple family. -/
def apple_release_build : Config := { apple := true, ndebug := true }

/-- Operating system on a good day: the spawn succeeds and the child delivers `out`,
every write is accepted in full, flush and close succeed; `new[]` returns address 4096. -/
def os_ok (out : List char_type) : Env :=
  { spawn := some out, fwriteShort := 0, fflushRet := 0, pcloseRet := 0, newAddr := 4096 }

/-- Operating system whose spawn primitive returns no handle. -/
def os_spawn_fails : Env := { os_ok [] with spawn := none }

/-- Operating system whose `::fflush` fails (returns `EOF`); everything else succeeds. -/
def os_flush_fails : Env := { os_ok [] with fflushRet := -1 }

/-- Operating system whose `::pclose` fails (returns `-1`); everything else succeeds. -/
def os_pclose_fails : Env := { os_ok [] with pcloseRet := -1 }

/-- Memory holding zero everywhere. -/
def zero_mem : Mem := fun _ => 0

/-- Freshly constructed adapter: default buffer of 512 units at address 4096. -/
def fresh : basic_popenbuf := basic_popenbuf.construct (os_ok []) 0 zero_mem

/-- Closed adapter whose backing buffer is a caller buffer at address 8192 announced with
size `n`, installed by `setbuf` in the build `cfg`. -/
def with_capacity (cfg : Config) (n : Int) : Except Fault basic_popenbuf :=
  (fresh.setbuf cfg (os_ok []) 8192 n).map Prod.snd

/-- Adapter of capacity `C` opened with `mode` in the build `cfg`, over a child that
delivers `out`. -/
def opened (cfg : Config) (C : Nat) (mode : Nat) (out : List char_type) :
    Except Fault basic_popenbuf :=
  (with_capacity cfg (C : Int)).bind fun s => (s.open_ cfg (os_ok out) mode).map Prod.snd

/-- Adapter states reachable from a freshly constructed adapter by calls of `open`,
`close`, `underflow`, `overflow`, `sync` and `setbuf` that return, under arbitrary
outcomes of the OS primitives (`new[]` never returns a null pointer). -/
inductive Reachable (cfg : Config) : basic_popenbuf → Prop where
  | construct (env : Env) (garbage : Nat) (mem : Mem) :
      env.newAddr ≠ 0 → Reachable cfg (basic_popenbuf.construct env garbage mem)
  | open_ (env : Env) (mode : Nat) (s s1 : basic_popenbuf) (r : Bool) :
      Reachable cfg s → s.open_ cfg env mode = .ok (r, s1) → Reachable cfg s1
  | close (env : Env) (s s1 : basic_popenbuf) (r : Bool) :
      Reachable cfg s → s.close cfg env = .ok (r, s1) → Reachable cfg s1
  | underflow (s s1 : basic_popenbuf) (r : int_type) :
      Reachable cfg s → s.underflow cfg = .ok (r, s1) → Reachable cfg s1
  | overflow (env : Env) (c : int_type) (s s1 : basic_popenbuf) (r : int_type) :
      Reachable cfg s → s.overflow cfg env c = .ok (r, s1) → Reachable cfg s1
  | sync (env : Env) (s s1 : basic_popenbuf) (r : Int) :
      Reachable cfg s → s.sync cfg env = .ok (r, s1) → Reachable cfg s1
  | setbuf (env : Env) (buf n : Int) (s s1 : basic_popenbuf) (r : Bool) :
      env.newAddr ≠ 0 → Reachable cfg s → s.setbuf cfg env buf n = .ok (r, s1) →
      Reachable cfg s1

/-- The adapter a call returned; `fresh` when the call did not return. -/
def state_of {α : Type} (r : Except Fault (α × basic_popenbuf)) : basic_popenbuf :=
  match r with
  | .ok (_, s) => s
  | .error _ => fresh

/-- The fresh adapter after a successful `open` for writing in a debug build. -/
def fresh_writer : basic_popenbuf := state_of (fresh.open_ debug_build (os_ok []) ios_base.out)

/-- The fresh adapter after a successful `open` for reading in a release build. -/
def fresh_reader : basic_popenbuf :=
  state_of (fresh.open_ release_build (os_ok []) ios_base.in_)

/-- The adapter `fresh_reader` after a `close` whose OS close call fails. -/
def reader_after_failed_pclose : basic_popenbuf :=
  state_of (fresh_reader.close release_build os_pclose_fails)

/-- Adapter opened for writing over a stream that is not at end-of-file, whose put area
is a write region of `C` units at a non-null address with `k` units pending. -/
structure WriteArea (s : basic_popenbuf) (C k : Nat) : Prop where
  handle : ∃ f, s.base_.c_file_ptr_ = some f ∧ f.eofInd = false
  mode : s.base_.openmode_ &&& ios_base.out ≠ 0
  base_pos : 0 < s.pbase_
  size : s.out_buff_size_ = C
  next : s.pptr_ = s.pbase_ + (k : Int)
  limit : s.epptr_ = s.pbase_ + (C : Int)

/-- Adapter opened for reading whose stream still has `src` to deliver and is not at
end-of-file, with a read region of `C` units at the non-null address `eback_`. -/
structure ReadArea (s : basic_popenbuf) (C : Nat) (src : List char_type) : Prop where
  handle : s.base_.c_file_ptr_ = some { childOut := src, eofInd := false }
  base_pos : 0 < s.eback_
  size : s.in_buff_size_ = C

/-! ## The build-time check of the buffer size (lines 21 to 28 of the header) -/

/-- Preprocessor test of lines 21 to 24: `true` when the `#error` directive fires, that
is when `ATHENA_POPEN_STREAM_BUFFER_SIZE` is defined and its value satisfies `>= 1`.
The argument is the configured value, `none` when the macro is not defined. -/
def buffer_size_rejected (configured : Option Int) : Bool :=
  match configured with
  | none => false
  | some v => decide (v ≥ 1)

/-- Value of `ATHENA_POPEN_STREAM_BUFFER_SIZE` after lines 26 to 28: the configured value,
or 512 when the macro was not defined. -/
def buffer_size_value (configured : Option Int) : Int :=
  match configured with
  | none => (ATHENA_POPEN_STREAM_BUFFER_SIZE : Int)
  | some v => v

/-! ## Wait status of the child (host platform) -/

/-- Host macro `WIFEXITED` of `<sys/wait.h>`: the child terminated normally, that is the
low seven bits of the wait status are zero. -/
def WIFEXITED (status : Int) : Bool := decide (status % 128 = 0)

/-! ## The stream facades -/

/-- State of a stream facade: the adapter `buf_` it owns and the `failbit` of the
inherited stream state. -/
structure facade where
  buf_ : basic_popenbuf
  failbit : Bool

namespace basic_ipstream

/-- Mode that `basic_ipstream::open` hands to the adapter: `mode | std::ios_base::in`. -/
def handed_mode (mode : Nat) : Nat := mode ||| ios_base.in_

/-- Source `basic_ipstream::open(commond, mode)`. -/
def open_ (cfg : Config) (env : Env) (f : facade) (mode : Nat) : Except Fault facade :=
  match f.buf_.open_ cfg env (handed_mode mode) with
  | .error e => .error e
  | .ok (r, s) => .ok { buf_ := s, failbit := f.failbit || !r }

/-- Source `basic_ipstream::close()`. -/
def close (cfg : Config) (env : Env) (f : facade) : Except Fault facade :=
  match f.buf_.close cfg env with
  | .error e => .error e
  | .ok (r, s) => .ok { buf_ := s, failbit := f.failbit || !r }

end basic_ipstream

namespace basic_opstream

/-- Mode that `basic_opstream::open` hands to the adapter: `mode | std::ios_base::out`. -/
def handed_mode (mode : Nat) : Nat := mode ||| ios_base.out

/-- Source `basic_opstream::open(commond, mode)`. -/
def open_ (cfg : Config) (env : Env) (f : facade) (mode : Nat) : Except Fault facade :=
  match f.buf_.open_ cfg env (handed_mode mode) with
  | .error e => .error e
  | .ok (r, s) => .ok { buf_ := s, failbit := f.failbit || !r }

/-- Source `basic_opstream::close()`. -/
def close (cfg : Config) (env : Env) (f : facade) : Except Fault facade :=
  match f.buf_.close cfg env with
  | .error e => .error e
  | .ok (r, s) => .ok { buf_ := s, failbit := f.failbit || !r }

end basic_opstream

namespace basic_pstream

/-- Mode that `basic_pstream::open` hands to the adapter: `mode | std::ios_base::out`
(the class is compiled for the Apple family only). -/
def handed_mode (mode : Nat) : Nat := mode ||| ios_base.out

/-- Source `basic_pstream::open(commond, mode)`. -/
def open_ (cfg : Config) (env : Env) (f : facade) (mode : Nat) : Except Fault facade :=
  match f.buf_.open_ cfg env (handed_mode mode) with
  | .error e => .error e
  | .ok (r, s) => .ok { buf_ := s, failbit := f.failbit || !r }

/-- Source `basic_pstream::close()`. -/
def close (cfg : Config) (env : Env) (f : facade) : Except Fault facade :=
  match f.buf_.close cfg env with
  | .error e => .error e
  | .ok (r, s) => .ok { buf_ := s, failbit := f.failbit || !r }

end basic_pstream

/-! ## More concrete builds, environments and adapters -/

/-- Debug build for a target of the Apple family. -/
def apple_debug_build : Config := { apple := true, ndebug := false }

/-- Freshly constructed facade: a fresh adapter, `failbit` clear. -/
def fresh_facade : facade := { buf_ := fresh, failbit := false }

/-- Operating system whose `::fwrite` comes up one unit short of what it is asked for;
everything else succeeds. -/
def os_write_one_short : Env := { os_ok [] with fwriteShort := 1 }

/-- Operating system whose `::pclose` reports wait status 9 (child killed by signal 9);
everything else succeeds. -/
def os_child_killed : Env := { os_ok [] with pcloseRet := 9 }

/-- Pipe handle opened for writing by a successful `popen` in a debug build. -/
def open_handle : popenbuf_base :=
  { openmode_ := ios_base.out, c_file_ptr_ := some { childOut := [], eofInd := false },
    trace := [OsCall.popen ModeStr.w] }

/-! ## Runs of the write side -/

/-- Adapter opened for writing (the stream may or may not be at end-of-file), whose put
area is a write region of `C` units at a non-null address with fill level `k`. -/
structure PutArea (s : basic_popenbuf) (C k : Nat) : Prop where
  handle : s.base_.c_file_ptr_.isSome = true
  mode : s.base_.openmode_ &&& ios_base.out ≠ 0
  base_pos : 0 < s.pbase_
  size : s.out_buff_size_ = C
  next : s.pptr_ = s.pbase_ + (k : Int)
  limit : s.epptr_ = s.pbase_ + (C : Int)

/-- Runs of an adapter opened for writing: any sequence of unit writes (`sputc`: store
when the region has room, otherwise `overflow`), of `overflow` calls on a full region and
of `sync` calls, each under arbitrary outcomes of the OS primitives. -/
inductive WriteRun (cfg : Config) (s : basic_popenbuf) : basic_popenbuf → Prop where
  | refl : WriteRun cfg s s
  | put (env : Env) (c : char_type) (s1 s2 : basic_popenbuf) (r : int_type) :
      WriteRun cfg s s1 → s1.sputc cfg env c = .ok (r, s2) → WriteRun cfg s s2
  | overflow (env : Env) (c : int_type) (s1 s2 : basic_popenbuf) (r : int_type) :
      WriteRun cfg s s1 → s1.pptr_ = s1.epptr_ → s1.overflow cfg env c = .ok (r, s2) →
      WriteRun cfg s s2
  | sync (env : Env) (s1 s2 : basic_popenbuf) (r : Int) :
      WriteRun cfg s s1 → s1.sync cfg env = .ok (r, s2) → WriteRun cfg s s2

/-- What one write-side call, or a run of them, may do to an adapter whose write region
has `C` units: the put area stays on the same region with a fill level within `0..C`, the
trace only grows, by blocks of at most `C` units, and memory outside the region is not
touched. -/
structure PutStep (s s1 : basic_popenbuf) (C : Nat) : Prop where
  area : ∃ k1, k1 ≤ C ∧ PutArea s1 C k1
  base : s1.pbase_ = s.pbase_
  trace : ∃ tr, s1.base_.trace = s.base_.trace ++ tr ∧
    ∀ b ∈ fwrite_blocks tr, b.length ≤ C
  mem : ∀ a : Int, ¬ (s.pbase_ ≤ a ∧ a < s.pbase_ + (C : Int)) → s1.mem a = s.mem a

/-- What one write-side call made in state `s` and returning in state `s1` does, for a
write region of `C` units: all of `PutStep`, and besides the call hands the pipe at most
one block, which is made of the `len` pending units, `len ≤ C`, read from the start of the
write region as memory is in `s`, the moment of the call; and it stores at most one unit,
at an index inside the region. -/
structure PutCall (s s1 : basic_popenbuf) (C : Nat) : Prop where
  step : PutStep s s1 C
  blocks : ∃ tr, s1.base_.trace = s.base_.trace ++ tr ∧
    (fwrite_blocks tr = [] ∨
      ∃ len : Nat, len ≤ C ∧ s.pptr_ = s.pbase_ + (len : Int) ∧
        fwrite_blocks tr = [peek s.mem s.pbase_ len])
  stores : s1.mem = s.mem ∨
    ∃ (j : Nat) (u : char_type), j < C ∧ s1.mem = store s.mem (s.pbase_ + (j : Int)) u

/-- Runs of the write side together with their log: the calls that returned, in order,
each as the pair of the state it was made in and the state it returned in. -/
inductive WriteRunLog (cfg : Config) (s : basic_popenbuf) :
    basic_popenbuf → List (basic_popenbuf × basic_popenbuf) → Prop where
  | refl : WriteRunLog cfg s s []
  | put (env : Env) (c : char_type) (s1 s2 : basic_popenbuf) (r : int_type)
      (log : List (basic_popenbuf × basic_popenbuf)) :
      WriteRunLog cfg s s1 log → s1.sputc cfg env c = .ok (r, s2) →
      WriteRunLog cfg s s2 (log ++ [(s1, s2)])
  | overflow (env : Env) (c : int_type) (s1 s2 : basic_popenbuf) (r : int_type)
      (log : List (basic_popenbuf × basic_popenbuf)) :
      WriteRunLog cfg s s1 log → s1.pptr_ = s1.epptr_ →
      s1.overflow cfg env c = .ok (r, s2) → WriteRunLog cfg s s2 (log ++ [(s1, s2)])
  | sync (env : Env) (s1 s2 : basic_popenbuf) (r : Int)
      (log : List (basic_popenbuf × basic_popenbuf)) :
      WriteRunLog cfg s s1 log → s1.sync cfg env = .ok (r, s2) →
      WriteRunLog cfg s s2 (log ++ [(s1, s2)])

/-! ## States of the scenarios on the write side -/

/-- The fresh writer after the unit 65 was written with `sputc`. -/
def writer_after_put : basic_popenbuf :=
  state_of (fresh_writer.sputc debug_build (os_ok []) 65)

/-- The fresh writer after the unit 65 was written and `sync` was called while the flush
fails. -/
def writer_after_put_sync : basic_popenbuf :=
  state_of (writer_after_put.sync debug_build os_flush_fails)

/-- Adapter with a write region of `2^31 + 1` units, opened for writing in a release
build. -/
def big_writer : basic_popenbuf :=
  state_of ((opened release_build (2 ^ 31 + 1) ios_base.out []).map fun s => ((), s))

open basic_popenbuf

/-! ## Auxiliary facts -/

/-- The test `mode == in | out` of the Apple branch holds for every mode: it parses as
`(mode == in) | out`, which always has the `out` bit. -/
theorem combined_test_true (mode : Nat) : popenbuf_base.combined_test mode = true := by
  unfold popenbuf_base.combined_test
  split <;> decide

/-! ## Writing: stores, overflow, sessions -/

/-- Narrowing the integer value of a unit gives the unit back. -/
theorem to_char_type_to_int_type (u : char_type) :
    traits_type.to_char_type (traits_type.to_int_type u) = u := by
  apply Fin.ext
  have := u.isLt
  simp only [traits_type.to_char_type, traits_type.to_int_type]
  omega

/-- Narrowed to a unit, `eof` is the unit `0xFF`. -/
theorem to_char_type_eof : traits_type.to_char_type traits_type.eof = 255 := by
  decide

/-- One more unit read from memory is appended at the end. -/
theorem peek_succ (m : Mem) (p : Int) (k : Nat) :
    peek m p (k + 1) = peek m p k ++ [m (p + (k : Int))] := by
  simp [peek, List.range_succ]

/-- Reading `k` units depends only on the `k` cells read. -/
theorem peek_congr (m m1 : Mem) (p : Int) (k : Nat)
    (h : ∀ i : Nat, i < k → m1 (p + (i : Int)) = m (p + (i : Int))) :
    peek m1 p k = peek m p k := by
  unfold peek
  apply List.map_congr_left
  intro i hi
  exact h i (List.mem_range.mp hi)

/-- A unit stored right after `k` units extends what is read by that unit. -/
theorem peek_store_snoc (m : Mem) (p : Int) (k : Nat) (c : char_type) :
    peek (store m (p + (k : Int)) c) p (k + 1) = peek m p k ++ [c] := by
  rw [peek_succ]
  congr 1
  · apply peek_congr
    intro i hi
    have : p + (i : Int) ≠ p + (k : Int) := by omega
    simp [store, this]
  · simp [store]

/-- Reading `k` units gives `k` units. -/
theorem peek_length (m : Mem) (p : Int) (k : Nat) : (peek m p k).length = k := by
  simp [peek]

/-- Blocks written over two consecutive traces. -/
theorem fwrite_blocks_append (a b : List OsCall) :
    fwrite_blocks (a ++ b) = fwrite_blocks a ++ fwrite_blocks b := by
  induction a with
  | nil => rfl
  | cons x t ih => cases x <;> simp [fwrite_blocks, ih]

/-- A unit stored by `sputc` when the put area has room. -/
theorem sputc_store (cfg : Config) (env : Env) (s : basic_popenbuf) (C k : Nat)
    (u : char_type) (hA : WriteArea s C k) (hk : k < C) :
    s.sputc cfg env u = .ok (traits_type.to_int_type u,
      { s with mem := store s.mem (s.pbase_ + (k : Int)) u, pptr_ := s.pbase_ + (k : Int) + 1 }) := by
  have h1 : s.pptr_ < s.epptr_ := by rw [hA.next, hA.limit]; omega
  have h2 : s.pptr_ ≠ 0 := by have := hA.base_pos; rw [hA.next]; omega
  simp only [sputc]
  rw [if_pos h1, if_neg h2]
  simp [pbump, hA.next]

/-- Overflow on a full region with a unit other than `0xFF`, capacity within the range
where `pbump` receives `1 - C` exactly. -/
theorem overflow_full (cfg : Config) (env : Env) (s : basic_popenbuf) (C : Nat)
    (u : char_type) (hA : WriteArea s C C) (hC1 : 1 ≤ C) (hC2 : C ≤ 2 ^ 31 + 1)
    (hu : u ≠ 255) (hW : env.fwriteShort = 0) :
    s.overflow cfg env (traits_type.to_int_type u) = .ok (traits_type.to_int_type u,
      { s with base_ := { s.base_ with
                 trace := s.base_.trace ++ [OsCall.fwrite (peek s.mem s.pbase_ C)] },
               mem := store s.mem s.pbase_ u, pptr_ := s.pbase_ + 1 }) := by
  obtain ⟨f, hf, he⟩ := hA.handle
  have hb : s.pbase_ ≠ 0 := by have := hA.base_pos; omega
  have hsz : to_size (to_ptrdiff (C : Int)) = C := by unfold to_size to_ptrdiff; omega
  have hbump : to_int ((((SIZE_MOD - C % SIZE_MOD : Nat) : Int) + 1) % (SIZE_MOD : Int))
      = 1 - (C : Int) := by
    unfold to_int SIZE_MOD; omega
  have hneof : traits_type.not_eof (traits_type.to_int_type u) = traits_type.to_int_type u := by
    have hne : ¬ ((u.val : Int) = (-1 : Int)) := by omega
    simp only [traits_type.not_eof, traits_type.to_int_type, traits_type.eof]
    exact if_neg hne
  have hC0 : C ≠ 0 := by omega
  simp [overflow, to_char_type_to_int_type, to_char_type_eof, traits_type.eq, hu, hA.size, hC0,
    popenbuf_base.write, hf, he, hsz, hb, hW, hneof, pbump, hA.next]
  rw [hbump]
  omega


/-- Invariant of a run of unit writes, for units other than `0xFF` and a capacity `C` with
`1 ≤ C ≤ 2^31 + 1`: the run returns, the blocks it hands to `::fwrite` all have `C` units,
and these blocks followed by the pending units are the units pending before followed by
the units written. -/
theorem put_units_run (cfg : Config) (env : Env) (C : Nat) (hC1 : 1 ≤ C)
    (hC2 : C ≤ 2 ^ 31 + 1) (hW : env.fwriteShort = 0) :
    ∀ (units : List char_type) (s : basic_popenbuf) (k : Nat),
      WriteArea s C k → k ≤ C → (∀ u ∈ units, u ≠ 255) →
      ∃ rs s1 bl k1, put_units cfg env units s = .ok (rs, s1) ∧
        WriteArea s1 C k1 ∧ k1 ≤ C ∧
        fwrite_blocks s1.base_.trace = fwrite_blocks s.base_.trace ++ bl ∧
        (∀ b ∈ bl, b.length = C) ∧
        bl.flatten ++ peek s1.mem s1.pbase_ k1 = peek s.mem s.pbase_ k ++ units ∧
        bl.length * C + k1 = k + units.length ∧
        (1 ≤ k ∨ units ≠ [] → 1 ≤ k1) := by
  intro units
  induction units with
  | nil =>
    intro s k hA hk _
    exact ⟨[], s, [], k, rfl, hA, hk, by simp, by simp, by simp, by simp, by simp⟩
  | cons u us ih =>
    intro s k hA hk hU
    have hu : u ≠ 255 := hU u (List.mem_cons_self u us)
    have hUs : ∀ v ∈ us, v ≠ 255 := fun v hv => hU v (List.mem_cons_of_mem u hv)
    rcases Nat.lt_or_ge k C with hlt | hge
    · -- the unit is stored
      have hstep := sputc_store cfg env s C k u hA hlt
      have hA1 : WriteArea { s with mem := store s.mem (s.pbase_ + (k : Int)) u,
                                    pptr_ := s.pbase_ + (k : Int) + 1 } C (k + 1) :=
        { handle := hA.handle, mode := hA.mode, base_pos := hA.base_pos, size := hA.size,
          next := by simp; omega, limit := hA.limit }
      obtain ⟨rs, s1, bl, k1, hrun, hA2, hk1, htr, hlen, hdata, hcount, hpos⟩ :=
        ih _ (k + 1) hA1 (by omega) hUs
      refine ⟨traits_type.to_int_type u :: rs, s1, bl, k1, ?_, hA2, hk1, ?_, hlen, ?_, ?_, ?_⟩
      · simp [put_units, hstep, hrun]
      · simpa using htr
      · rw [hdata]
        simp only []
        rw [peek_store_snoc]
        simp
      · simp only [List.length_cons]; omega
      · intro _
        exact hpos (Or.inl (by omega))
    · -- the region is full: overflow
      have hkC : k = C := by omega
      subst hkC
      have hstep := overflow_full cfg env s k u hA hC1 hC2 hu hW
      have hnot : ¬ (s.pptr_ < s.epptr_) := by rw [hA.next, hA.limit]; omega
      have hA1 : WriteArea { s with base_ := { s.base_ with
                                      trace := s.base_.trace ++ [OsCall.fwrite (peek s.mem s.pbase_ k)] },
                                    mem := store s.mem s.pbase_ u, pptr_ := s.pbase_ + 1 } k 1 :=
        { handle := hA.handle, mode := hA.mode, base_pos := hA.base_pos, size := hA.size,
          next := by simp, limit := hA.limit }
      obtain ⟨rs, s1, bl, k1, hrun, hA2, hk1, htr, hlen, hdata, hcount, hpos⟩ :=
        ih _ 1 hA1 hC1 hUs
      refine ⟨traits_type.to_int_type u :: rs, s1, peek s.mem s.pbase_ k :: bl, k1, ?_, hA2,
        hk1, ?_, ?_, ?_, ?_, ?_⟩
      · simp [put_units, sputc, hnot, hstep, hrun]
      · rw [htr]
        simp [fwrite_blocks_append, fwrite_blocks]
      · intro b hb
        rcases List.mem_cons.mp hb with h | h
        · rw [h]; exact peek_length _ _ _
        · exact hlen b h
      · have h1 : peek (store s.mem s.pbase_ u) s.pbase_ 1 = [u] := by
          simp [peek, store, List.range_succ]
        simp only [List.flatten_cons, List.append_assoc]
        rw [hdata]
        simp only []
        rw [h1]
        simp
      · simp only [List.length_cons] at hcount ⊢
        have : (bl.length + 1) * k = bl.length * k + k := by ring
        omega
      · intro _
        exact hpos (Or.inl (le_refl 1))


/-- Final `close` of an adapter opened for writing with `k` units pending: it returns, and
hands `::fwrite` exactly one block, the pending units. -/
theorem close_writes_pending (cfg : Config) (env : Env) (s : basic_popenbuf) (C k : Nat)
    (hA : WriteArea s C k) (hk : k < 2 ^ 63)
    (hP : cfg.ndebug = true ∨ env.pcloseRet ≠ -1) :
    ∃ s2, s.close cfg env = .ok (decide (env.pcloseRet ≠ -1), s2) ∧
      fwrite_blocks s2.base_.trace
        = fwrite_blocks s.base_.trace ++ [peek s.mem s.pbase_ k] := by
  obtain ⟨f, hf, he⟩ := hA.handle
  have hm : s.base_.mode &&& ios_base.out ≠ 0 := hA.mode
  have hb : s.pbase_ ≠ 0 := by have := hA.base_pos; omega
  have hn : s.pbase_ + (k : Int) - s.pbase_ = (k : Int) := by omega
  have hsz : to_size (to_ptrdiff (k : Int)) = k := by unfold to_size to_ptrdiff; omega
  rcases hP with hnd | hp
  · by_cases hp : env.pcloseRet = -1 <;>
      simp [close, sync, popenbuf_base.write, popenbuf_base.flush, popenbuf_base.pclose,
        popenbuf_base.is_open, popenbuf_base.mode, is_open, pbump, setg, setp, hf, he,
        hA.mode, hb, hnd, hp, hA.next, hn, hsz, fwrite_blocks_append, fwrite_blocks]
  · cases hnd : cfg.ndebug <;>
      simp [close, sync, popenbuf_base.write, popenbuf_base.flush, popenbuf_base.pclose,
        popenbuf_base.is_open, popenbuf_base.mode, is_open, pbump, setg, setp, hf, he,
        hA.mode, hb, hnd, hp, hA.next, hn, hsz, fwrite_blocks_append, fwrite_blocks]

/-- Total length of blocks that all have `C` units. -/
theorem flatten_length_of_all (C : Nat) (bl : List (List char_type))
    (h : ∀ b ∈ bl, b.length = C) : bl.flatten.length = bl.length * C := by
  induction bl with
  | nil => simp
  | cons b t ih =>
    have hb : b.length = C := h b (List.mem_cons_self b t)
    have ht := ih (fun x hx => h x (List.mem_cons_of_mem b hx))
    simp only [List.flatten_cons, List.length_append, List.length_cons, hb, ht]
    ring

/-- Write sessions deliver the units exactly, in blocks of `C` units and a final block
on close, when no unit is `0xFF` and the capacity is at most `2^31 + 1`: the part of
"overflow never loses data" and of the write-batching count that the code satisfies. -/
theorem write_session_delivers_units (cfg : Config) (env : Env) (s : basic_popenbuf)
    (C : Nat) (units : List char_type)
    (hC1 : 1 ≤ C) (hC2 : C ≤ 2 ^ 31 + 1) (hA : WriteArea s C 0)
    (hU : ∀ u ∈ units, u ≠ 255) (hW : env.fwriteShort = 0)
    (hP : cfg.ndebug = true ∨ env.pcloseRet ≠ -1) :
    ∃ pre post, write_session cfg env s units = .ok (pre, post) ∧
      (pre ++ post).flatten = units ∧
      (∀ b ∈ pre, b.length = C) ∧
      pre.length = (units.length - 1) / C ∧
      post = [units.drop (C * ((units.length - 1) / C))] := by
  obtain ⟨rs, s1, bl, k1, hrun, hA1, hk1, htr, hlen, hdata, hcount, hpos⟩ :=
    put_units_run cfg env C hC1 hC2 hW units s 0 hA (Nat.zero_le C) hU
  obtain ⟨s2, hclose, htr2⟩ := close_writes_pending cfg env s1 C k1 hA1 (by omega) hP
  have hfl := flatten_length_of_all C bl hlen
  have hpend : peek s1.mem s1.pbase_ k1 = units.drop (bl.length * C) := by
    have h0 : bl.flatten ++ peek s1.mem s1.pbase_ k1 = units := by simpa [peek] using hdata
    rw [← h0, List.drop_left' hfl]
  have hdiv : (units.length - 1) / C = bl.length := by
    rcases Nat.eq_zero_or_pos units.length with h0 | h0
    · have : bl.length * C = 0 := by omega
      rcases Nat.mul_eq_zero.mp this with h | h
      · simp [h0, h]
      · omega
    · have hk1pos : 1 ≤ k1 := hpos (Or.inr (by intro h; simp [h] at h0))
      apply Nat.div_eq_of_lt_le
      · omega
      · have : (bl.length + 1) * C = bl.length * C + C := by ring
        rw [this]; omega
  refine ⟨bl, [peek s1.mem s1.pbase_ k1], ?_, ?_, hlen, hdiv.symm, ?_⟩
  · simp [write_session, hrun, hclose, htr, htr2]
  · have h0 : bl.flatten ++ peek s1.mem s1.pbase_ k1 = units := by simpa [peek] using hdata
    simpa using h0
  · rw [hpend, hdiv, Nat.mul_comm]

/-- Outside the Apple family, a successful `open` with mode `out` on a closed adapter with
null regions installs the whole backing buffer as an empty write region. -/
theorem open_out_write_area (cfg : Config) (env : Env) (s : basic_popenbuf)
    (child : List char_type) (hApple : cfg.apple = false) (hPre : s.open_asserts = true)
    (hSpawn : env.spawn = some child) (hBuf : 0 < s.total_buff_) :
    ∃ s1, s.open_ cfg env ios_base.out = .ok (true, s1) ∧
      WriteArea s1 s.total_buff_size_ 0 ∧ s1.out_buff_ = s.total_buff_ ∧
      s1.in_buff_ = s.in_buff_ ∧ s1.in_buff_size_ = s.in_buff_size_ := by
  have hmode : ¬ (ios_base.out = ios_base.in_) := by decide
  have hopen : s.open_ cfg env ios_base.out = .ok (true,
      { s with base_ := { openmode_ := ios_base.out,
                          c_file_ptr_ := some { childOut := child, eofInd := false },
                          trace := s.base_.trace ++ [OsCall.popen ModeStr.w] },
               out_buff_ := s.total_buff_, out_buff_size_ := s.total_buff_size_,
               pbase_ := s.total_buff_, pptr_ := s.total_buff_,
               epptr_ := s.total_buff_ + (s.total_buff_size_ : Int) }) := by
    simp [open_, popenbuf_base.popen, hApple, hPre, hSpawn, hmode, setp]
  refine ⟨_, hopen, ?_, rfl, rfl, rfl⟩
  exact { handle := ⟨{ childOut := child, eofInd := false }, rfl, rfl⟩
          mode := by show ios_base.out &&& ios_base.out ≠ 0; decide
          base_pos := hBuf
          size := rfl
          next := by simp
          limit := rfl }

/-- Units appended to a run are written after it. -/
theorem put_units_append (cfg : Config) (env : Env) (a b : List char_type) :
    ∀ s : basic_popenbuf, put_units cfg env (a ++ b) s =
      match put_units cfg env a s with
      | .error e => .error e
      | .ok (ra, s1) =>
        match put_units cfg env b s1 with
        | .error e => .error e
        | .ok (rb, s2) => .ok (ra ++ rb, s2) := by
  induction a with
  | nil =>
    intro s
    simp only [List.nil_append, put_units]
    cases put_units cfg env b s with
    | error e => rfl
    | ok p => rfl
  | cons u us ih =>
    intro s
    rw [List.cons_append]
    simp only [put_units]
    cases hs : s.sputc cfg env u with
    | error e => rfl
    | ok p =>
      obtain ⟨r, s1⟩ := p
      simp only []
      rw [ih s1]
      cases put_units cfg env us s1 with
      | error e => rfl
      | ok q =>
        obtain ⟨ra, s2⟩ := q
        simp only []
        cases put_units cfg env b s2 with
        | error e => rfl
        | ok q2 => rfl

/-- Units that fit into the room left in the put area are stored without any OS call,
whatever their values and whatever the capacity. -/
theorem put_units_stores (cfg : Config) (env : Env) (C : Nat) :
    ∀ (units : List char_type) (s : basic_popenbuf) (k : Nat),
      WriteArea s C k → k + units.length ≤ C →
      ∃ rs m, put_units cfg env units s
          = .ok (rs, { s with mem := m, pptr_ := s.pbase_ + ((k + units.length : Nat) : Int) }) ∧
        peek m s.pbase_ (k + units.length) = peek s.mem s.pbase_ k ++ units := by
  intro units
  induction units with
  | nil =>
    intro s k hA _
    refine ⟨[], s.mem, ?_, by simp⟩
    simp only [put_units, List.length_nil, Nat.add_zero]
    rw [← hA.next]
  | cons u us ih =>
    intro s k hA hk
    simp only [List.length_cons] at hk
    have hstep := sputc_store cfg env s C k u hA (by omega)
    have hA1 : WriteArea { s with mem := store s.mem (s.pbase_ + (k : Int)) u,
                                  pptr_ := s.pbase_ + (k : Int) + 1 } C (k + 1) :=
      { handle := hA.handle, mode := hA.mode, base_pos := hA.base_pos, size := hA.size,
        next := by simp; omega, limit := hA.limit }
    obtain ⟨rs, m, hrun, hdata⟩ := ih _ (k + 1) hA1 (by omega)
    refine ⟨traits_type.to_int_type u :: rs, m, ?_, ?_⟩
    · simp only [put_units, hstep, hrun, List.length_cons]
      have : k + 1 + us.length = k + (us.length + 1) := by omega
      simp [this]
    · simp only [List.length_cons]
      have : k + (us.length + 1) = k + 1 + us.length := by omega
      rw [this, hdata]
      simp only []
      rw [peek_store_snoc]
      simp

/-- Overflow on a full region with a unit other than `0xFF`, for every capacity: the fill
pointer moves by the `int` that `pbump` receives, the conversion of `1 - C`. -/
theorem overflow_full_raw (cfg : Config) (env : Env) (s : basic_popenbuf) (C : Nat)
    (u : char_type) (hA : WriteArea s C C) (hC1 : 1 ≤ C) (hC63 : C < 2 ^ 63)
    (hu : u ≠ 255) (hW : env.fwriteShort = 0) :
    s.overflow cfg env (traits_type.to_int_type u) = .ok (traits_type.to_int_type u,
      { s with base_ := { s.base_ with
                 trace := s.base_.trace ++ [OsCall.fwrite (peek s.mem s.pbase_ C)] },
               mem := store s.mem s.pbase_ u,
               pptr_ := s.pbase_ + (C : Int) + to_int (1 - (C : Int)) }) := by
  obtain ⟨f, hf, he⟩ := hA.handle
  have hb : s.pbase_ ≠ 0 := by have := hA.base_pos; omega
  have hsz : to_size (to_ptrdiff (C : Int)) = C := by unfold to_size to_ptrdiff; omega
  have hbump : to_int ((((SIZE_MOD - C % SIZE_MOD : Nat) : Int) + 1) % (SIZE_MOD : Int))
      = to_int (1 - (C : Int)) := by
    unfold to_int SIZE_MOD; omega
  have hneof : traits_type.not_eof (traits_type.to_int_type u) = traits_type.to_int_type u := by
    have hne : ¬ ((u.val : Int) = (-1 : Int)) := by omega
    simp only [traits_type.not_eof, traits_type.to_int_type, traits_type.eof]
    exact if_neg hne
  have hC0 : C ≠ 0 := by omega
  simp [overflow, to_char_type_to_int_type, to_char_type_eof, traits_type.eq, hu, hA.size, hC0,
    popenbuf_base.write, hf, he, hsz, hb, hW, hneof, pbump, hA.next]
  rw [hbump]

/-- Second defect behind C1 and C4, independent of the unit values: `pbump` takes an
`int`.  For a capacity `C` with `2^31 + 2 ≤ C ≤ 2^32 + 2^31 + 1`, writing `C + 1` units
hands the pipe the first `C` units at the overflow, and leaves the fill level at
`2^32 + 1` instead of `1`, so that `close` writes a block of `2^32 + 1` units. -/
theorem write_session_capacity_beyond_int (cfg : Config) (env : Env) (s : basic_popenbuf)
    (C : Nat) (units : List char_type) (u : char_type)
    (hlo : 2 ^ 31 + 2 ≤ C) (hhi : C ≤ 2 ^ 32 + 2 ^ 31 + 1) (hA : WriteArea s C 0)
    (hN : units.length = C) (hu : u ≠ 255) (hW : env.fwriteShort = 0)
    (hP : cfg.ndebug = true ∨ env.pcloseRet ≠ -1) :
    ∃ pre post, write_session cfg env s (units ++ [u]) = .ok (pre, post) ∧
      pre = [units] ∧ post.map List.length = [2 ^ 32 + 1] := by
  obtain ⟨rs, m, hrun, hdata⟩ := put_units_stores cfg env C units s 0 hA (by omega)
  have hfull : (0 + units.length : Nat) = C := by omega
  rw [hfull] at hrun hdata
  have hA1 : WriteArea { s with mem := m, pptr_ := s.pbase_ + (C : Int) } C C :=
    { handle := hA.handle, mode := hA.mode, base_pos := hA.base_pos, size := hA.size,
      next := rfl, limit := hA.limit }
  have hover := overflow_full_raw cfg env _ C u hA1 (by omega) (by omega) hu hW
  have hnot : ¬ ((s.pbase_ + (C : Int)) < s.epptr_) := by rw [hA.limit]; omega
  have hdisp : to_int (1 - (C : Int)) = 1 - (C : Int) + 2 ^ 32 := by unfold to_int; omega
  have hA2 : WriteArea
      { s with base_ := { s.base_ with
                 trace := s.base_.trace ++ [OsCall.fwrite (peek m s.pbase_ C)] },
               mem := store m s.pbase_ u,
               pptr_ := s.pbase_ + (C : Int) + to_int (1 - (C : Int)) } C (2 ^ 32 + 1) :=
    { handle := hA.handle, mode := hA.mode, base_pos := hA.base_pos, size := hA.size,
      next := by simp only [hdisp]; push_cast; ring, limit := hA.limit }
  obtain ⟨s3, hclose, htr⟩ := close_writes_pending cfg env _ C (2 ^ 32 + 1) hA2 (by norm_num) hP
  have hblock : peek m s.pbase_ C = units := by simpa [peek] using hdata
  refine ⟨[units], [peek (store m s.pbase_ u) s.pbase_ (2 ^ 32 + 1)], ?_, rfl, ?_⟩
  · rw [write_session, put_units_append, hrun]
    simp only [put_units, sputc, hnot, if_false]
    simp only [] at hover
    rw [hover]
    simp only []
    rw [hclose]
    simp only [htr, fwrite_blocks_append, fwrite_blocks, hblock]
    simp
  · simp only [List.map_cons, List.map_nil, peek_length]

/-! ## Reading: refill, unit reads over a whole source -/

/-- Units stored by `fread` are read back as they were stored. -/
theorem peek_poke (m : Mem) (p : Int) (data : List char_type) :
    peek (poke m p data) p data.length = data := by
  apply List.ext_getElem
  · simp [peek]
  · intro i h1 h2
    have hi : i < data.length := h2
    have hc : p ≤ p + (i : Int) ∧ p + (i : Int) < p + (data.length : Int) := by omega
    have hidx : (p + (i : Int) - p).toNat = i := by omega
    simp [peek, poke, hc, hidx, List.getD_eq_getElem?_getD, List.getElem?_eq_getElem hi]
    intro h
    omega

/-- Refill from a stream that is not at end-of-file: one `fread` of `C` units; the units
received are stored at the start of the region and the get area spans them.  The value
returned is the unit at the start of the region, also when no unit was received. -/
theorem underflow_refill (cfg : Config) (s : basic_popenbuf) (C : Nat) (src : List char_type)
    (hA : ReadArea s C src) (hC : C < 2 ^ 63) :
    s.underflow cfg = .ok
      (traits_type.to_int_type (poke s.mem s.eback_ (src.take C) s.eback_),
       { s with base_ := { s.base_ with
                  c_file_ptr_ := some { childOut := src.drop C,
                                        eofInd := decide ((src.take C).length < C) },
                  trace := s.base_.trace ++ [OsCall.fread C] },
                mem := poke s.mem s.eback_ (src.take C),
                gptr_ := s.eback_,
                egptr_ := s.eback_ + ((src.take C).length : Int) }) := by
  have hb : s.eback_ ≠ 0 := by have := hA.base_pos; omega
  have hsz : to_size (to_ptrdiff (C : Int)) = C := by unfold to_size to_ptrdiff; omega
  have hl : (src.take C).length ≤ C := by simp
  have hret : to_ptrdiff ((src.take C).length : Int) = ((src.take C).length : Int) := by
    unfold to_ptrdiff; omega
  have hne : ¬ (((src.take C).length : Int) = -1) := by omega
  simp only [underflow, popenbuf_base.read, hA.handle, hA.size, hsz, hret]
  simp [hb, hne, setg, -List.length_take]

/-- One more unit read from memory, seen from the front. -/
theorem peek_cons (m : Mem) (p : Int) (n : Nat) :
    peek m p (n + 1) = m p :: peek m (p + 1) n := by
  simp only [peek, List.range_succ_eq_map, List.map_cons, List.map_map]
  congr 1
  · simp
  · apply List.map_congr_left
    intro i _
    simp only [Function.comp, Nat.succ_eq_add_one]
    congr 1
    push_cast
    ring

/-- Unit reads split: `a + b` reads are `a` reads followed by `b` reads. -/
theorem get_units_add (cfg : Config) (a b : Nat) :
    ∀ s : basic_popenbuf, get_units cfg (a + b) s =
      match get_units cfg a s with
      | .error e => .error e
      | .ok (ra, s1) =>
        match get_units cfg b s1 with
        | .error e => .error e
        | .ok (rb, s2) => .ok (ra ++ rb, s2) := by
  induction a with
  | zero =>
    intro s
    simp only [Nat.zero_add, get_units]
    cases get_units cfg b s with
    | error e => rfl
    | ok p => rfl
  | succ n ih =>
    intro s
    have : n + 1 + b = (n + b) + 1 := by omega
    rw [this]
    simp only [get_units]
    cases hs : s.sbumpc cfg with
    | error e => rfl
    | ok p =>
      obtain ⟨r, s1⟩ := p
      simp only []
      rw [ih s1]
      cases get_units cfg n s1 with
      | error e => rfl
      | ok q =>
        obtain ⟨ra, s2⟩ := q
        simp only []
        cases get_units cfg b s2 with
        | error e => rfl
        | ok q2 => rfl

/-- Units available in the get area are returned in order without any OS call. -/
theorem get_units_drain (cfg : Config) :
    ∀ (avail : List char_type) (s : basic_popenbuf),
      0 < s.gptr_ → s.egptr_ = s.gptr_ + (avail.length : Int) →
      peek s.mem s.gptr_ avail.length = avail →
      get_units cfg avail.length s
        = .ok (avail.map traits_type.to_int_type, { s with gptr_ := s.egptr_ }) := by
  intro avail
  induction avail with
  | nil =>
    intro s _ he _
    have h : s.egptr_ = s.gptr_ := by simpa using he
    cases s
    simp only [List.length_nil, get_units, List.map_nil]
    simp only [] at h
    simp [h]
  | cons a t ih =>
    intro s hg he hp
    simp only [List.length_cons] at he hp ⊢
    rw [peek_cons] at hp
    have ha : s.mem s.gptr_ = a := (List.cons.inj hp).1
    have ht : peek s.mem (s.gptr_ + 1) t.length = t := (List.cons.inj hp).2
    have hlt : s.gptr_ < s.egptr_ := by rw [he]; push_cast; omega
    have hne : s.gptr_ ≠ 0 := by omega
    have hstep : s.sbumpc cfg = .ok (traits_type.to_int_type a, s.gbump 1) := by
      simp [sbumpc, hlt, hne, ha]
    have hrec := ih (s.gbump 1) (by simp [gbump]; omega) (by simp [gbump, he]; ring)
      (by simpa [gbump] using ht)
    simp only [get_units, hstep, hrec, List.map_cons]
    simp [gbump]

/-- The integer value of a unit is never `eof`. -/
theorem to_int_type_ne_eof (x : char_type) : traits_type.to_int_type x ≠ traits_type.eof := by
  have hne : ¬ ((x.val : Int) = (-1 : Int)) := by omega
  exact hne

/-- Unit read at an exhausted get area when the stream is at end-of-file: end-of-stream
is reported and the get area is cleared. -/
theorem sbumpc_at_eof (cfg : Config) (s : basic_popenbuf) (f : CFile)
    (hf : s.base_.c_file_ptr_ = some f) (he : f.eofInd = true) (hE : s.egptr_ ≤ s.gptr_) :
    s.sbumpc cfg = .ok (traits_type.eof, s.setg 0 0 0) := by
  have hnot : ¬ (s.gptr_ < s.egptr_) := by omega
  simp [sbumpc, hnot, uflow, underflow, popenbuf_base.read, hf, he]

/-- Unit read at an exhausted get area when the stream is not at end-of-file: the refill
runs and the unit at the start of the region is returned, also when the refill received
nothing. -/
theorem sbumpc_refill (cfg : Config) (s : basic_popenbuf) (C : Nat) (src : List char_type)
    (hA : ReadArea s C src) (hC : C < 2 ^ 63) (hE : s.egptr_ ≤ s.gptr_) :
    s.sbumpc cfg = .ok
      (traits_type.to_int_type (poke s.mem s.eback_ (src.take C) s.eback_),
       { s with base_ := { s.base_ with
                  c_file_ptr_ := some { childOut := src.drop C,
                                        eofInd := decide ((src.take C).length < C) },
                  trace := s.base_.trace ++ [OsCall.fread C] },
                mem := poke s.mem s.eback_ (src.take C),
                gptr_ := s.eback_ + 1,
                egptr_ := s.eback_ + ((src.take C).length : Int) }) := by
  have hnot : ¬ (s.gptr_ < s.egptr_) := by omega
  have hb : s.eback_ ≠ 0 := by have := hA.base_pos; omega
  have hu := underflow_refill cfg s C src hA hC
  simp only [sbumpc, hnot, if_false, uflow, hu]
  simp [to_int_type_ne_eof, hb, gbump]

/-- Refill and drain of one chunk: at an exhausted get area over a source that still has
units, the next `min C (length src)` reads return the next units of the source. -/
theorem get_units_chunk (cfg : Config) (s : basic_popenbuf) (C : Nat) (src : List char_type)
    (hA : ReadArea s C src) (hC1 : 1 ≤ C) (hC : C < 2 ^ 63) (hE : s.egptr_ ≤ s.gptr_)
    (hne : src ≠ []) :
    get_units cfg (src.take C).length s = .ok ((src.take C).map traits_type.to_int_type,
       { s with base_ := { s.base_ with
                  c_file_ptr_ := some { childOut := src.drop C,
                                        eofInd := decide ((src.take C).length < C) },
                  trace := s.base_.trace ++ [OsCall.fread C] },
                mem := poke s.mem s.eback_ (src.take C),
                gptr_ := s.eback_ + ((src.take C).length : Int),
                egptr_ := s.eback_ + ((src.take C).length : Int) }) := by
  have hstep := sbumpc_refill cfg s C src hA hC hE
  have hpk := peek_poke s.mem s.eback_ (src.take C)
  obtain ⟨c0, ct, hchunk⟩ : ∃ c0 ct, src.take C = c0 :: ct := by
    cases src with
    | nil => exact absurd rfl hne
    | cons a t =>
      obtain ⟨n, hn⟩ : ∃ n, C = n + 1 := ⟨C - 1, by omega⟩
      exact ⟨a, t.take n, by rw [hn, List.take_succ_cons]⟩
  rw [hchunk] at hstep hpk ⊢
  simp only [List.length_cons] at hstep hpk ⊢
  rw [peek_cons] at hpk
  have h0 : poke s.mem s.eback_ (c0 :: ct) s.eback_ = c0 := (List.cons.inj hpk).1
  have ht : peek (poke s.mem s.eback_ (c0 :: ct)) (s.eback_ + 1) ct.length = ct :=
    (List.cons.inj hpk).2
  have hpos := hA.base_pos
  have hdrain := get_units_drain cfg ct
    { s with base_ := { s.base_ with
               c_file_ptr_ := some { childOut := src.drop C,
                                     eofInd := decide (ct.length + 1 < C) },
               trace := s.base_.trace ++ [OsCall.fread C] },
             mem := poke s.mem s.eback_ (c0 :: ct),
             gptr_ := s.eback_ + 1,
             egptr_ := s.eback_ + ((ct.length + 1 : Nat) : Int) }
    (by simp only []; omega) (by simp only []; push_cast; ring) (by simpa using ht)
  have hsplit : get_units cfg (ct.length + 1) s = get_units cfg (1 + ct.length) s := by
    rw [Nat.add_comm]
  rw [hsplit, get_units_add]
  simp only [get_units, hstep, h0]
  simp only [] at hdrain
  rw [hdrain]
  simp

/-- Unit reads over a whole source, from an exhausted get area of capacity `C`: when the
length of the source is not a multiple of `C`, the reads return the units of the source
and then end-of-stream; when it is a multiple of `C` (the empty source included), they
return the units of the source, then one more unit that the source never delivered, and
only then end-of-stream. -/
theorem get_units_source (cfg : Config) (C : Nat) (hC1 : 1 ≤ C) (hC : C < 2 ^ 63) :
    ∀ (n : Nat) (src : List char_type) (s : basic_popenbuf), src.length = n →
      ReadArea s C src → s.egptr_ ≤ s.gptr_ →
      (src.length % C ≠ 0 → ∃ s1, get_units cfg (src.length + 1) s
          = .ok (src.map traits_type.to_int_type ++ [traits_type.eof], s1)) ∧
      (src.length % C = 0 → ∃ x s1, get_units cfg (src.length + 2) s
          = .ok (src.map traits_type.to_int_type
                  ++ [traits_type.to_int_type x, traits_type.eof], s1)) := by
  intro n
  induction n using Nat.strong_induction_on with
  | _ n ih =>
    intro src s hlen hA hE
    by_cases hnil : src = []
    · subst hnil
      refine ⟨fun h => absurd (by simp) h, fun _ => ?_⟩
      have hstep := sbumpc_refill cfg s C [] hA hC hE
      simp only [List.take_nil, List.drop_nil, List.length_nil] at hstep
      have hC0 : (0 : Nat) < C := by omega
      have hlast := sbumpc_at_eof cfg
        { s with base_ := { s.base_ with
                   c_file_ptr_ := some { childOut := [], eofInd := decide (0 < C) },
                   trace := s.base_.trace ++ [OsCall.fread C] },
                 mem := poke s.mem s.eback_ [],
                 gptr_ := s.eback_ + 1,
                 egptr_ := s.eback_ + ((0 : Nat) : Int) }
        { childOut := [], eofInd := decide (0 < C) } rfl (by simp [hC0]) (by simp)
      simp only [] at hlast
      have hfin : ∃ s1, get_units cfg 2 s = .ok
          ([traits_type.to_int_type (poke s.mem s.eback_ [] s.eback_), traits_type.eof],
            s1) := by
        simp only [get_units, hstep]
        rw [hlast]
        exact ⟨_, rfl⟩
      obtain ⟨s1, h⟩ := hfin
      exact ⟨poke s.mem s.eback_ [] s.eback_, s1, by simpa using h⟩
    · have hchunk := get_units_chunk cfg s C src hA hC1 hC hE hnil
      have hpos : 0 < src.length := List.length_pos.mpr hnil
      rcases Nat.lt_or_ge src.length C with hlt | hge
      · have htake : src.take C = src := List.take_of_length_le (by omega)
        have hdrop : src.drop C = [] := List.drop_of_length_le (by omega)
        rw [htake, hdrop] at hchunk
        refine ⟨fun _ => ?_, fun h0 => ?_⟩
        · have hlast := sbumpc_at_eof cfg
            { s with base_ := { s.base_ with
                       c_file_ptr_ := some { childOut := [],
                                             eofInd := decide (src.length < C) },
                       trace := s.base_.trace ++ [OsCall.fread C] },
                     mem := poke s.mem s.eback_ src,
                     gptr_ := s.eback_ + (src.length : Int),
                     egptr_ := s.eback_ + (src.length : Int) }
            { childOut := [], eofInd := decide (src.length < C) } rfl (by simp [hlt])
            (by simp)
          simp only [] at hlast
          rw [get_units_add, hchunk]
          simp only [get_units]
          rw [hlast]
          exact ⟨_, rfl⟩
        · rw [Nat.mod_eq_of_lt hlt] at h0
          omega
      · have hl : (src.take C).length = C := by rw [List.length_take]; omega
        rw [hl] at hchunk
        have hfalse : decide (C < C) = false := by simp
        rw [hfalse] at hchunk
        have hdl : (src.drop C).length = n - C := by rw [List.length_drop]; omega
        have hA1 : ReadArea
            { s with base_ := { s.base_ with
                       c_file_ptr_ := some { childOut := src.drop C, eofInd := false },
                       trace := s.base_.trace ++ [OsCall.fread C] },
                     mem := poke s.mem s.eback_ (src.take C),
                     gptr_ := s.eback_ + (C : Int),
                     egptr_ := s.eback_ + (C : Int) } C (src.drop C) :=
          { handle := rfl, base_pos := hA.base_pos, size := hA.size }
        obtain ⟨hgood, hbad⟩ := ih (n - C) (by omega) (src.drop C) _ hdl hA1 (by simp)
        have hmod : (src.drop C).length % C = src.length % C := by
          rw [hdl, ← hlen]
          have h1 : src.length = src.length - C + C := by omega
          conv_rhs => rw [h1, Nat.add_mod_right]
        have hsrc : src.map traits_type.to_int_type
            = (src.take C).map traits_type.to_int_type
              ++ (src.drop C).map traits_type.to_int_type := by
          rw [← List.map_append, List.take_append_drop]
        have hn1 : src.length + 1 = C + ((src.drop C).length + 1) := by rw [hdl]; omega
        have hn2 : src.length + 2 = C + ((src.drop C).length + 2) := by rw [hdl]; omega
        refine ⟨fun h => ?_, fun h => ?_⟩
        · obtain ⟨s1, hrest⟩ := hgood (by rw [hmod]; exact h)
          refine ⟨s1, ?_⟩
          rw [hn1, get_units_add, hchunk]
          simp only []
          rw [hrest, hsrc, List.append_assoc]
        · obtain ⟨x, s1, hrest⟩ := hbad (by rw [hmod]; exact h)
          refine ⟨x, s1, ?_⟩
          rw [hn2, get_units_add, hchunk]
          simp only []
          rw [hrest, hsrc, List.append_assoc]

/-- Read requests over two consecutive traces. -/
theorem fread_counts_append (a b : List OsCall) :
    fread_counts (a ++ b) = fread_counts a ++ fread_counts b := by
  induction a with
  | nil => rfl
  | cons x t ih => cases x <;> simp [fread_counts, ih]

/-- Outside the Apple family, a successful `open` with mode `in` on a closed adapter with
null regions installs the whole backing buffer as read region, with an empty get area. -/
theorem open_in_read_area (cfg : Config) (env : Env) (s : basic_popenbuf)
    (child : List char_type) (hApple : cfg.apple = false) (hPre : s.open_asserts = true)
    (hSpawn : env.spawn = some child) (hBuf : 0 < s.total_buff_) :
    ∃ s1, s.open_ cfg env ios_base.in_ = .ok (true, s1) ∧
      ReadArea s1 s.total_buff_size_ child ∧ s1.egptr_ ≤ s1.gptr_ ∧
      s1.in_buff_ = s.total_buff_ := by
  have hopen : s.open_ cfg env ios_base.in_ = .ok (true,
      { s with base_ := { openmode_ := ios_base.in_,
                          c_file_ptr_ := some { childOut := child, eofInd := false },
                          trace := s.base_.trace ++ [OsCall.popen ModeStr.r] },
               in_buff_ := s.total_buff_, in_buff_size_ := s.total_buff_size_,
               eback_ := s.total_buff_, gptr_ := s.total_buff_,
               egptr_ := s.total_buff_ }) := by
    simp [open_, popenbuf_base.popen, hApple, hPre, hSpawn, setg]
  refine ⟨_, hopen, ?_, le_refl _, rfl⟩
  exact { handle := rfl, base_pos := hBuf, size := rfl }

/-- The defect behind C3, for every capacity: when the source delivers exactly `C` units,
the first underflow issues one `fread` of `C` units and exposes them all, and the next
underflow, after the units are consumed, returns a unit instead of end-of-stream. -/
theorem underflow_after_exact_fill (cfg : Config) (s : basic_popenbuf) (C : Nat)
    (src : List char_type) (hA : ReadArea s C src) (hC : C < 2 ^ 63)
    (hlen : src.length = C) :
    ∃ r1 s1 r2 s2, s.underflow cfg = .ok (r1, s1) ∧
      fread_counts s1.base_.trace = fread_counts s.base_.trace ++ [C] ∧
      s1.egptr_ - s1.eback_ = (C : Int) ∧ peek s1.mem s1.eback_ C = src ∧
      (s1.gbump (C : Int)).underflow cfg = .ok (r2, s2) ∧ r2 ≠ traits_type.eof := by
  have h1 := underflow_refill cfg s C src hA hC
  have htake : src.take C = src := List.take_of_length_le (by omega)
  have hdrop : src.drop C = [] := List.drop_of_length_le (by omega)
  rw [htake, hdrop, hlen] at h1
  have hfalse : decide (C < C) = false := by simp
  rw [hfalse] at h1
  have hA1 : ReadArea
      ({ s with base_ := { s.base_ with
                  c_file_ptr_ := some { childOut := [], eofInd := false },
                  trace := s.base_.trace ++ [OsCall.fread C] },
                mem := poke s.mem s.eback_ src,
                gptr_ := s.eback_,
                egptr_ := s.eback_ + (C : Int) }.gbump (C : Int)) C [] :=
    { handle := rfl, base_pos := hA.base_pos, size := hA.size }
  have h2 := underflow_refill cfg _ C [] hA1 hC
  refine ⟨_, _, _, _, h1, ?_, ?_, ?_, h2, to_int_type_ne_eof _⟩
  · simp [fread_counts_append, fread_counts]
  · simp
  · have := peek_poke s.mem s.eback_ src
    rw [hlen] at this
    exact this

/-! ## Sync, close and open: general facts -/

/-- The part of the sync claim (C6) the code satisfies: with `k` units pending,
`1 ≤ k ≤ 2^31`, a pipe that accepts the write and a flush that succeeds, `sync` returns 0,
hands `::fwrite` exactly the pending units, flushes, and leaves the write region empty. -/
theorem sync_pending (cfg : Config) (env : Env) (s : basic_popenbuf) (C k : Nat)
    (hA : WriteArea s C k) (hk1 : 1 ≤ k) (hk2 : k ≤ 2 ^ 31)
    (hW : env.fwriteShort = 0) (hF : env.fflushRet = 0) :
    s.sync cfg env = .ok (0,
      { s with base_ := { s.base_ with
                 trace := s.base_.trace ++ [OsCall.fwrite (peek s.mem s.pbase_ k)]
                   ++ [OsCall.fflush] },
               pptr_ := s.pbase_ }) := by
  obtain ⟨f, hf, he⟩ := hA.handle
  have hb : s.pbase_ ≠ 0 := by have := hA.base_pos; omega
  have hn : s.pbase_ + (k : Int) - s.pbase_ = (k : Int) := by omega
  have hsz : to_size (to_ptrdiff (k : Int)) = k := by unfold to_size to_ptrdiff; omega
  have hbump : to_int (-to_ptrdiff (k : Int)) = -(k : Int) := by
    unfold to_int to_ptrdiff; omega
  have hk0 : k ≠ 0 := by omega
  cases hnd : cfg.ndebug <;>
    simp [sync, popenbuf_base.write, popenbuf_base.flush, popenbuf_base.is_open,
      popenbuf_base.mode, pbump, hf, he, hA.mode, hb, hnd, hA.next, hn, hsz, hbump, hW, hF, hk0]

/-- The defect behind C6, for every adapter opened for writing: with nothing pending
`sync` returns `-1` whatever `::fwrite` and `::fflush` return, after handing `::fwrite`
an empty block. -/
theorem sync_nothing_pending (cfg : Config) (env : Env) (s : basic_popenbuf) (C : Nat)
    (hA : WriteArea s C 0) :
    ∃ s1, s.sync cfg env = .ok (-1, s1) ∧ s1.pptr_ = s1.pbase_ ∧
      fwrite_blocks s1.base_.trace = fwrite_blocks s.base_.trace ++ [[]] := by
  obtain ⟨f, hf, he⟩ := hA.handle
  have hn : s.pptr_ - s.pbase_ = 0 := by rw [hA.next]; simp
  have hp : s.pptr_ = s.pbase_ := by rw [hA.next]; simp
  have hsz : to_size (to_ptrdiff 0) = 0 := by decide
  have hbump : to_int (-to_ptrdiff 0) = 0 := by decide
  cases hnd : cfg.ndebug <;>
    simp [sync, popenbuf_base.write, popenbuf_base.flush, popenbuf_base.is_open,
      popenbuf_base.mode, pbump, hf, he, hA.mode, hnd, hn, hsz, hbump,
      fwrite_blocks_append, fwrite_blocks, peek, hp]

/-- An adapter whose mode lacks the `out` bit: `sync` returns 0 and does nothing. -/
theorem sync_not_writing (cfg : Config) (env : Env) (s : basic_popenbuf)
    (hm : s.base_.openmode_ &&& ios_base.out = 0) : s.sync cfg env = .ok (0, s) := by
  simp [sync, popenbuf_base.mode, hm]

/-- The pipe handle's `pclose` on a closed handle returns `false` and changes nothing. -/
theorem pclose_closed (cfg : Config) (env : Env) (b : popenbuf_base)
    (h : b.c_file_ptr_ = none) : b.pclose cfg env = .ok (false, b) := by
  simp [popenbuf_base.pclose, popenbuf_base.is_open, h]

/-- The part of idempotent close (C8) the code satisfies: `close` on a closed adapter
whose recorded mode lacks the `out` bit returns failure and changes nothing, OS trace
included. -/
theorem close_closed_not_writing (cfg : Config) (env : Env) (s : basic_popenbuf)
    (h : s.base_.c_file_ptr_ = none) (hm : s.base_.openmode_ &&& ios_base.out = 0) :
    s.close cfg env = .ok (false, s) := by
  simp [close, popenbuf_base.pclose, popenbuf_base.is_open, popenbuf_base.mode, is_open, h, hm]

/-- The defect behind C8, for every closed adapter whose recorded mode has the `out` bit:
`close` reaches the pipe handle's `write` on the closed handle and does not return. -/
theorem close_closed_writing_faults (cfg : Config) (env : Env) (s : basic_popenbuf)
    (h : s.base_.c_file_ptr_ = none) (hm : s.base_.openmode_ &&& ios_base.out ≠ 0) :
    s.close cfg env
      = .error (if cfg.ndebug = true then Fault.undefined else Fault.assertion) := by
  cases hnd : cfg.ndebug <;>
    simp [close, sync, popenbuf_base.write, popenbuf_base.mode, h, hm, hnd]

/-- The defect behind C9, for every closed adapter of a release build outside the Apple
family: when the spawn fails, `open` for reading returns failure and leaves the adapter
closed, with the whole backing buffer installed as read region and get area. -/
theorem open_failed_spawn_installs_region (cfg : Config) (env : Env) (s : basic_popenbuf)
    (hApple : cfg.apple = false) (hNd : cfg.ndebug = true) (hSpawn : env.spawn = none) :
    ∃ s1, s.open_ cfg env ios_base.in_ = .ok (false, s1) ∧ s1.is_open = false ∧
      s1.in_buff_ = s.total_buff_ ∧ s1.in_buff_size_ = s.total_buff_size_ ∧
      s1.eback_ = s.total_buff_ ∧ s1.gptr_ = s.total_buff_ ∧ s1.egptr_ = s.total_buff_ := by
  have hopen : s.open_ cfg env ios_base.in_ = .ok (false,
      { s with base_ := { openmode_ := ios_base.in_, c_file_ptr_ := none,
                          trace := s.base_.trace ++ [OsCall.popen ModeStr.r] },
               in_buff_ := s.total_buff_, in_buff_size_ := s.total_buff_size_,
               eback_ := s.total_buff_, gptr_ := s.total_buff_,
               egptr_ := s.total_buff_ }) := by
    simp [open_, popenbuf_base.popen, hApple, hNd, hSpawn, setg]
  exact ⟨_, hopen, rfl, rfl, rfl, rfl, rfl, rfl⟩

/-! ## Frame facts and the region invariant of debug builds -/

/-- The pipe handle's `write` leaves the stream pointer and the mode as they are. -/
theorem write_frame (cfg : Config) (env : Env) (b b1 : popenbuf_base) (mem : Mem)
    (buf n : Int) (r : Bool) (h : b.write cfg env mem buf n = .ok (r, b1)) :
    b1.c_file_ptr_ = b.c_file_ptr_ ∧ b1.openmode_ = b.openmode_ := by
  cases hf : b.c_file_ptr_ with
  | none => cases hnd : cfg.ndebug <;> simp [popenbuf_base.write, hf, hnd] at h
  | some f =>
    by_cases he : f.eofInd = true
    · simp [popenbuf_base.write, hf, he] at h
      obtain ⟨_, rfl⟩ := h
      simp [hf]
    · by_cases hb : buf = 0 ∧ to_size n ≠ 0
      · simp [popenbuf_base.write, hf, he, hb] at h
      · simp only [popenbuf_base.write, hf, he, hb, if_false] at h
        simp at h
        obtain ⟨_, rfl⟩ := h
        simp [hf]

/-- The pipe handle's `flush` leaves the stream pointer and the mode as they are. -/
theorem flush_frame (cfg : Config) (env : Env) (b b1 : popenbuf_base) (r : Bool)
    (h : b.flush cfg env = .ok (r, b1)) :
    b1.c_file_ptr_ = b.c_file_ptr_ ∧ b1.openmode_ = b.openmode_ := by
  unfold popenbuf_base.flush at h
  split_ifs at h
  all_goals (try simp at h)
  all_goals (obtain ⟨_, rfl⟩ := h; simp)

/-- The pipe handle's `read` returns only on an open handle, which it leaves open; the
mode stays as it is. -/
theorem read_frame (cfg : Config) (b b1 : popenbuf_base) (mem m1 : Mem)
    (buf n : Int) (r : Int) (h : b.read cfg mem buf n = .ok (r, b1, m1)) :
    b1.c_file_ptr_.isSome = true ∧ b.c_file_ptr_.isSome = true ∧
      b1.openmode_ = b.openmode_ := by
  cases hf : b.c_file_ptr_ with
  | none => cases hnd : cfg.ndebug <;> simp [popenbuf_base.read, hf, hnd] at h
  | some f =>
    obtain ⟨co, ei⟩ := f
    cases ei
    · simp only [popenbuf_base.read, hf] at h
      split_ifs at h
      all_goals (try simp at h)
      all_goals first
        | contradiction
        | (obtain ⟨_, rfl, _⟩ := h; simp [hf])
    · simp [popenbuf_base.read, hf] at h
      obtain ⟨_, rfl, _⟩ := h
      simp [hf]

/-- Function `sync` changes neither the regions, nor the backing buffer, nor whether the
handle is open. -/
theorem sync_frame (cfg : Config) (env : Env) (s s1 : basic_popenbuf) (r : Int)
    (h : s.sync cfg env = .ok (r, s1)) :
    s1.base_.c_file_ptr_ = s.base_.c_file_ptr_ ∧ s1.base_.openmode_ = s.base_.openmode_ ∧
    s1.in_buff_ = s.in_buff_ ∧ s1.out_buff_ = s.out_buff_ ∧
    s1.in_buff_size_ = s.in_buff_size_ ∧ s1.out_buff_size_ = s.out_buff_size_ ∧
    s1.total_buff_ = s.total_buff_ ∧ s1.total_buff_size_ = s.total_buff_size_ ∧
    s1.user_custom_buffer_ = s.user_custom_buffer_ ∧
    s1.pbase_ = s.pbase_ ∧ s1.epptr_ = s.epptr_ := by
  unfold sync at h
  split_ifs at h
  · cases hw : s.base_.write cfg env s.mem s.pbase_ (to_ptrdiff (s.pptr_ - s.pbase_)) with
    | error e => simp [hw] at h
    | ok p =>
      obtain ⟨ok, b⟩ := p
      obtain ⟨hw1, hw2⟩ := write_frame cfg env _ _ _ _ _ _ hw
      simp only [hw] at h
      cases hf : popenbuf_base.flush cfg env
          ({ s with base_ := b }.pbump (to_int (-to_ptrdiff (s.pptr_ - s.pbase_)))).base_ with
      | error e => simp [hf] at h
      | ok q =>
        obtain ⟨fl, b2⟩ := q
        obtain ⟨hf1, hf2⟩ := flush_frame cfg env _ _ _ hf
        simp only [hf] at h
        simp at h
        obtain ⟨_, rfl⟩ := h
        simp [pbump] at hf1 hf2 ⊢
        exact ⟨hf1.trans hw1, hf2.trans hw2⟩
  · simp at h
    obtain ⟨_, rfl⟩ := h
    simp

/-- Function `underflow` returns only on an open adapter, and changes neither the regions,
nor the backing buffer, nor whether the adapter is open. -/
theorem underflow_frame (cfg : Config) (s s1 : basic_popenbuf) (r : int_type)
    (h : s.underflow cfg = .ok (r, s1)) :
    s1.is_open = true ∧ s.is_open = true ∧
    s1.in_buff_ = s.in_buff_ ∧ s1.out_buff_ = s.out_buff_ ∧
    s1.in_buff_size_ = s.in_buff_size_ ∧ s1.out_buff_size_ = s.out_buff_size_ ∧
    s1.total_buff_ = s.total_buff_ ∧ s1.total_buff_size_ = s.total_buff_size_ ∧
    s1.user_custom_buffer_ = s.user_custom_buffer_ := by
  unfold underflow at h
  cases hr : s.base_.read cfg s.mem s.eback_ (to_ptrdiff (s.in_buff_size_ : Int)) with
  | error e => simp [hr] at h
  | ok p =>
    obtain ⟨n, b, m⟩ := p
    obtain ⟨h1, h2, _⟩ := read_frame cfg _ _ _ _ _ _ _ hr
    simp only [hr] at h
    split_ifs at h
    all_goals (try simp at h)
    all_goals first
      | contradiction
      | (obtain ⟨_, rfl⟩ := h; simp [setg, is_open, popenbuf_base.is_open, h1, h2])

/-- Function `overflow` changes neither the regions, nor the backing buffer, nor whether
the adapter is open. -/
theorem overflow_frame (cfg : Config) (env : Env) (s s1 : basic_popenbuf) (c r : int_type)
    (h : s.overflow cfg env c = .ok (r, s1)) :
    s1.is_open = s.is_open ∧
    s1.in_buff_ = s.in_buff_ ∧ s1.out_buff_ = s.out_buff_ ∧
    s1.in_buff_size_ = s.in_buff_size_ ∧ s1.out_buff_size_ = s.out_buff_size_ ∧
    s1.total_buff_ = s.total_buff_ ∧ s1.total_buff_size_ = s.total_buff_size_ ∧
    s1.user_custom_buffer_ = s.user_custom_buffer_ := by
  unfold overflow at h
  split_ifs at h with h1 h2
  · cases hs : s.sync cfg env with
    | error e => simp [hs] at h
    | ok p =>
      obtain ⟨q, s2⟩ := p
      have hf := sync_frame cfg env s s2 q hs
      simp [hs] at h
      obtain ⟨_, rfl⟩ := h
      simp [is_open, popenbuf_base.is_open, hf]
  · cases hw : s.base_.write cfg env (fun _ => traits_type.to_char_type c) 1 1 with
    | error e => simp [hw] at h
    | ok p =>
      obtain ⟨ok, b⟩ := p
      obtain ⟨hw1, _⟩ := write_frame cfg env _ _ _ _ _ _ hw
      simp only [hw] at h
      split_ifs at h
      all_goals (try simp at h)
      all_goals first
        | contradiction
        | (obtain ⟨_, rfl⟩ := h; simp [is_open, popenbuf_base.is_open, hw1])
  · cases hw : s.base_.write cfg env s.mem s.pbase_ (to_ptrdiff (s.out_buff_size_ : Int)) with
    | error e => simp [hw] at h
    | ok p =>
      obtain ⟨ok, b⟩ := p
      obtain ⟨hw1, _⟩ := write_frame cfg env _ _ _ _ _ _ hw
      simp only [hw] at h
      split_ifs at h
      all_goals (try simp at h)
      all_goals first
        | contradiction
        | (obtain ⟨_, rfl⟩ := h; simp [is_open, popenbuf_base.is_open, hw1, pbump])

/-- In a debug build `setbuf` never changes the adapter: it returns only on an open
adapter, where it is rejected. -/
theorem setbuf_debug (cfg : Config) (env : Env) (s s1 : basic_popenbuf) (buf n : Int)
    (r : Bool) (hd : cfg.ndebug = false) (h : s.setbuf cfg env buf n = .ok (r, s1)) :
    r = false ∧ s1 = s := by
  unfold setbuf at h
  cases ho : s.is_open <;> simp [hd, ho] at h
  exact ⟨h.1, h.2.symm⟩

/-- In a debug build `open` returns only with success, on an adapter that was closed with
null regions, and leaves it open with at least one region at the backing buffer. -/
theorem open_debug (cfg : Config) (env : Env) (s s1 : basic_popenbuf) (mode : Nat)
    (r : Bool) (hd : cfg.ndebug = false) (h : s.open_ cfg env mode = .ok (r, s1)) :
    r = true ∧ s1.is_open = true ∧ s1.total_buff_ = s.total_buff_ ∧
      (s1.in_buff_ = s.total_buff_ ∨ s1.out_buff_ = s.total_buff_) := by
  unfold open_ at h
  cases hpre : s.open_asserts
  · simp [hd, hpre] at h
  · simp only [hd, hpre, Bool.true_eq_false, and_false, if_false] at h
    cases hp : s.base_.popen cfg env mode with
    | error e => simp [hp] at h
    | ok p =>
      obtain ⟨ok, b⟩ := p
      simp only [hp] at h
      have hb : ok = true ∧ b.c_file_ptr_.isSome = true := by
        unfold popenbuf_base.popen at hp
        simp only [hd] at hp
        cases hsp : env.spawn <;> simp [hsp] at hp <;> split_ifs at hp <;> simp at hp
        all_goals (obtain ⟨rfl, rfl⟩ := hp; simp)
      obtain ⟨rfl, hb2⟩ := hb
      split_ifs at h
      all_goals (try simp at h)
      all_goals first
        | contradiction
        | (obtain ⟨rfl, rfl⟩ := h; simp [setg, setp, is_open, popenbuf_base.is_open, hb2])

/-- In a debug build `close` returns on an open adapter only with success, leaving it
closed with null regions; on a closed adapter it returns only with failure, leaving it
unchanged. -/
theorem close_debug (cfg : Config) (env : Env) (s s1 : basic_popenbuf) (r : Bool)
    (hd : cfg.ndebug = false) (h : s.close cfg env = .ok (r, s1)) :
    (s.is_open = true → r = true ∧ s1.is_open = false ∧ s1.in_buff_ = 0 ∧ s1.out_buff_ = 0 ∧
        s1.total_buff_ = s.total_buff_) ∧
    (s.is_open = false → r = false ∧ s1 = s) := by
  constructor
  · intro ho
    have hsome : s.base_.c_file_ptr_.isSome = true := by
      simpa [is_open, popenbuf_base.is_open] using ho
    unfold close at h
    simp only [] at h
    by_cases hm : s.base_.mode &&& ios_base.out ≠ 0
    · rw [if_pos hm] at h
      cases hs : s.sync cfg env with
      | error e => simp [hs] at h
      | ok p =>
        obtain ⟨q, s2⟩ := p
        have hf := sync_frame cfg env s s2 q hs
        simp only [hs] at h
        have ho2 : s2.base_.c_file_ptr_.isSome = true := by rw [hf.1]; exact hsome
        by_cases hp : env.pcloseRet = -1
        · simp [popenbuf_base.pclose, popenbuf_base.is_open, ho2, hd, hp] at h
        · simp [popenbuf_base.pclose, popenbuf_base.is_open, ho2, hd, hp, ho] at h
          obtain ⟨rfl, rfl⟩ := h
          simp [setg, setp, is_open, popenbuf_base.is_open, hf]
    · rw [if_neg hm] at h
      by_cases hp : env.pcloseRet = -1
      · simp [popenbuf_base.pclose, popenbuf_base.is_open, hsome, hd, hp] at h
      · simp [popenbuf_base.pclose, popenbuf_base.is_open, hsome, hd, hp, ho] at h
        obtain ⟨rfl, rfl⟩ := h
        simp [setg, setp, is_open, popenbuf_base.is_open]
  · intro hc
    have hnone : s.base_.c_file_ptr_ = none := by
      simpa [is_open, popenbuf_base.is_open] using hc
    by_cases hm : s.base_.openmode_ &&& ios_base.out = 0
    · rw [close_closed_not_writing cfg env s hnone hm] at h
      simp at h
      exact ⟨h.1, h.2.symm⟩
    · rw [close_closed_writing_faults cfg env s hnone hm] at h
      simp at h

/-- What remains of the closed-iff-null claim (C10): in a debug build, where a failed
spawn and a failed OS close abort at an assertion, every reachable adapter state has a
non-null backing buffer and has both region pointers null exactly when it is closed. -/
theorem closed_iff_null_debug (cfg : Config) (hd : cfg.ndebug = false) (s : basic_popenbuf)
    (h : Reachable cfg s) :
    s.total_buff_ ≠ 0 ∧ ((s.in_buff_ = 0 ∧ s.out_buff_ = 0) ↔ s.is_open = false) := by
  induction h with
  | construct env garbage mem hnew =>
    simp [construct, is_open, popenbuf_base.is_open, hnew]
  | open_ env mode s s1 r _ hstep ih =>
    obtain ⟨_, ho, ht, hreg⟩ := open_debug cfg env s s1 mode r hd hstep
    refine ⟨by rw [ht]; exact ih.1, ?_⟩
    rw [ho]
    constructor
    · intro hnull
      rcases hreg with hr | hr
      · exact absurd (hr.symm.trans hnull.1) ih.1
      · exact absurd (hr.symm.trans hnull.2) ih.1
    · intro hfalse
      exact absurd hfalse (by simp)
  | close env s s1 r _ hstep ih =>
    obtain ⟨hopen, hclosed⟩ := close_debug cfg env s s1 r hd hstep
    cases ho : s.is_open
    · obtain ⟨_, rfl⟩ := hclosed ho
      exact ih
    · obtain ⟨_, hc, hi, hout, ht⟩ := hopen ho
      exact ⟨by rw [ht]; exact ih.1, by simp [hc, hi, hout]⟩
  | underflow s s1 r _ hstep ih =>
    obtain ⟨h1, h2, hi, hout, _, _, ht, _⟩ := underflow_frame cfg s s1 r hstep
    rw [hi, hout, ht, h1]
    rw [h2] at ih
    exact ih
  | overflow env c s s1 r _ hstep ih =>
    obtain ⟨h1, hi, hout, _, _, ht, _⟩ := overflow_frame cfg env s s1 c r hstep
    rw [hi, hout, ht, h1]
    exact ih
  | sync env s s1 r _ hstep ih =>
    obtain ⟨h1, _, hi, hout, _, _, ht, _⟩ := sync_frame cfg env s s1 r hstep
    have ho : s1.is_open = s.is_open := by simp [is_open, popenbuf_base.is_open, h1]
    rw [hi, hout, ht, ho]
    exact ih
  | setbuf env buf n s s1 r _ _ hstep ih =>
    obtain ⟨_, rfl⟩ := setbuf_debug cfg env s s1 buf n r hd hstep
    exact ih

/-! ## The scenarios of the specification, and the unit `0xFF` in general -/

/-- Scenario of the specification for writing: with the default capacity 512 and a pipe
that accepts every write, 600 units none of which is `0xFF` cause one write of the first
512 units while they are written, and a write of the remaining 88 units on close. -/
theorem scenario_600_units (cfg : Config) (env : Env) (child units : List char_type)
    (hApple : cfg.apple = false) (hSpawn : env.spawn = some child)
    (hW : env.fwriteShort = 0) (hP : cfg.ndebug = true ∨ env.pcloseRet ≠ -1)
    (hN : units.length = 600) (hU : ∀ u ∈ units, u ≠ 255) :
    ∃ s1 pre post, fresh.open_ cfg env ios_base.out = .ok (true, s1) ∧
      write_session cfg env s1 units = .ok (pre, post) ∧
      pre = [units.take 512] ∧ post = [units.drop 512] ∧
      (units.take 512).length = 512 ∧ (units.drop 512).length = 88 := by
  obtain ⟨s1, hopen, hA, _⟩ :=
    open_out_write_area cfg env fresh child hApple rfl hSpawn (by decide)
  have hT : fresh.total_buff_size_ = 512 := rfl
  rw [hT] at hA
  obtain ⟨pre, post, hrun, hcat, hlen, hcount, hpost⟩ :=
    write_session_delivers_units cfg env s1 512 units (by norm_num) (by norm_num) hA hU hW hP
  have h1 : (units.length - 1) / 512 = 1 := by rw [hN]
  rw [h1] at hcount hpost
  simp only [Nat.mul_one] at hpost
  obtain ⟨b, hb⟩ : ∃ b, pre = [b] := List.length_eq_one.mp hcount
  have hbl : b.length = 512 := hlen b (by rw [hb]; exact List.mem_singleton_self b)
  have hcat1 : b ++ units.drop 512 = units.take 512 ++ units.drop 512 := by
    rw [List.take_append_drop]
    simpa [hb, hpost] using hcat
  have htl : (units.take 512).length = 512 := by rw [List.length_take, hN]; rfl
  have hbt : b = units.take 512 := List.append_inj_left hcat1 (by rw [hbl, htl])
  refine ⟨s1, pre, post, hopen, hrun, by rw [hb, hbt], hpost, htl, ?_⟩
  rw [List.length_drop, hN]

/-- Scenario of the specification for reading: with the default capacity 512, a child
that delivers `abc` and ends gives `a`, `b`, `c` and then end-of-stream, after one
`fread` of 512 units. -/
theorem scenario_abc_default_capacity :
    ((fresh.open_ debug_build (os_ok [97, 98, 99]) ios_base.in_).bind fun p =>
      (get_units debug_build 4 p.2).map fun q => (q.1, fread_counts q.2.base_.trace))
      = .ok ([97, 98, 99, traits_type.eof], [512]) := by
  rfl

/-- Effect of `sync` on an adapter opened for writing with `k ≤ 2^31` units pending,
whatever the OS returns: the pending units are handed to `::fwrite`, the stream is
flushed, the write region is left empty, and the result is 0 exactly when `::fwrite`
returned a non-zero count and `::fflush` returned 0. -/
theorem sync_effect (cfg : Config) (env : Env) (s : basic_popenbuf) (C k : Nat)
    (hA : WriteArea s C k) (hk : k ≤ 2 ^ 31) :
    s.sync cfg env = .ok
      (if (decide (k - env.fwriteShort ≠ 0) && decide (env.fflushRet = 0)) = true
        then 0 else -1,
       { s with base_ := { s.base_ with
                  trace := s.base_.trace ++ [OsCall.fwrite (peek s.mem s.pbase_ k)]
                    ++ [OsCall.fflush] },
                pptr_ := s.pbase_ }) := by
  obtain ⟨f, hf, he⟩ := hA.handle
  have hb : s.pbase_ ≠ 0 := by have := hA.base_pos; omega
  have hn : s.pbase_ + (k : Int) - s.pbase_ = (k : Int) := by omega
  have hsz : to_size (to_ptrdiff (k : Int)) = k := by unfold to_size to_ptrdiff; omega
  have hbump : to_int (-to_ptrdiff (k : Int)) = -(k : Int) := by
    unfold to_int to_ptrdiff; omega
  cases hnd : cfg.ndebug <;>
    simp [sync, popenbuf_base.write, popenbuf_base.flush, popenbuf_base.is_open,
      popenbuf_base.mode, pbump, hf, he, hA.mode, hb, hnd, hA.next, hn, hsz, hbump]

/-- The defect behind C1 and C4, for every capacity `C` up to `2^31`: when `C`
units have filled the write region and the next unit is `0xFF`, `overflow` takes it for
`eof`; the session hands the pipe the `C` units and, on close, an empty block.  The unit
`0xFF` never reaches the pipe. -/
theorem write_session_drops_unit_255 (cfg : Config) (env : Env) (s : basic_popenbuf)
    (C : Nat) (units : List char_type) (hC2 : C ≤ 2 ^ 31)
    (hA : WriteArea s C 0) (hN : units.length = C)
    (hP : cfg.ndebug = true ∨ env.pcloseRet ≠ -1) :
    ∃ pre post, write_session cfg env s (units ++ [255]) = .ok (pre, post) ∧
      pre = [units] ∧ post = [[]] := by
  obtain ⟨rs, m, hrun, hdata⟩ := put_units_stores cfg env C units s 0 hA (by omega)
  have hfull : (0 + units.length : Nat) = C := by omega
  rw [hfull] at hrun hdata
  have hA1 : WriteArea { s with mem := m, pptr_ := s.pbase_ + (C : Int) } C C :=
    { handle := hA.handle, mode := hA.mode, base_pos := hA.base_pos, size := hA.size,
      next := rfl, limit := hA.limit }
  have hsync := sync_effect cfg env _ C C hA1 hC2
  have hnot : ¬ ((s.pbase_ + (C : Int)) < s.epptr_) := by rw [hA.limit]; omega
  have hA2 : WriteArea
      { s with base_ := { s.base_ with
                 trace := s.base_.trace ++ [OsCall.fwrite (peek m s.pbase_ C)]
                   ++ [OsCall.fflush] },
               mem := m, pptr_ := s.pbase_ } C 0 :=
    { handle := hA.handle, mode := hA.mode, base_pos := hA.base_pos, size := hA.size,
      next := by simp, limit := hA.limit }
  obtain ⟨s3, hclose, htr⟩ := close_writes_pending cfg env _ C 0 hA2 (by norm_num) hP
  have hblock : peek m s.pbase_ C = units := by simpa [peek] using hdata
  have heq : traits_type.eq (traits_type.to_char_type (traits_type.to_int_type 255))
      (traits_type.to_char_type traits_type.eof) = true := by decide
  refine ⟨[units], [[]], ?_, rfl, rfl⟩
  rw [write_session, put_units_append, hrun]
  simp only [put_units, sputc, hnot, if_false, overflow, heq, if_true]
  simp only [] at hsync
  rw [hsync]
  simp only []
  rw [hclose]
  simp only [htr, fwrite_blocks_append, fwrite_blocks, hblock]
  simp [peek]

/-! ## Write side under arbitrary outcomes of the OS primitives -/

/-- An adapter that is ready to write is in particular opened for writing. -/
theorem WriteArea.put_area {s : basic_popenbuf} {C k : Nat} (h : WriteArea s C k) :
    PutArea s C k := by
  obtain ⟨f, hf, _⟩ := h.handle
  exact { handle := by rw [hf]; rfl, mode := h.mode, base_pos := h.base_pos,
          size := h.size, next := h.next, limit := h.limit }

/-- The pipe handle's `write` on an open handle with a non-null buffer always returns;
it leaves everything but the trace as it is, and hands `::fwrite` at most one block, of
exactly the number of units requested. -/
theorem write_open (cfg : Config) (env : Env) (b : popenbuf_base) (mem : Mem) (buf : Int)
    (n : Nat) (ho : b.c_file_ptr_.isSome = true) (hb : buf ≠ 0) (hn : n < 2 ^ 63) :
    ∃ r tr, b.write cfg env mem buf (to_ptrdiff (n : Int))
        = .ok (r, { b with trace := b.trace ++ tr }) ∧
      (∀ x ∈ fwrite_blocks tr, x.length = n) := by
  have hsz : to_size (to_ptrdiff (n : Int)) = n := by unfold to_size to_ptrdiff; omega
  obtain ⟨om, cf, tr0⟩ := b
  cases cf with
  | none => simp at ho
  | some f =>
    obtain ⟨co, ei⟩ := f
    cases ei
    · refine ⟨decide (n - env.fwriteShort ≠ 0), [OsCall.fwrite (peek mem buf n)], ?_, ?_⟩
      · simp [popenbuf_base.write, hsz, hb]
      · intro x hx
        simp [fwrite_blocks] at hx
        rw [hx]
        exact peek_length _ _ _
    · refine ⟨false, [], ?_, ?_⟩
      · simp [popenbuf_base.write]
      · intro x hx
        simp [fwrite_blocks] at hx

/-- The pipe handle's `flush` on a handle opened for writing always returns, with the
converted status of `::fflush`, and adds one call to the trace. -/
theorem flush_open (cfg : Config) (env : Env) (b : popenbuf_base)
    (ho : b.c_file_ptr_.isSome = true) (hm : b.openmode_ &&& ios_base.out ≠ 0) :
    b.flush cfg env
      = .ok (decide (env.fflushRet = 0), { b with trace := b.trace ++ [OsCall.fflush] }) := by
  simp [popenbuf_base.flush, popenbuf_base.is_open, ho, hm]

/-- Function `sync` on an adapter opened for writing with fill level `k < 2^63` always
returns: the pending units are handed to the pipe handle's `write`, the stream is flushed,
and the fill pointer moves by the `int` that `pbump` receives, the conversion of `-k`. -/
theorem sync_put (cfg : Config) (env : Env) (s : basic_popenbuf) (C k : Nat)
    (hA : PutArea s C k) (hk : k < 2 ^ 63) :
    ∃ r tr, s.sync cfg env = .ok (r,
        { s with base_ := { s.base_ with trace := s.base_.trace ++ tr },
                 pptr_ := s.pbase_ + (k : Int) + to_int (-(k : Int)) }) ∧
      (∀ b ∈ fwrite_blocks tr, b.length = k) := by
  have hb : s.pbase_ ≠ 0 := by have := hA.base_pos; omega
  have hn : s.pptr_ - s.pbase_ = (k : Int) := by rw [hA.next]; omega
  have hpt : to_ptrdiff (k : Int) = (k : Int) := by unfold to_ptrdiff; omega
  obtain ⟨r, tr, hw, hlen⟩ := write_open cfg env s.base_ s.mem s.pbase_ k hA.handle hb hk
  have hfl := flush_open cfg env { s.base_ with trace := s.base_.trace ++ tr }
    hA.handle hA.mode
  refine ⟨if (r && decide (env.fflushRet = 0)) = true then 0 else -1,
    tr ++ [OsCall.fflush], ?_, ?_⟩
  · simp only [] at hfl
    unfold sync
    simp only [popenbuf_base.mode, hA.mode, ne_eq, not_false_eq_true, if_true, hn]
    rw [hw]
    simp only [pbump]
    rw [hfl]
    simp [hpt, hA.next]
  · intro b hbm
    rw [fwrite_blocks_append] at hbm
    simp [fwrite_blocks] at hbm
    exact hlen b hbm

/-- Function `sync` keeps an adapter with a write region of at most `2^31` units within
its bounds: the fill level afterwards is 0. -/
theorem sync_put_step (cfg : Config) (env : Env) (s : basic_popenbuf) (C k : Nat)
    (hA : PutArea s C k) (hk : k ≤ C) (hC2 : C ≤ 2 ^ 31) :
    ∃ r s1, s.sync cfg env = .ok (r, s1) ∧ PutStep s s1 C := by
  obtain ⟨r, tr, hs, hlen⟩ := sync_put cfg env s C k hA (by omega)
  have hbump : to_int (-(k : Int)) = -(k : Int) := by unfold to_int; omega
  refine ⟨r, _, hs, ?_⟩
  exact
    { area := ⟨0, Nat.zero_le C,
        { handle := hA.handle, mode := hA.mode, base_pos := hA.base_pos, size := hA.size,
          next := by simp [hbump], limit := hA.limit }⟩
      base := rfl
      trace := ⟨tr, rfl, fun b hb => by rw [hlen b hb]; exact hk⟩
      mem := fun _ _ => rfl }

/-- Function `sputc` with room in the region stores the unit inside the region. -/
theorem sputc_put_step_store (cfg : Config) (env : Env) (s : basic_popenbuf) (C k : Nat)
    (c : char_type) (hA : PutArea s C k) (hk : k < C) :
    ∃ r s1, s.sputc cfg env c = .ok (r, s1) ∧ PutStep s s1 C := by
  have h1 : s.pptr_ < s.epptr_ := by rw [hA.next, hA.limit]; omega
  have h2 : s.pptr_ ≠ 0 := by have := hA.base_pos; rw [hA.next]; omega
  refine ⟨traits_type.to_int_type c, ({ s with mem := store s.mem s.pptr_ c }).pbump 1, ?_, ?_⟩
  · simp only [sputc]
    rw [if_pos h1, if_neg h2]
  · exact
      { area := ⟨k + 1, hk,
          { handle := hA.handle, mode := hA.mode, base_pos := hA.base_pos, size := hA.size,
            next := by simp [pbump, hA.next]; omega, limit := hA.limit }⟩
        base := rfl
        trace := ⟨[], by simp [pbump], fun b hb => by simp [fwrite_blocks] at hb⟩
        mem := fun a ha => by
          have hne : a ≠ s.pptr_ := by rw [hA.next]; omega
          simp [pbump, store, hne] }

/-- Function `overflow` on a full region of at most `2^31` units, for every argument and
every outcome of the pipe: it returns, and the fill level afterwards is 0 (the argument
was taken for `eof` and the region synced), `C` (the write failed) or 1 (the argument was
stored in slot 0). -/
theorem overflow_put_step (cfg : Config) (env : Env) (s : basic_popenbuf) (C : Nat)
    (c : int_type) (hA : PutArea s C C) (hC1 : 1 ≤ C) (hC2 : C ≤ 2 ^ 31) :
    ∃ r s1, s.overflow cfg env c = .ok (r, s1) ∧ PutStep s s1 C := by
  by_cases heof : traits_type.eq (traits_type.to_char_type c)
      (traits_type.to_char_type traits_type.eof) = true
  · obtain ⟨r, s1, hs, hstep⟩ := sync_put_step cfg env s C C hA (le_refl C) hC2
    refine ⟨traits_type.eof, s1, ?_, hstep⟩
    simp only [overflow, heof, if_true, hs]
  · have hb : s.pbase_ ≠ 0 := by have := hA.base_pos; omega
    have hC0 : ¬ (s.out_buff_size_ = 0) := by rw [hA.size]; omega
    obtain ⟨r, tr, hw, hlen⟩ :=
      write_open cfg env s.base_ s.mem s.pbase_ C hA.handle hb (by omega)
    have hbump : to_int ((((SIZE_MOD - C % SIZE_MOD : Nat) : Int) + 1) % (SIZE_MOD : Int))
        = 1 - (C : Int) := by
      unfold to_int SIZE_MOD; omega
    cases r
    · refine ⟨traits_type.eof,
        { s with base_ := { s.base_ with trace := s.base_.trace ++ tr } }, ?_, ?_⟩
      · unfold overflow
        rw [if_neg heof, if_neg hC0, hA.size, hw]
        simp
      · exact
          { area := ⟨C, le_refl C,
              { handle := hA.handle, mode := hA.mode, base_pos := hA.base_pos,
                size := hA.size, next := hA.next, limit := hA.limit }⟩
            base := rfl
            trace := ⟨tr, rfl, fun b hbm => by rw [hlen b hbm]⟩
            mem := fun _ _ => rfl }
    · refine ⟨traits_type.not_eof c,
        { s with base_ := { s.base_ with trace := s.base_.trace ++ tr },
                 mem := store s.mem s.pbase_ (traits_type.to_char_type c),
                 pptr_ := s.pbase_ + 1 }, ?_, ?_⟩
      · unfold overflow
        rw [if_neg heof, if_neg hC0, hA.size, hw]
        simp [hb, pbump, hA.next, hA.size]
        rw [hbump]
        omega
      · exact
          { area := ⟨1, hC1,
              { handle := hA.handle, mode := hA.mode, base_pos := hA.base_pos,
                size := hA.size, next := by simp, limit := hA.limit }⟩
            base := rfl
            trace := ⟨tr, rfl, fun b hbm => by rw [hlen b hbm]⟩
            mem := fun a ha => by
              have hne : a ≠ s.pbase_ := by omega
              simp [store, hne] }

/-- A run that changes nothing. -/
theorem PutStep.refl (s : basic_popenbuf) (C k : Nat) (hA : PutArea s C k) (hk : k ≤ C) :
    PutStep s s C :=
  { area := ⟨k, hk, hA⟩
    base := rfl
    trace := ⟨[], by simp, fun b hb => by simp [fwrite_blocks] at hb⟩
    mem := fun _ _ => rfl }

/-- Runs compose. -/
theorem PutStep.trans {s s1 s2 : basic_popenbuf} {C : Nat} (h1 : PutStep s s1 C)
    (h2 : PutStep s1 s2 C) : PutStep s s2 C := by
  obtain ⟨tr1, ht1, hl1⟩ := h1.trace
  obtain ⟨tr2, ht2, hl2⟩ := h2.trace
  exact
    { area := h2.area
      base := h2.base.trans h1.base
      trace := ⟨tr1 ++ tr2, by rw [ht2, ht1, List.append_assoc], fun b hb => by
        rw [fwrite_blocks_append] at hb
        rcases List.mem_append.mp hb with h | h
        · exact hl1 b h
        · exact hl2 b h⟩
      mem := fun a ha => by
        rw [h2.mem a (by rw [h1.base]; exact ha), h1.mem a ha] }

/-- Function `sputc` on an adapter with a write region of at most `2^31` units, for every
unit and every outcome of the pipe: it returns and keeps the fill level within `0..C`. -/
theorem sputc_put_step (cfg : Config) (env : Env) (s : basic_popenbuf) (C k : Nat)
    (c : char_type) (hA : PutArea s C k) (hk : k ≤ C) (hC1 : 1 ≤ C) (hC2 : C ≤ 2 ^ 31) :
    ∃ r s1, s.sputc cfg env c = .ok (r, s1) ∧ PutStep s s1 C := by
  rcases Nat.lt_or_ge k C with hlt | hge
  · exact sputc_put_step_store cfg env s C k c hA hlt
  · have hkC : k = C := by omega
    subst hkC
    have hnot : ¬ (s.pptr_ < s.epptr_) := by rw [hA.next, hA.limit]; omega
    obtain ⟨r, s1, ho, hstep⟩ :=
      overflow_put_step cfg env s k (traits_type.to_int_type c) hA hC1 hC2
    exact ⟨r, s1, by simp only [sputc, hnot, if_false, ho], hstep⟩

/-- Every run of write-side calls keeps an adapter with a write region of at most `2^31`
units within its bounds. -/
theorem write_run_put_step (cfg : Config) (C k : Nat) (s s1 : basic_popenbuf)
    (hC1 : 1 ≤ C) (hC2 : C ≤ 2 ^ 31) (hA : PutArea s C k) (hk : k ≤ C)
    (hrun : WriteRun cfg s s1) : PutStep s s1 C := by
  induction hrun with
  | refl => exact PutStep.refl s C k hA hk
  | put env c sa sb r _ hstep ih =>
    have ih1 := ih
    obtain ⟨k1, hk1, hA1⟩ := ih1.area
    obtain ⟨r1, sc, hs, hps⟩ := sputc_put_step cfg env sa C k1 c hA1 hk1 hC1 hC2
    rw [hs] at hstep
    injection hstep with hinj
    injection hinj with _ hsb
    rw [← hsb]
    exact ih1.trans hps
  | overflow env c sa sb r _ hfull hstep ih =>
    have ih1 := ih
    obtain ⟨k1, hk1, hA1⟩ := ih1.area
    have hkC : k1 = C := by
      have h := hfull
      rw [hA1.next, hA1.limit] at h
      omega
    rw [hkC] at hA1
    obtain ⟨r1, sc, hs, hps⟩ := overflow_put_step cfg env sa C c hA1 hC1 hC2
    rw [hs] at hstep
    injection hstep with hinj
    injection hinj with _ hsb
    rw [← hsb]
    exact ih1.trans hps
  | sync env sa sb r _ hstep ih =>
    have ih1 := ih
    obtain ⟨k1, hk1, hA1⟩ := ih1.area
    obtain ⟨r1, sc, hs, hps⟩ := sync_put_step cfg env sa C k1 hA1 hk1 hC2
    rw [hs] at hstep
    injection hstep with hinj
    injection hinj with _ hsb
    rw [← hsb]
    exact ih1.trans hps

/-- A unit write followed by a run is a run. -/
theorem WriteRun.head_put (cfg : Config) (env : Env) (c : char_type)
    (s sa s1 : basic_popenbuf) (r : int_type) (h : s.sputc cfg env c = .ok (r, sa))
    (hrun : WriteRun cfg sa s1) : WriteRun cfg s s1 := by
  induction hrun with
  | refl => exact WriteRun.put env c s sa r WriteRun.refl h
  | put env1 c1 sb sc r1 _ hstep ih => exact WriteRun.put env1 c1 sb sc r1 ih hstep
  | overflow env1 c1 sb sc r1 _ hfull hstep ih =>
    exact WriteRun.overflow env1 c1 sb sc r1 ih hfull hstep
  | sync env1 sb sc r1 _ hstep ih => exact WriteRun.sync env1 sb sc r1 ih hstep

/-- Units written one at a time form a run. -/
theorem put_units_write_run (cfg : Config) (env : Env) :
    ∀ (units : List char_type) (s s1 : basic_popenbuf) (rs : List int_type),
      put_units cfg env units s = .ok (rs, s1) → WriteRun cfg s s1 := by
  intro units
  induction units with
  | nil =>
    intro s s1 rs h
    simp only [put_units] at h
    injection h with hinj
    injection hinj with _ hs
    rw [← hs]
    exact WriteRun.refl
  | cons u us ih =>
    intro s s1 rs h
    simp only [put_units] at h
    cases hs : s.sputc cfg env u with
    | error e => simp [hs] at h
    | ok p =>
      obtain ⟨r, sa⟩ := p
      simp only [hs] at h
      cases hr : put_units cfg env us sa with
      | error e => simp [hr] at h
      | ok q =>
        obtain ⟨rs1, sb⟩ := q
        simp only [hr] at h
        injection h with hinj
        injection hinj with _ hsb
        rw [← hsb]
        exact WriteRun.head_put cfg env u s sa sb r hs (ih sa sb rs1 hr)

/-- Beyond `2^31` units the write region does not keep its fill level within bounds: for a
capacity `C` with `2^31 < C ≤ 2^32`, after `C` units have filled the region, `sync` leaves
the fill level at `2^32` instead of 0. -/
theorem sync_after_fill_beyond_int (cfg : Config) (env : Env) (s : basic_popenbuf)
    (C : Nat) (units : List char_type) (hA : WriteArea s C 0) (hN : units.length = C)
    (hlo : 2 ^ 31 < C) (hhi : C ≤ 2 ^ 32) :
    ∃ s1, WriteRun cfg s s1 ∧ s1.epptr_ - s1.pbase_ = (C : Int) ∧
      s1.pptr_ - s1.pbase_ = 2 ^ 32 := by
  obtain ⟨rs, m, hrun, _⟩ := put_units_stores cfg env C units s 0 hA (by omega)
  have hfull : (0 + units.length : Nat) = C := by omega
  rw [hfull] at hrun
  have hA1 : PutArea { s with mem := m, pptr_ := s.pbase_ + (C : Int) } C C :=
    { handle := hA.put_area.handle, mode := hA.mode, base_pos := hA.base_pos,
      size := hA.size, next := rfl, limit := hA.limit }
  obtain ⟨r, tr, hs, _⟩ := sync_put cfg env _ C C hA1 (by omega)
  have hdisp : to_int (-(C : Int)) = -(C : Int) + 2 ^ 32 := by unfold to_int; omega
  refine ⟨_, WriteRun.sync env _ _ r (put_units_write_run cfg env units s _ rs hrun) hs,
    ?_, ?_⟩
  · simp only [hA.limit]; omega
  · simp only [hdisp]; omega

/-- The same run, step by step: for a capacity `C` with `2^31 < C ≤ 2^32`, writing `C`
units into the empty region returns with the region full, and the `sync` that follows
returns with the fill level at `2^32`. -/
theorem fill_then_sync_beyond_int (cfg : Config) (env : Env) (s : basic_popenbuf)
    (C : Nat) (units : List char_type) (hA : WriteArea s C 0) (hN : units.length = C)
    (hlo : 2 ^ 31 < C) (hhi : C ≤ 2 ^ 32) :
    ∃ rs s1 r s2, put_units cfg env units s = .ok (rs, s1) ∧
      s1.sync cfg env = .ok (r, s2) ∧ s1.pptr_ - s1.pbase_ = (C : Int) ∧
      s2.epptr_ - s2.pbase_ = (C : Int) ∧ s2.pptr_ - s2.pbase_ = 2 ^ 32 := by
  obtain ⟨rs, m, hrun, _⟩ := put_units_stores cfg env C units s 0 hA (by omega)
  have hfull : (0 + units.length : Nat) = C := by omega
  rw [hfull] at hrun
  have hA1 : PutArea { s with mem := m, pptr_ := s.pbase_ + (C : Int) } C C :=
    { handle := hA.put_area.handle, mode := hA.mode, base_pos := hA.base_pos,
      size := hA.size, next := rfl, limit := hA.limit }
  obtain ⟨r, tr, hs, _⟩ := sync_put cfg env _ C C hA1 (by omega)
  have hdisp : to_int (-(C : Int)) = -(C : Int) + 2 ^ 32 := by unfold to_int; omega
  refine ⟨rs, _, r, _, hrun, hs, ?_, ?_, ?_⟩
  · simp only []; omega
  · simp only [hA.limit]; omega
  · simp only [hdisp]; omega

/-! ## Each write-side call: the block it hands to the pipe, the cell it stores to -/

/-- The pipe handle's `write` on an open handle with a non-null buffer always returns; it
leaves everything but the trace as it is, and hands `::fwrite` at most one block: the `n`
units found at `buf`. -/
theorem write_open_block (cfg : Config) (env : Env) (b : popenbuf_base) (mem : Mem)
    (buf : Int) (n : Nat) (ho : b.c_file_ptr_.isSome = true) (hb : buf ≠ 0)
    (hn : n < 2 ^ 63) :
    ∃ r tr, b.write cfg env mem buf (to_ptrdiff (n : Int))
        = .ok (r, { b with trace := b.trace ++ tr }) ∧
      (tr = [] ∨ tr = [OsCall.fwrite (peek mem buf n)]) := by
  have hsz : to_size (to_ptrdiff (n : Int)) = n := by unfold to_size to_ptrdiff; omega
  obtain ⟨om, cf, tr0⟩ := b
  cases cf with
  | none => simp at ho
  | some f =>
    obtain ⟨co, ei⟩ := f
    cases ei
    · refine ⟨decide (n - env.fwriteShort ≠ 0), [OsCall.fwrite (peek mem buf n)], ?_,
        Or.inr rfl⟩
      simp [popenbuf_base.write, hsz, hb]
    · refine ⟨false, [], ?_, Or.inl rfl⟩
      simp [popenbuf_base.write]

/-- Function `sync` as one call: on a write region of at most `2^31` units with fill level
`k` it returns, and the only block it hands to the pipe is made of the `k` pending units
at the start of the region. -/
theorem sync_put_call (cfg : Config) (env : Env) (s : basic_popenbuf) (C k : Nat)
    (hA : PutArea s C k) (hk : k ≤ C) (hC2 : C ≤ 2 ^ 31) :
    ∃ r s1, s.sync cfg env = .ok (r, s1) ∧ PutCall s s1 C := by
  have hb : s.pbase_ ≠ 0 := by have := hA.base_pos; omega
  have hn : s.pptr_ - s.pbase_ = (k : Int) := by rw [hA.next]; omega
  have hpt : to_ptrdiff (k : Int) = (k : Int) := by unfold to_ptrdiff; omega
  have hbump : to_int (-(k : Int)) = -(k : Int) := by unfold to_int; omega
  obtain ⟨r, tr, hw, htr⟩ :=
    write_open_block cfg env s.base_ s.mem s.pbase_ k hA.handle hb (by omega)
  have hfl := flush_open cfg env { s.base_ with trace := s.base_.trace ++ tr }
    hA.handle hA.mode
  have hs : s.sync cfg env = .ok (if (r && decide (env.fflushRet = 0)) = true then 0 else -1,
      { s with base_ := { s.base_ with trace := s.base_.trace ++ (tr ++ [OsCall.fflush]) },
               pptr_ := s.pbase_ + (k : Int) + to_int (-(k : Int)) }) := by
    simp only [] at hfl
    unfold sync
    simp only [popenbuf_base.mode, hA.mode, ne_eq, not_false_eq_true, if_true, hn]
    rw [hw]
    simp only [pbump]
    rw [hfl]
    simp [hpt, hA.next]
  obtain ⟨r1, s1, hs1, hstep⟩ := sync_put_step cfg env s C k hA hk hC2
  rw [hs] at hs1
  injection hs1 with hinj
  injection hinj with _ hst
  refine ⟨_, _, hs, ?_⟩
  exact
    { step := by rw [hst]; exact hstep
      blocks := ⟨tr ++ [OsCall.fflush], rfl, by
        rcases htr with h | h
        · left
          rw [h]
          rfl
        · right
          refine ⟨k, hk, hA.next, ?_⟩
          rw [h]
          rfl⟩
      stores := Or.inl rfl }

/-- Function `sputc` with room in the region, as one call: it hands the pipe nothing and
stores the unit at the fill level. -/
theorem sputc_put_call_store (cfg : Config) (env : Env) (s : basic_popenbuf) (C k : Nat)
    (c : char_type) (hA : PutArea s C k) (hk : k < C) :
    ∃ r s1, s.sputc cfg env c = .ok (r, s1) ∧ PutCall s s1 C := by
  have h1 : s.pptr_ < s.epptr_ := by rw [hA.next, hA.limit]; omega
  have h2 : s.pptr_ ≠ 0 := by have := hA.base_pos; rw [hA.next]; omega
  have hs : s.sputc cfg env c = .ok (traits_type.to_int_type c,
      ({ s with mem := store s.mem s.pptr_ c }).pbump 1) := by
    simp only [sputc]
    rw [if_pos h1, if_neg h2]
  obtain ⟨r1, s1, hs1, hstep⟩ := sputc_put_step_store cfg env s C k c hA hk
  rw [hs] at hs1
  injection hs1 with hinj
  injection hinj with _ hst
  refine ⟨_, _, hs, ?_⟩
  exact
    { step := by rw [hst]; exact hstep
      blocks := ⟨[], by simp [pbump], Or.inl rfl⟩
      stores := Or.inr ⟨k, c, hk, by simp [pbump, hA.next]⟩ }

/-- Function `overflow` on a full region of at most `2^31` units, as one call, for every
argument and every outcome of the pipe: it returns, the only block it hands to the pipe is
made of the `C` units of the region, and the only cell it may store to is slot 0. -/
theorem overflow_put_call (cfg : Config) (env : Env) (s : basic_popenbuf) (C : Nat)
    (c : int_type) (hA : PutArea s C C) (hC1 : 1 ≤ C) (hC2 : C ≤ 2 ^ 31) :
    ∃ r s1, s.overflow cfg env c = .ok (r, s1) ∧ PutCall s s1 C := by
  by_cases heof : traits_type.eq (traits_type.to_char_type c)
      (traits_type.to_char_type traits_type.eof) = true
  · obtain ⟨r, s1, hs, hcall⟩ := sync_put_call cfg env s C C hA (le_refl C) hC2
    refine ⟨traits_type.eof, s1, ?_, hcall⟩
    simp only [overflow, heof, if_true, hs]
  · have hb : s.pbase_ ≠ 0 := by have := hA.base_pos; omega
    have hC0 : ¬ (s.out_buff_size_ = 0) := by rw [hA.size]; omega
    obtain ⟨r, tr, hw, htr⟩ :=
      write_open_block cfg env s.base_ s.mem s.pbase_ C hA.handle hb (by omega)
    have hbump : to_int ((((SIZE_MOD - C % SIZE_MOD : Nat) : Int) + 1) % (SIZE_MOD : Int))
        = 1 - (C : Int) := by
      unfold to_int SIZE_MOD; omega
    have hblocks : fwrite_blocks tr = [] ∨
        ∃ len : Nat, len ≤ C ∧ s.pptr_ = s.pbase_ + (len : Int) ∧
          fwrite_blocks tr = [peek s.mem s.pbase_ len] := by
      rcases htr with h | h
      · left
        rw [h]
        rfl
      · right
        refine ⟨C, le_refl C, hA.next, ?_⟩
        rw [h]
        rfl
    obtain ⟨r1, s1, hs1, hstep⟩ := overflow_put_step cfg env s C c hA hC1 hC2
    cases r
    · have hs : s.overflow cfg env c = .ok (traits_type.eof,
          { s with base_ := { s.base_ with trace := s.base_.trace ++ tr } }) := by
        unfold overflow
        rw [if_neg heof, if_neg hC0, hA.size, hw]
        simp
      rw [hs] at hs1
      injection hs1 with hinj
      injection hinj with _ hst
      refine ⟨_, _, hs, ?_⟩
      exact
        { step := by rw [hst]; exact hstep
          blocks := ⟨tr, rfl, hblocks⟩
          stores := Or.inl rfl }
    · have hs : s.overflow cfg env c = .ok (traits_type.not_eof c,
          { s with base_ := { s.base_ with trace := s.base_.trace ++ tr },
                   mem := store s.mem s.pbase_ (traits_type.to_char_type c),
                   pptr_ := s.pbase_ + 1 }) := by
        unfold overflow
        rw [if_neg heof, if_neg hC0, hA.size, hw]
        simp [hb, pbump, hA.next, hA.size]
        rw [hbump]
        omega
      rw [hs] at hs1
      injection hs1 with hinj
      injection hinj with _ hst
      refine ⟨_, _, hs, ?_⟩
      exact
        { step := by rw [hst]; exact hstep
          blocks := ⟨tr, rfl, hblocks⟩
          stores := Or.inr ⟨0, traits_type.to_char_type c, hC1, by simp⟩ }

/-- Function `sputc` as one call, on a write region of at most `2^31` units, for every
unit and every outcome of the pipe. -/
theorem sputc_put_call (cfg : Config) (env : Env) (s : basic_popenbuf) (C k : Nat)
    (c : char_type) (hA : PutArea s C k) (hk : k ≤ C) (hC1 : 1 ≤ C) (hC2 : C ≤ 2 ^ 31) :
    ∃ r s1, s.sputc cfg env c = .ok (r, s1) ∧ PutCall s s1 C := by
  rcases Nat.lt_or_ge k C with hlt | hge
  · exact sputc_put_call_store cfg env s C k c hA hlt
  · have hkC : k = C := by omega
    subst hkC
    have hnot : ¬ (s.pptr_ < s.epptr_) := by rw [hA.next, hA.limit]; omega
    obtain ⟨r, s1, ho, hcall⟩ :=
      overflow_put_call cfg env s k (traits_type.to_int_type c) hA hC1 hC2
    exact ⟨r, s1, by simp only [sputc, hnot, if_false, ho], hcall⟩

/-- A logged run is a run. -/
theorem WriteRunLog.run (cfg : Config) (s s1 : basic_popenbuf)
    (log : List (basic_popenbuf × basic_popenbuf)) (h : WriteRunLog cfg s s1 log) :
    WriteRun cfg s s1 := by
  induction h with
  | refl => exact WriteRun.refl
  | put env c sa sb r log _ hstep ih => exact WriteRun.put env c sa sb r ih hstep
  | overflow env c sa sb r log _ hfull hstep ih =>
    exact WriteRun.overflow env c sa sb r ih hfull hstep
  | sync env sa sb r log _ hstep ih => exact WriteRun.sync env sa sb r ih hstep

/-- Every call of every run on a write region of at most `2^31` units: the block it hands
to the pipe, if any, is made of the units pending at the start of the region at the moment
of the call, and the unit it stores, if any, lands inside the region. -/
theorem write_run_log_calls (cfg : Config) (C k : Nat) (s s1 : basic_popenbuf)
    (log : List (basic_popenbuf × basic_popenbuf))
    (hC1 : 1 ≤ C) (hC2 : C ≤ 2 ^ 31) (hA : PutArea s C k) (hk : k ≤ C)
    (hlog : WriteRunLog cfg s s1 log) : ∀ p ∈ log, PutCall p.1 p.2 C := by
  induction hlog with
  | refl =>
    intro p hp
    simp at hp
  | put env c sa sb r log hrun hstep ih =>
    intro p hp
    rcases List.mem_append.mp hp with h | h
    · exact ih p h
    · simp only [List.mem_singleton] at h
      subst h
      obtain ⟨k1, hk1, hA1⟩ :=
        (write_run_put_step cfg C k s sa hC1 hC2 hA hk (WriteRunLog.run cfg s sa log hrun)).area
      obtain ⟨r1, sc, hs, hcall⟩ := sputc_put_call cfg env sa C k1 c hA1 hk1 hC1 hC2
      rw [hs] at hstep
      injection hstep with hinj
      injection hinj with _ hsb
      rw [← hsb]
      exact hcall
  | overflow env c sa sb r log hrun hfull hstep ih =>
    intro p hp
    rcases List.mem_append.mp hp with h | h
    · exact ih p h
    · simp only [List.mem_singleton] at h
      subst h
      obtain ⟨k1, hk1, hA1⟩ :=
        (write_run_put_step cfg C k s sa hC1 hC2 hA hk (WriteRunLog.run cfg s sa log hrun)).area
      have hkC : k1 = C := by
        have h := hfull
        rw [hA1.next, hA1.limit] at h
        omega
      rw [hkC] at hA1
      obtain ⟨r1, sc, hs, hcall⟩ := overflow_put_call cfg env sa C c hA1 hC1 hC2
      rw [hs] at hstep
      injection hstep with hinj
      injection hinj with _ hsb
      rw [← hsb]
      exact hcall
  | sync env sa sb r log hrun hstep ih =>
    intro p hp
    rcases List.mem_append.mp hp with h | h
    · exact ih p h
    · simp only [List.mem_singleton] at h
      subst h
      obtain ⟨k1, hk1, hA1⟩ :=
        (write_run_put_step cfg C k s sa hC1 hC2 hA hk (WriteRunLog.run cfg s sa log hrun)).area
      obtain ⟨r1, sc, hs, hcall⟩ := sync_put_call cfg env sa C k1 hA1 hk1 hC2
      rw [hs] at hstep
      injection hstep with hinj
      injection hinj with _ hsb
      rw [← hsb]
      exact hcall

/-- The log of a run accounts for the whole trace: the trace at the end of the run is the
trace at its start followed by what each logged call added, in order. -/
theorem write_run_log_trace (cfg : Config) (C k : Nat) (s s1 : basic_popenbuf)
    (log : List (basic_popenbuf × basic_popenbuf))
    (hC1 : 1 ≤ C) (hC2 : C ≤ 2 ^ 31) (hA : PutArea s C k) (hk : k ≤ C)
    (hlog : WriteRunLog cfg s s1 log) :
    s1.base_.trace = s.base_.trace
      ++ (log.map fun p => p.2.base_.trace.drop p.1.base_.trace.length).flatten := by
  induction hlog with
  | refl => simp
  | put env c sa sb r log hrun hstep ih =>
    have hp : (sa, sb) ∈ log ++ [(sa, sb)] := by simp
    obtain ⟨tr, htr, _⟩ :=
      (write_run_log_calls cfg C k s sb _ hC1 hC2 hA hk
        (WriteRunLog.put env c sa sb r log hrun hstep) (sa, sb) hp).blocks
    simp only [] at htr
    simp [htr, ih]
  | overflow env c sa sb r log hrun hfull hstep ih =>
    have hp : (sa, sb) ∈ log ++ [(sa, sb)] := by simp
    obtain ⟨tr, htr, _⟩ :=
      (write_run_log_calls cfg C k s sb _ hC1 hC2 hA hk
        (WriteRunLog.overflow env c sa sb r log hrun hfull hstep) (sa, sb) hp).blocks
    simp only [] at htr
    simp [htr, ih]
  | sync env sa sb r log hrun hstep ih =>
    have hp : (sa, sb) ∈ log ++ [(sa, sb)] := by simp
    obtain ⟨tr, htr, _⟩ :=
      (write_run_log_calls cfg C k s sb _ hC1 hC2 hA hk
        (WriteRunLog.sync env sa sb r log hrun hstep) (sa, sb) hp).blocks
    simp only [] at htr
    simp [htr, ih]

/-- Every run has a log. -/
theorem WriteRun.log (cfg : Config) (s s1 : basic_popenbuf) (h : WriteRun cfg s s1) :
    ∃ log, WriteRunLog cfg s s1 log := by
  induction h with
  | refl => exact ⟨[], WriteRunLog.refl⟩
  | put env c sa sb r _ hstep ih =>
    obtain ⟨log, hl⟩ := ih
    exact ⟨_, WriteRunLog.put env c sa sb r log hl hstep⟩
  | overflow env c sa sb r _ hfull hstep ih =>
    obtain ⟨log, hl⟩ := ih
    exact ⟨_, WriteRunLog.overflow env c sa sb r log hl hfull hstep⟩
  | sync env sa sb r _ hstep ih =>
    obtain ⟨log, hl⟩ := ih
    exact ⟨_, WriteRunLog.sync env sa sb r log hl hstep⟩

/-! ## Regions after `open`, `setbuf`, facades, build-time check -/

/-- The part of C11 the code satisfies: outside the Apple family, a successful `open` with
mode exactly `in` on a closed adapter with null regions makes the whole backing buffer the
read region and leaves the write region null. -/
theorem open_in_spans_buffer (cfg : Config) (env : Env) (s : basic_popenbuf)
    (child : List char_type) (hApple : cfg.apple = false) (hPre : s.open_asserts = true)
    (hSpawn : env.spawn = some child) :
    ∃ s1, s.open_ cfg env ios_base.in_ = .ok (true, s1) ∧
      s1.in_buff_ = s.total_buff_ ∧ s1.in_buff_size_ = s.total_buff_size_ ∧
      s1.out_buff_ = 0 ∧ s1.out_buff_size_ = 0 ∧
      s1.total_buff_ = s.total_buff_ ∧ s1.total_buff_size_ = s.total_buff_size_ := by
  have hopen : s.open_ cfg env ios_base.in_ = .ok (true,
      { s with base_ := { openmode_ := ios_base.in_,
                          c_file_ptr_ := some { childOut := child, eofInd := false },
                          trace := s.base_.trace ++ [OsCall.popen ModeStr.r] },
               in_buff_ := s.total_buff_, in_buff_size_ := s.total_buff_size_,
               eback_ := s.total_buff_, gptr_ := s.total_buff_,
               egptr_ := s.total_buff_ }) := by
    simp [open_, popenbuf_base.popen, hApple, hPre, hSpawn, setg]
  simp only [open_asserts, Bool.and_eq_true, decide_eq_true_eq] at hPre
  exact ⟨_, hopen, rfl, rfl, hPre.1.1.2, hPre.2, rfl, rfl⟩

/-- The part of C11 the code satisfies: outside the Apple family, a successful `open` with
mode exactly `out` on a closed adapter with null regions makes the whole backing buffer
the write region and leaves the read region null. -/
theorem open_out_spans_buffer (cfg : Config) (env : Env) (s : basic_popenbuf)
    (child : List char_type) (hApple : cfg.apple = false) (hPre : s.open_asserts = true)
    (hSpawn : env.spawn = some child) :
    ∃ s1, s.open_ cfg env ios_base.out = .ok (true, s1) ∧
      s1.out_buff_ = s.total_buff_ ∧ s1.out_buff_size_ = s.total_buff_size_ ∧
      s1.in_buff_ = 0 ∧ s1.in_buff_size_ = 0 ∧
      s1.total_buff_ = s.total_buff_ ∧ s1.total_buff_size_ = s.total_buff_size_ := by
  have hmode : ¬ (ios_base.out = ios_base.in_) := by decide
  have hopen : s.open_ cfg env ios_base.out = .ok (true,
      { s with base_ := { openmode_ := ios_base.out,
                          c_file_ptr_ := some { childOut := child, eofInd := false },
                          trace := s.base_.trace ++ [OsCall.popen ModeStr.w] },
               out_buff_ := s.total_buff_, out_buff_size_ := s.total_buff_size_,
               pbase_ := s.total_buff_, pptr_ := s.total_buff_,
               epptr_ := s.total_buff_ + (s.total_buff_size_ : Int) }) := by
    simp [open_, popenbuf_base.popen, hApple, hPre, hSpawn, hmode, setp]
  simp only [open_asserts, Bool.and_eq_true, decide_eq_true_eq] at hPre
  exact ⟨_, hopen, rfl, rfl, hPre.1.1.1.2, hPre.1.2, rfl, rfl⟩

/-- The defect behind C11, for every adapter and every mode: in a build of the Apple
family `open` splits the backing buffer, because the test of the combined branch holds for
every mode; the write region starts `(T + 1) % 2^64 / 2` units into the buffer. -/
theorem open_apple_always_splits (cfg : Config) (env : Env) (s s1 : basic_popenbuf)
    (mode : Nat) (r : Bool) (hApple : cfg.apple = true)
    (h : s.open_ cfg env mode = .ok (r, s1)) :
    s1.in_buff_ = s.total_buff_ ∧
      s1.in_buff_size_ = (s.total_buff_size_ + 1) % SIZE_MOD / 2 ∧
      s1.out_buff_ = s.total_buff_ + ((s.total_buff_size_ + 1) % SIZE_MOD / 2 : Nat) := by
  unfold open_ at h
  by_cases h1 : cfg.ndebug = false ∧ s.open_asserts = false
  · rw [if_pos h1] at h
    simp at h
  · rw [if_neg h1] at h
    cases hp : s.base_.popen cfg env mode with
    | error e => simp [hp] at h
    | ok p =>
      obtain ⟨ok, b⟩ := p
      simp [hp, hApple, combined_test_true, setg, setp] at h
      obtain ⟨_, rfl⟩ := h
      simp

/-- The part of C12 about open adapters, in every build: `setbuf` on an open adapter
returns null and changes nothing. -/
theorem setbuf_open_rejected (cfg : Config) (env : Env) (s : basic_popenbuf) (buf n : Int)
    (ho : s.is_open = true) : s.setbuf cfg env buf n = .ok (false, s) := by
  simp [setbuf, ho]

/-- The defect behind C12, for every closed adapter: in a debug build `setbuf` fails its
own assertion `is_open()` before it reaches the test that rejects open adapters. -/
theorem setbuf_closed_debug_aborts (cfg : Config) (env : Env) (s : basic_popenbuf)
    (buf n : Int) (hd : cfg.ndebug = false) (hc : s.is_open = false) :
    s.setbuf cfg env buf n = .error Fault.assertion := by
  simp [setbuf, hd, hc]

/-- The part of C12 about closed adapters, in a release build: `setbuf` with a non-null
buffer returns the adapter, makes the buffer the backing buffer with the announced size,
and sets the caller-supplied flag; it also hands the previous backing buffer to
`delete[]`, whoever supplied it. -/
theorem setbuf_closed_release_adopts (cfg : Config) (env : Env) (s : basic_popenbuf)
    (buf : Int) (n : Nat) (hd : cfg.ndebug = true) (hc : s.is_open = false)
    (hb : buf ≠ 0) (hn : n < 2 ^ 64) :
    s.setbuf cfg env buf (n : Int) = .ok (true,
      { s with user_custom_buffer_ := true, released := s.released ++ [s.total_buff_],
               total_buff_ := buf, total_buff_size_ := n }) := by
  have hsz : to_size (n : Int) = n := by unfold to_size; omega
  simp [setbuf, hd, hc, hb, hsz]

/-- The input facade always hands the adapter a mode with the `in` bit. -/
theorem ipstream_handed_mode_in (mode : Nat) :
    basic_ipstream.handed_mode mode &&& ios_base.in_ ≠ 0 := by
  intro h
  have h3 : (basic_ipstream.handed_mode mode &&& ios_base.in_).testBit 3 = true := by
    have h8 : Nat.testBit 8 3 = true := by decide
    simp [basic_ipstream.handed_mode, ios_base.in_, h8]
  rw [h] at h3
  simp at h3

/-- The output facade always hands the adapter a mode with the `out` bit. -/
theorem opstream_handed_mode_out (mode : Nat) :
    basic_opstream.handed_mode mode &&& ios_base.out ≠ 0 := by
  intro h
  have h4 : (basic_opstream.handed_mode mode &&& ios_base.out).testBit 4 = true := by
    have h16 : Nat.testBit 16 4 = true := by decide
    simp [basic_opstream.handed_mode, ios_base.out, h16]
  rw [h] at h4
  simp at h4

/-- The duplex facade always hands the adapter a mode with the `out` bit; the `in` bit is
there only when the caller passed it. -/
theorem pstream_handed_mode_out (mode : Nat) :
    basic_pstream.handed_mode mode &&& ios_base.out ≠ 0 ∧
      (basic_pstream.handed_mode mode).testBit 3 = mode.testBit 3 := by
  constructor
  · exact opstream_handed_mode_out mode
  · have h16 : Nat.testBit 16 3 = false := by decide
    simp [basic_pstream.handed_mode, ios_base.out, h16]

/-- The pipe handle records the mode it was opened with. -/
theorem popen_records_mode (cfg : Config) (env : Env) (b b1 : popenbuf_base) (mode : Nat)
    (r : Bool) (h : b.popen cfg env mode = .ok (r, b1)) : b1.openmode_ = mode := by
  unfold popenbuf_base.popen at h
  simp only [] at h
  split at h
  · simp at h
  · simp at h
  · split_ifs at h
    simp at h
    obtain ⟨_, rfl⟩ := h
    rfl

/-- The adapter records, in its pipe handle, the mode its `open` was called with. -/
theorem open_records_mode (cfg : Config) (env : Env) (s s1 : basic_popenbuf) (mode : Nat)
    (r : Bool) (h : s.open_ cfg env mode = .ok (r, s1)) : s1.base_.mode = mode := by
  unfold open_ at h
  by_cases h1 : cfg.ndebug = false ∧ s.open_asserts = false
  · rw [if_pos h1] at h
    simp at h
  · rw [if_neg h1] at h
    cases hp : s.base_.popen cfg env mode with
    | error e => simp [hp] at h
    | ok p =>
      obtain ⟨ok, b⟩ := p
      have hb := popen_records_mode cfg env _ _ _ _ hp
      simp only [hp] at h
      split_ifs at h
      all_goals (try simp at h)
      all_goals first
        | contradiction
        | (obtain ⟨_, rfl⟩ := h; simp [setg, setp, popenbuf_base.mode, hb])

/-- The mode recorded by the adapter after the duplex facade's `open` returned is the
mode the facade handed over. -/
theorem pstream_open_records_handed_mode (cfg : Config) (env : Env) (f f1 : facade)
    (mode : Nat) (h : basic_pstream.open_ cfg env f mode = .ok f1) :
    f1.buf_.base_.mode = basic_pstream.handed_mode mode := by
  unfold basic_pstream.open_ at h
  cases ho : f.buf_.open_ cfg env (basic_pstream.handed_mode mode) with
  | error e => simp [ho] at h
  | ok p =>
    obtain ⟨r, s1⟩ := p
    simp only [ho] at h
    injection h with hf
    rw [← hf]
    exact open_records_mode cfg env _ _ _ _ ho

/-- The build-time check rejects exactly the configured values that are at least 1. -/
theorem buffer_size_rejected_iff (v : Int) :
    buffer_size_rejected (some v) = true ↔ 1 ≤ v := by
  simp [buffer_size_rejected]

/-- Every defined value that passes the build-time check gives a capacity below 1. -/
theorem buffer_size_accepted_defined (v : Int) (h : buffer_size_rejected (some v) = false) :
    buffer_size_value (some v) < 1 := by
  simp [buffer_size_rejected] at h
  simpa [buffer_size_value] using h

/-! ## Overflow on a full region, partial writes -/

/-- The pointer adjustment of `overflow`: for `1 ≤ C ≤ 2^31 + 1` the unsigned expression
`-C + 1` of the size type, converted to the 32-bit `int` that `pbump` takes, is `1 - C`. -/
theorem pbump_adjustment (C : Nat) (h1 : 1 ≤ C) (h2 : C ≤ 2 ^ 31 + 1) :
    to_int (((SIZE_MOD - C % SIZE_MOD + 1) % SIZE_MOD : Nat) : Int) = 1 - (C : Int) := by
  unfold to_int SIZE_MOD
  omega

/-- The pipe handle's `write` on an open handle that is not at end-of-file: one `::fwrite`
call for the `n` units, and the result is whether the count it returned is non-zero. -/
theorem write_open_count (cfg : Config) (env : Env) (b : popenbuf_base) (mem : Mem)
    (buf : Int) (n : Nat) (f : CFile) (hf : b.c_file_ptr_ = some f) (he : f.eofInd = false)
    (hbuf : buf ≠ 0) (hn : n < 2 ^ 63) :
    b.write cfg env mem buf (to_ptrdiff (n : Int))
      = .ok (decide (n - env.fwriteShort ≠ 0),
             { b with trace := b.trace ++ [OsCall.fwrite (peek mem buf n)] }) := by
  have hsz : to_size (to_ptrdiff (n : Int)) = n := by unfold to_size to_ptrdiff; omega
  simp [popenbuf_base.write, hf, he, hsz, hbuf]

/-- A unit other than `0xFF` is not taken for `eof` by the test that opens `overflow`. -/
theorem overflow_test_false (u : char_type) (hu : u ≠ 255) :
    ¬ (traits_type.eq (traits_type.to_char_type (traits_type.to_int_type u))
        (traits_type.to_char_type traits_type.eof) = true) := by
  simp [to_char_type_to_int_type, to_char_type_eof, traits_type.eq, hu]

/-- Overflow on a full region when `::fwrite` returns a non-zero count, complete or not
(the part of C19 the code satisfies, and the defect behind C17): for a unit other than
`0xFF` and `1 ≤ C ≤ 2^31 + 1`, one block of the `C` region units is handed to `::fwrite`,
the unit is stored in slot 0, the fill level is 1 afterwards, and the unit is returned. -/
theorem overflow_full_written (cfg : Config) (env : Env) (s : basic_popenbuf) (C : Nat)
    (u : char_type) (hA : WriteArea s C C) (hC1 : 1 ≤ C) (hC2 : C ≤ 2 ^ 31 + 1)
    (hu : u ≠ 255) (hW : env.fwriteShort < C) :
    s.overflow cfg env (traits_type.to_int_type u) = .ok (traits_type.to_int_type u,
      { s with base_ := { s.base_ with
                 trace := s.base_.trace ++ [OsCall.fwrite (peek s.mem s.pbase_ C)] },
               mem := store s.mem s.pbase_ u, pptr_ := s.pbase_ + 1 }) := by
  obtain ⟨f, hf, he⟩ := hA.handle
  have hb : s.pbase_ ≠ 0 := by have := hA.base_pos; omega
  have hw := write_open_count cfg env s.base_ s.mem s.pbase_ C f hf he hb (by omega)
  have hd : decide (C - env.fwriteShort ≠ 0) = true := by
    have : C - env.fwriteShort ≠ 0 := by omega
    simp [this]
  rw [hd] at hw
  have hbump : to_int ((((SIZE_MOD - C % SIZE_MOD : Nat) : Int) + 1) % (SIZE_MOD : Int))
      = 1 - (C : Int) := by
    unfold to_int SIZE_MOD; omega
  have hneof : traits_type.not_eof (traits_type.to_int_type u) = traits_type.to_int_type u := by
    have hne : ¬ ((u.val : Int) = (-1 : Int)) := by omega
    simp only [traits_type.not_eof, traits_type.to_int_type, traits_type.eof]
    exact if_neg hne
  have hC0 : ¬ (s.out_buff_size_ = 0) := by rw [hA.size]; omega
  unfold overflow
  rw [if_neg (overflow_test_false u hu), if_neg hC0, hA.size, hw]
  simp [hb, pbump, hA.next, hA.size, hneof, to_char_type_to_int_type]
  rw [hbump]
  omega

/-- Overflow on a full region when `::fwrite` returns 0 (the part of C19 about a failed
write): `eof` is returned, the region contents and the fill level are unchanged; only the
trace records the call. -/
theorem overflow_full_write_fails (cfg : Config) (env : Env) (s : basic_popenbuf) (C : Nat)
    (u : char_type) (hA : WriteArea s C C) (hC1 : 1 ≤ C) (hC2 : C < 2 ^ 63)
    (hu : u ≠ 255) (hW : C ≤ env.fwriteShort) :
    s.overflow cfg env (traits_type.to_int_type u) = .ok (traits_type.eof,
      { s with base_ := { s.base_ with
                 trace := s.base_.trace ++ [OsCall.fwrite (peek s.mem s.pbase_ C)] } }) := by
  obtain ⟨f, hf, he⟩ := hA.handle
  have hb : s.pbase_ ≠ 0 := by have := hA.base_pos; omega
  have hw := write_open_count cfg env s.base_ s.mem s.pbase_ C f hf he hb hC2
  have hd : decide (C - env.fwriteShort ≠ 0) = false := by
    have : C - env.fwriteShort = 0 := by omega
    simp [this]
  rw [hd] at hw
  have hC0 : ¬ (s.out_buff_size_ = 0) := by rw [hA.size]; omega
  unfold overflow
  rw [if_neg (overflow_test_false u hu), if_neg hC0, hA.size, hw]
  simp

/-- Overflow on a full region when the stream is at end-of-file: the pipe handle's `write`
fails without calling `::fwrite`, `eof` is returned and nothing changes. -/
theorem overflow_full_at_eof (cfg : Config) (env : Env) (s : basic_popenbuf) (C : Nat)
    (u : char_type) (f : CFile) (hA : PutArea s C C) (hf : s.base_.c_file_ptr_ = some f)
    (he : f.eofInd = true) (hC1 : 1 ≤ C) (hu : u ≠ 255) :
    s.overflow cfg env (traits_type.to_int_type u) = .ok (traits_type.eof, s) := by
  have hC0 : ¬ (s.out_buff_size_ = 0) := by rw [hA.size]; omega
  have hw : s.base_.write cfg env s.mem s.pbase_ (to_ptrdiff (C : Int))
      = .ok (false, s.base_) := by
    simp [popenbuf_base.write, hf, he]
  unfold overflow
  rw [if_neg (overflow_test_false u hu), if_neg hC0, hA.size, hw]
  have hsz := hA.size
  cases s
  simp
  exact hsz.symm

/-- The defect behind C17, for every capacity `2 ≤ C ≤ 2^31 + 1`: when `::fwrite` reports
only `k` of the `C` requested units written, `0 < k < C`, the pipe handle's `write`
reports success and `overflow` goes on as after a complete write. -/
theorem overflow_partial_write_reports_success (cfg : Config) (env : Env)
    (s : basic_popenbuf) (C k : Nat) (u : char_type) (hA : WriteArea s C C)
    (hC2 : C ≤ 2 ^ 31 + 1) (hk0 : 0 < k) (hkC : k < C) (hShort : env.fwriteShort = C - k)
    (hu : u ≠ 255) :
    (∃ b1, s.base_.write cfg env s.mem s.pbase_ (to_ptrdiff (C : Int)) = .ok (true, b1)) ∧
    ∃ s1, s.overflow cfg env (traits_type.to_int_type u)
        = .ok (traits_type.to_int_type u, s1) ∧
      traits_type.to_int_type u ≠ traits_type.eof ∧ s1.pptr_ = s1.pbase_ + 1 := by
  constructor
  · obtain ⟨f, hf, he⟩ := hA.handle
    have hb : s.pbase_ ≠ 0 := by have := hA.base_pos; omega
    have hw := write_open_count cfg env s.base_ s.mem s.pbase_ C f hf he hb (by omega)
    have hd : decide (C - env.fwriteShort ≠ 0) = true := by
      have : C - env.fwriteShort ≠ 0 := by omega
      simp [this]
    rw [hd] at hw
    exact ⟨_, hw⟩
  · exact ⟨_, overflow_full_written cfg env s C u hA (by omega) hC2 hu (by omega),
      to_int_type_ne_eof u, rfl⟩

/-- The same defect in `sync`: with `n` units pending, `1 ≤ n ≤ 2^31`, a write that
transfers only `k` of them, `0 < k < n`, and a successful flush, `sync` returns 0. -/
theorem sync_partial_write_reports_success (cfg : Config) (env : Env) (s : basic_popenbuf)
    (C n k : Nat) (hA : WriteArea s C n) (hn : n ≤ 2 ^ 31) (hk0 : 0 < k) (hkn : k < n)
    (hShort : env.fwriteShort = n - k) (hF : env.fflushRet = 0) :
    ∃ s1, s.sync cfg env = .ok (0, s1) := by
  have h := sync_effect cfg env s C n hA hn
  have hcnt : n - env.fwriteShort ≠ 0 := by omega
  have hd : (decide (n - env.fwriteShort ≠ 0) && decide (env.fflushRet = 0)) = true := by
    simp [hcnt, hF]
  rw [if_pos hd] at h
  exact ⟨_, h⟩

/-! ## Ownership of the backing buffer -/

/-- The defect behind C13 and C14: a `close` that succeeds clears the caller-supplied flag
and keeps the backing buffer, so a caller's buffer is from then on taken for the
adapter's own. -/
theorem close_success_clears_flag_keeps_buffer (cfg : Config) (env : Env)
    (s s1 : basic_popenbuf) (h : s.close cfg env = .ok (true, s1)) :
    s1.user_custom_buffer_ = false ∧ s1.total_buff_ = s.total_buff_ ∧
    s1.total_buff_size_ = s.total_buff_size_ := by
  have key : ∀ (q : Int) (s2 : basic_popenbuf),
      s2.total_buff_ = s.total_buff_ → s2.total_buff_size_ = s.total_buff_size_ →
      (match s2.base_.pclose cfg env with
        | .error e => .error e
        | .ok (r, b) =>
          if (s.is_open && r) = true then
            .ok (true, { (({ s2 with base_ := b }).setg 0 0 0).setp 0 0 with
              in_buff_ := 0, out_buff_ := 0, in_buff_size_ := 0, out_buff_size_ := 0,
              user_custom_buffer_ := false })
          else .ok (false, { s2 with base_ := b })) = Except.ok (true, s1) →
      s1.user_custom_buffer_ = false ∧ s1.total_buff_ = s.total_buff_ ∧
        s1.total_buff_size_ = s.total_buff_size_ := by
    intro q s2 ht hsz hc
    cases hp : s2.base_.pclose cfg env with
    | error e => simp [hp] at hc
    | ok p =>
      obtain ⟨r, b⟩ := p
      simp only [hp] at hc
      by_cases hr : (s.is_open && r) = true
      · rw [if_pos hr] at hc
        simp only [Except.ok.injEq, Prod.mk.injEq, true_and] at hc
        subst hc
        simp [setg, setp, ht, hsz]
      · rw [if_neg hr] at hc
        simp at hc
  unfold close at h
  simp only [] at h
  by_cases hm : s.base_.mode &&& ios_base.out ≠ 0
  · rw [if_pos hm] at h
    cases hs : s.sync cfg env with
    | error e => simp [hs] at h
    | ok p =>
      obtain ⟨q, s2⟩ := p
      have hf := sync_frame cfg env s s2 q hs
      simp only [hs] at h
      exact key q s2 hf.2.2.2.2.2.2.1 hf.2.2.2.2.2.2.2.1 h
  · rw [if_neg hm] at h
    exact key 0 s rfl rfl h

/-- On a closed adapter whose caller-supplied flag is clear, `setbuf` with a null buffer
returns the adapter and changes nothing in a release build: the backing buffer stays,
whoever supplied it. -/
theorem setbuf_null_flag_clear (cfg : Config) (env : Env) (s : basic_popenbuf) (n : Int)
    (hnd : cfg.ndebug = true) (hClosed : s.is_open = false)
    (hFlag : s.user_custom_buffer_ = false) :
    s.setbuf cfg env 0 n = .ok (true, s) := by
  simp [setbuf, hnd, hClosed, hFlag]

/-- When the caller-supplied flag is clear the destructor hands the backing buffer to
`delete[]` before it closes the adapter. -/
theorem destroy_flag_clear (cfg : Config) (env : Env) (s : basic_popenbuf)
    (hFlag : s.user_custom_buffer_ = false) :
    s.destroy cfg env
      = ({ s with released := s.released ++ [s.total_buff_] }).close cfg env := by
  simp [destroy, hFlag]

/-! ## Claims -/

/-- C1 (code defect).  Claim: units written one at a time and then closed reach the pipe
exactly, whatever the number of overflows.  Code: with capacity 1, writing the units
`65, 255` and closing hands the pipe the blocks `[65]` and `[]`; unit `255` arrives at
`overflow`, is taken for `eof` by `traits_type::eq` and is dropped. -/
theorem C1_unit_255_dropped_by_overflow :
    ((opened release_build 1 ios_base.out []).bind fun s =>
      (write_session release_build (os_ok []) s [65, 255]).map fun b =>
        (b.1 ++ b.2, (b.1 ++ b.2).flatten, decide ((b.1 ++ b.2).flatten = [65, 255])))
      = .ok ([[65], []], [65], false) := by
  rfl

/-- C2 (code defect).  Claim: unit reads return exactly the units of the source and then
end-of-stream.  Code: with capacity 3 and the source `97, 98, 99` five successive reads
return `97, 98, 99, 97, eof`: the refill that receives no unit does not report
end-of-stream and exposes the stale first unit of the region. -/
theorem C2_phantom_unit_after_full_region :
    ((opened release_build 3 ios_base.in_ [97, 98, 99]).bind fun s =>
      (get_units release_build 5 s).map fun p => (p.1, fread_counts p.2.base_.trace))
      = .ok ([97, 98, 99, 97, traits_type.eof], [3, 3]) := by
  rfl

/-- C3 (code defect).  Claim: when the source delivers exactly `C` units, the first
underflow reads them with one request of `C` units and the next underflow reports
end-of-stream.  Code: with capacity 1 and the source `120`, the first underflow issues one
`fread` of 1 unit and exposes it; once it is consumed, the second underflow returns `120`
again instead of `eof`. -/
theorem C3_second_underflow_returns_a_unit :
    ((opened release_build 1 ios_base.in_ [120]).bind fun s =>
      (s.underflow release_build).bind fun p =>
        ((p.2.gbump 1).underflow release_build).map fun q =>
          (p.1, fread_counts p.2.base_.trace, p.2.egptr_ - p.2.eback_,
            q.1, decide (q.1 = traits_type.eof)))
      = .ok (120, [1], 1, 120, false) := by
  rfl

/-- C4 (code defect).  Claim: `N` units written with capacity `C` cause `(N-1)/C` writes
of `C` units and a write of the remaining `N - C*((N-1)/C)` units on close.  Code: with
`C = 1`, `N = 2` and the units `65, 255`, the write on close carries no unit instead of
one: the lengths of the blocks are `[1]` while writing and `[0]` on close. -/
theorem C4_close_writes_no_unit_after_255 :
    ((opened release_build 1 ios_base.out []).bind fun s =>
      (write_session release_build (os_ok []) s [65, 255]).map fun b =>
        (b.1.map List.length, b.2.map List.length,
          decide (b.2.map List.length = [2 - 1 * ((2 - 1) / 1)])))
      = .ok ([1], [0], false) := by
  rfl

/-- C5 (claim as stated fails).  For the total capacity `2^64 - 1`, which the size type
represents, the combined branch of `open` gives the read region size 0, not the ceiling
of half the capacity: `total_buff_size_ + 1` wraps to 0. -/
theorem C5_counterexample_capacity_size_max :
    ((with_capacity apple_release_build (-1)).bind fun s =>
      (s.open_ apple_release_build (os_ok []) (ios_base.in_ ||| ios_base.out)).map fun q =>
        (q.1, s.total_buff_size_, q.2.in_buff_size_,
          decide (q.2.in_buff_size_ = s.total_buff_size_ / 2 + s.total_buff_size_ % 2)))
      = .ok (true, 2 ^ 64 - 1, 0, false) := by
  rfl

/-- C5 (amended).  In a build of the Apple family, `open` on a closed adapter with null
regions takes the combined branch for every mode; when the spawn succeeds and the total
capacity `T` is positive with `T + 1` representable in the size type, it returns success
with read size + write size = `T`, read size = ceiling of `T / 2`, the read region at the
start of the backing buffer, the write region right after the read region and ending where
the backing buffer ends, and the get and put areas installed on these regions. -/
theorem C5_region_partition (cfg : Config) (env : Env) (s : basic_popenbuf) (mode : Nat)
    (child : List char_type)
    (hApple : cfg.apple = true) (hPre : s.open_asserts = true)
    (hSpawn : env.spawn = some child)
    (hPos : 0 < s.total_buff_size_) (hRep : s.total_buff_size_ + 1 < 2 ^ 64) :
    ∃ s1, s.open_ cfg env mode = .ok (true, s1) ∧
      s1.total_buff_ = s.total_buff_ ∧ s1.total_buff_size_ = s.total_buff_size_ ∧
      s1.in_buff_size_ + s1.out_buff_size_ = s.total_buff_size_ ∧
      s1.in_buff_size_ = s.total_buff_size_ / 2 + s.total_buff_size_ % 2 ∧
      s1.in_buff_ = s.total_buff_ ∧
      s1.out_buff_ = s1.in_buff_ + (s1.in_buff_size_ : Int) ∧
      s1.out_buff_ + (s1.out_buff_size_ : Int) = s.total_buff_ + (s.total_buff_size_ : Int) ∧
      s1.eback_ = s1.in_buff_ ∧ s1.gptr_ = s1.in_buff_ ∧ s1.egptr_ = s1.in_buff_ ∧
      s1.pbase_ = s1.out_buff_ ∧ s1.pptr_ = s1.out_buff_ ∧
      s1.epptr_ = s1.out_buff_ + (s1.out_buff_size_ : Int) := by
  have hmod : (s.total_buff_size_ + 1) % SIZE_MOD = s.total_buff_size_ + 1 :=
    Nat.mod_eq_of_lt (by unfold SIZE_MOD; exact hRep)
  simp only [open_, popenbuf_base.popen, hApple, hPre, hSpawn, combined_test_true]
  simp [setg, setp, hmod]
  simp only [SIZE_MOD]
  omega

/-- Witness for C5: the default capacity 512 splits into 256 + 256. -/
theorem C5_region_partition_witness :
    apple_release_build.apple = true ∧ fresh.open_asserts = true ∧
    (os_ok []).spawn = some [] ∧
    0 < fresh.total_buff_size_ ∧ fresh.total_buff_size_ + 1 < 2 ^ 64 ∧
    ∃ s1, fresh.open_ apple_release_build (os_ok []) (ios_base.in_ ||| ios_base.out)
        = .ok (true, s1) ∧
      s1.total_buff_ = fresh.total_buff_ ∧ s1.total_buff_size_ = fresh.total_buff_size_ ∧
      s1.in_buff_size_ + s1.out_buff_size_ = fresh.total_buff_size_ ∧
      s1.in_buff_size_ = fresh.total_buff_size_ / 2 + fresh.total_buff_size_ % 2 ∧
      s1.in_buff_ = fresh.total_buff_ ∧
      s1.out_buff_ = s1.in_buff_ + (s1.in_buff_size_ : Int) ∧
      s1.out_buff_ + (s1.out_buff_size_ : Int)
        = fresh.total_buff_ + (fresh.total_buff_size_ : Int) ∧
      s1.eback_ = s1.in_buff_ ∧ s1.gptr_ = s1.in_buff_ ∧ s1.egptr_ = s1.in_buff_ ∧
      s1.pbase_ = s1.out_buff_ ∧ s1.pptr_ = s1.out_buff_ ∧
      s1.epptr_ = s1.out_buff_ + (s1.out_buff_size_ : Int) :=
  ⟨rfl, rfl, rfl, by decide, by decide,
    C5_region_partition apple_release_build (os_ok []) fresh (ios_base.in_ ||| ios_base.out) []
      rfl rfl rfl (by decide) (by decide)⟩

/-- C6 (code defect).  Claim: with a pipe that accepts every byte and a flush that
succeeds, `sync` returns 0 at every fill level, also when nothing is pending.  Code: on an
adapter just opened for writing (fill level 0) `sync` hands `::fwrite` an empty block, the
returned count 0 is converted to `false`, and `sync` returns `-1`. -/
theorem C6_sync_with_nothing_pending_returns_failure :
    ((fresh.open_ debug_build (os_ok []) ios_base.out).bind fun p =>
      (p.2.sync debug_build (os_ok [])).map fun q =>
        (p.1, p.2.pptr_ - p.2.pbase_, q.1, fwrite_blocks q.2.base_.trace))
      = .ok (true, 0, -1, [[]]) := by
  rfl

/-- C7 (claim as stated fails).  On an adapter opened for writing with one unit pending,
with an OS whose flush fails and whose close succeeds, the final `sync` returns `-1` and
`close` still returns success. -/
theorem C7_counterexample_failed_sync_close_succeeds :
    ((opened release_build 4 ios_base.out []).bind fun s =>
      (put_units release_build (os_ok []) [65] s).bind fun p =>
        (p.2.sync release_build os_flush_fails).bind fun a =>
          (p.2.close release_build os_flush_fails).map fun b => (a.1, b.1))
      = .ok (-1, true) := by
  rfl

/-- C7 (amended).  For every open adapter opened for writing, `close` runs the final
`sync` (the pipe handle's `write` of the pending units, which calls `::fwrite` unless the
stream is at end-of-file, then `::fflush`), then always calls the pipe handle's `pclose`;
whatever the final `sync` did (its write or its flush may fail), `close` returns success
exactly when the OS close call does not return `-1`, and the handle is closed afterwards.
The trace of OS calls grows by exactly the `::fwrite` of the pending units, the `::fflush`
and the `::pclose`, in this order.  In a debug build a failing OS close aborts at the
assertion of `pclose` instead. -/
theorem C7_close_result_is_pclose_result (cfg : Config) (env : Env) (s : basic_popenbuf)
    (f : CFile)
    (hOpen : s.base_.c_file_ptr_ = some f)
    (hMode : s.base_.openmode_ &&& ios_base.out ≠ 0)
    (hBase : s.pbase_ ≠ 0) :
    if cfg.ndebug = false ∧ env.pcloseRet = -1 then s.close cfg env = .error Fault.assertion
    else ∃ s1, s.close cfg env = .ok (decide (env.pcloseRet ≠ -1), s1) ∧
      s1.base_.c_file_ptr_ = none ∧ OsCall.pclose ∈ s1.base_.trace ∧
      s1.base_.trace = s.base_.trace
        ++ (if f.eofInd = true then []
            else [OsCall.fwrite
              (peek s.mem s.pbase_ (to_size (to_ptrdiff (s.pptr_ - s.pbase_))))])
        ++ [OsCall.fflush, OsCall.pclose] ∧
      (∀ k : Nat, k < 2 ^ 63 → s.pptr_ = s.pbase_ + (k : Int) → f.eofInd = false →
        s1.base_.trace = s.base_.trace
          ++ [OsCall.fwrite (peek s.mem s.pbase_ k), OsCall.fflush, OsCall.pclose]) := by
  have hm : s.base_.mode &&& ios_base.out ≠ 0 := hMode
  have hcount : ∀ k : Nat, k < 2 ^ 63 → s.pptr_ = s.pbase_ + (k : Int) →
      to_size (to_ptrdiff (s.pptr_ - s.pbase_)) = k := by
    intro k hk hp
    have : s.pptr_ - s.pbase_ = (k : Int) := by omega
    rw [this]
    unfold to_size to_ptrdiff
    omega
  obtain ⟨childOut, eofInd⟩ := f
  cases hnd : cfg.ndebug <;> cases eofInd <;> by_cases hp : env.pcloseRet = -1 <;>
    simp [close, sync, popenbuf_base.write, popenbuf_base.flush, popenbuf_base.pclose,
      popenbuf_base.is_open, popenbuf_base.mode, is_open, pbump, setg, setp, hOpen, hMode,
      hBase, hnd, hp]
  all_goals
    intro k hk hpk
    rw [hcount k hk hpk]

/-- Witness for C7: the fresh adapter opened for writing with the unit 65 pending, closed
in a debug build while the flush fails. -/
theorem C7_close_result_is_pclose_result_witness :
    writer_after_put.base_.c_file_ptr_ = some { childOut := [], eofInd := false } ∧
    writer_after_put.base_.openmode_ &&& ios_base.out ≠ 0 ∧
    writer_after_put.pbase_ ≠ 0 ∧
    (if debug_build.ndebug = false ∧ os_flush_fails.pcloseRet = -1 then
        writer_after_put.close debug_build os_flush_fails = .error Fault.assertion
      else ∃ s1, writer_after_put.close debug_build os_flush_fails
          = .ok (decide (os_flush_fails.pcloseRet ≠ -1), s1) ∧
        s1.base_.c_file_ptr_ = none ∧ OsCall.pclose ∈ s1.base_.trace ∧
        s1.base_.trace = writer_after_put.base_.trace
          ++ (if ({ childOut := [], eofInd := false } : CFile).eofInd = true then []
              else [OsCall.fwrite
                (peek writer_after_put.mem writer_after_put.pbase_
                  (to_size (to_ptrdiff (writer_after_put.pptr_ - writer_after_put.pbase_))))])
          ++ [OsCall.fflush, OsCall.pclose] ∧
        (∀ k : Nat, k < 2 ^ 63 → writer_after_put.pptr_ = writer_after_put.pbase_ + (k : Int) →
          ({ childOut := [], eofInd := false } : CFile).eofInd = false →
          s1.base_.trace = writer_after_put.base_.trace
            ++ [OsCall.fwrite (peek writer_after_put.mem writer_after_put.pbase_ k),
                OsCall.fflush, OsCall.pclose])) :=
  ⟨rfl, by decide, by decide,
    C7_close_result_is_pclose_result debug_build os_flush_fails writer_after_put
      { childOut := [], eofInd := false } rfl (by decide) (by decide)⟩

/-- C8 (code defect).  Claim: closing an adapter that is already closed returns failure,
changes nothing and reaches no contract violation.  Code: after a successful `open` for
writing and a successful `close`, `openmode_` still has the `out` bit, so the second
`close` calls `sync`, which calls the pipe handle's `write` on the closed handle: the
assertion `is_open()` fails in a debug build, and in a release build a null `FILE*`
reaches `feof`. -/
theorem C8_second_close_writes_to_closed_handle :
    ((fresh.open_ debug_build (os_ok []) ios_base.out).bind fun p =>
      (p.2.close debug_build (os_ok [])).map fun q =>
        (p.1, q.1, q.2.is_open, (q.2.close debug_build (os_ok [])).map Prod.fst))
      = .ok (true, true, false, .error Fault.assertion) ∧
    ((fresh.open_ release_build (os_ok []) ios_base.out).bind fun p =>
      (p.2.close release_build (os_ok [])).map fun q =>
        (p.1, q.1, q.2.is_open, (q.2.close release_build (os_ok [])).map Prod.fst))
      = .ok (true, true, false, .error Fault.undefined) := by
  constructor <;> rfl

/-- C9 (code defect).  Claim: when the spawn fails, `open` returns failure and the region
state stays null.  Code: in a release build `open` for reading with a failed spawn returns
failure with the adapter closed, yet the read region (pointer 4096, size 512) and the get
area are installed; in a debug build the call aborts at the assertion of `popen`. -/
theorem C9_failed_open_installs_region :
    (fresh.open_ release_build os_spawn_fails ios_base.in_).map (fun p =>
        (p.1, p.2.is_open, p.2.in_buff_, p.2.in_buff_size_, p.2.eback_, p.2.gptr_, p.2.egptr_))
      = .ok (false, false, 4096, 512, 4096, 4096, 4096) ∧
    (fresh.open_ debug_build os_spawn_fails ios_base.in_).map Prod.fst
      = .error Fault.assertion := by
  constructor <;> rfl

/-- C10 (code defect).  Claim: in every reachable state the region pointers are both null
exactly when the adapter is closed.  Code: in a release build, a successful `open` for
reading followed by a `close` whose OS close call fails reaches a state that is closed
while the read-region pointer is not null. -/
theorem C10_closed_state_with_region_reachable :
    ∃ s, Reachable release_build s ∧ s.is_open = false ∧ s.in_buff_ ≠ 0 ∧
      ¬ ((s.in_buff_ = 0 ∧ s.out_buff_ = 0) ↔ s.is_open = false) := by
  have h0 : Reachable release_build fresh :=
    Reachable.construct (os_ok []) 0 zero_mem (by decide)
  have h1 : Reachable release_build fresh_reader :=
    Reachable.open_ (os_ok []) ios_base.in_ fresh fresh_reader true h0 rfl
  have h2 : Reachable release_build reader_after_failed_pclose :=
    Reachable.close os_pclose_fails fresh_reader reader_after_failed_pclose false h1 rfl
  have hclosed : reader_after_failed_pclose.is_open = false := rfl
  have hregion : reader_after_failed_pclose.in_buff_ ≠ 0 := by decide
  exact ⟨reader_after_failed_pclose, h2, hclosed, hregion, fun h => hregion (h.mpr hclosed).1⟩

/-- C11 (code defect).  Claim: on every platform configuration a successful `open` with
mode exactly `in` gives a read region of the whole capacity and a null write region, and
with mode exactly `out` the converse.  Code: in a build of the Apple family the test
`mode == std::ios_base::in | std::ios_base::out` parses as `(mode == in) | out`, which is
non-zero for every mode, so the combined branch always runs: on the fresh adapter
(buffer at 4096, capacity 512) `open` with mode `in`, and likewise with mode `out`,
returns success with a read region of 256 units at 4096 and a write region of 256 units at
4352. -/
theorem C11_apple_single_direction_open_splits_buffer :
    (fresh.open_ apple_release_build (os_ok []) ios_base.in_).map (fun p =>
        (p.1, p.2.total_buff_, p.2.total_buff_size_, p.2.in_buff_, p.2.in_buff_size_,
          p.2.out_buff_, p.2.out_buff_size_))
      = .ok (true, 4096, 512, 4096, 256, 4352, 256) ∧
    (fresh.open_ apple_debug_build (os_ok []) ios_base.out).map (fun p =>
        (p.1, p.2.total_buff_, p.2.total_buff_size_, p.2.in_buff_, p.2.in_buff_size_,
          p.2.out_buff_, p.2.out_buff_size_))
      = .ok (true, 4096, 512, 4096, 256, 4352, 256) := by
  constructor <;> rfl

/-- C12 (code defect).  Claim: on every closed adapter `setbuf` with a non-null buffer
completes without violating any assertion and adopts the buffer.  Code: `setbuf` starts
with `assert(is_open())`, so in a debug build the call on the fresh, closed adapter
aborts at that assertion; only a release build adopts the buffer (address 8192, size 16,
flag set). -/
theorem C12_setbuf_on_closed_adapter_hits_assertion :
    (fresh.is_open, (fresh.setbuf debug_build (os_ok []) 8192 16).map Prod.fst)
      = (false, .error Fault.assertion) ∧
    (fresh.setbuf release_build (os_ok []) 8192 16).map (fun p =>
        (p.1, p.2.total_buff_, p.2.total_buff_size_, p.2.user_custom_buffer_))
      = .ok (true, 8192, 16, true) := by
  constructor <;> rfl

/-- C13 (code defect).  Claim: on every closed adapter reachable by `setbuf`, `open` and
`close` calls, `setbuf` with a null buffer leaves an adapter-owned backing buffer of
capacity 512.  Code: in a release build, after `setbuf(8192, 16)`, a successful `open` for
reading and a successful `close` (which clears the caller-supplied flag), `setbuf(0, 0)`
returns the adapter and keeps the caller's buffer: backing buffer 8192, capacity 16, flag
false, and the only buffer ever allocated is the one at 4096. -/
theorem C13_setbuf_null_keeps_caller_buffer :
    ((opened release_build 16 ios_base.in_ []).bind fun s =>
      (s.close release_build (os_ok [])).bind fun p =>
        (p.2.setbuf release_build (os_ok []) 0 0).map fun q =>
          (p.1, p.2.is_open, q.1, q.2.total_buff_, q.2.total_buff_size_,
            q.2.user_custom_buffer_, q.2.allocated,
            decide (q.2.total_buff_ ∈ q.2.allocated),
            decide (q.2.total_buff_size_ = ATHENA_POPEN_STREAM_BUFFER_SIZE)))
      = .ok (true, false, true, 8192, 16, false, [4096], false, false) := by
  rfl

/-- C14 (code defect).  Claim: the adapter releases only buffers it allocated itself.
Code, release build: (1) `setbuf(8192, 16)` followed by `setbuf(12288, 16)` hands the
caller's buffer 8192 to `delete[]`, since `setbuf` with a non-null buffer deletes the
previous backing buffer unconditionally; (2) after `setbuf(8192, 16)`, `open` and a
successful `close`, which clears the caller-supplied flag, the destructor hands 8192 to
`delete[]`.  In both runs the adapter allocated only the buffer at 4096. -/
theorem C14_caller_buffer_released :
    ((fresh.setbuf release_build (os_ok []) 8192 16).bind fun p =>
      (p.2.setbuf release_build (os_ok []) 12288 16).map fun q =>
        (q.2.allocated, q.2.released, decide (∀ a ∈ q.2.released, a ∈ q.2.allocated)))
      = .ok ([4096], [4096, 8192], false) ∧
    ((opened release_build 16 ios_base.in_ []).bind fun s =>
      (s.close release_build (os_ok [])).bind fun p =>
        (p.2.destroy release_build (os_ok [])).map fun q =>
          (p.2.total_buff_, p.2.user_custom_buffer_, q.2.allocated, q.2.released,
            decide (∀ a ∈ q.2.released, a ∈ q.2.allocated)))
      = .ok (8192, false, [4096], [4096, 8192], false) := by
  constructor <;> rfl

/-- C15 (code defect).  Claim: the duplex facade hands the adapter a mode with both the
read bit and the write bit, whatever mode the caller passes.  Code:
`basic_pstream::open` passes `mode | std::ios_base::out`; called with mode `out` on a
fresh facade in an Apple release build it opens the adapter with mode 16, whose `in` bit
is clear, and reports no failure. -/
theorem C15_duplex_facade_omits_read_bit :
    (basic_pstream.handed_mode ios_base.out,
      basic_pstream.handed_mode ios_base.out &&& ios_base.in_) = (16, 0) ∧
    (basic_pstream.open_ apple_release_build (os_ok []) fresh_facade ios_base.out).map
        (fun f => (f.failbit, f.buf_.is_open, f.buf_.base_.mode,
          f.buf_.base_.mode &&& ios_base.in_))
      = .ok (false, true, 16, 0) := by
  constructor <;> rfl

/-- C16 (claim as stated fails).  When the OS close call returns wait status 9 (child
killed by a signal, so not a normal termination), `pclose` on an open handle returns
`true`, in a release build and in a debug build. -/
theorem C16_counterexample_abnormal_status_reports_success :
    (os_child_killed.pcloseRet, WIFEXITED os_child_killed.pcloseRet) = (9, false) ∧
    (open_handle.pclose release_build os_child_killed).map (fun p => (p.1, p.2.is_open))
      = .ok (true, false) ∧
    (open_handle.pclose debug_build os_child_killed).map (fun p => (p.1, p.2.is_open))
      = .ok (true, false) := by
  refine ⟨rfl, rfl, rfl⟩

/-- C16 (amended).  For every open pipe handle, `pclose` makes one OS close call and
returns `false` exactly when that call returns `-1`; every other wait status, normal or
abnormal, gives `true`.  Whenever `pclose` returns, the handle is null.  In a debug build
a result of `-1` aborts at the assertion instead of returning. -/
theorem C16_pclose_result_is_os_close_result (cfg : Config) (env : Env)
    (b : popenbuf_base) (f : CFile) (hOpen : b.c_file_ptr_ = some f) :
    if cfg.ndebug = false ∧ env.pcloseRet = -1 then b.pclose cfg env = .error Fault.assertion
    else b.pclose cfg env = .ok (decide (env.pcloseRet ≠ -1),
      { b with c_file_ptr_ := none, trace := b.trace ++ [OsCall.pclose] }) := by
  cases hnd : cfg.ndebug <;> by_cases hp : env.pcloseRet = -1 <;>
    simp [popenbuf_base.pclose, popenbuf_base.is_open, hOpen, hnd, hp]

/-- Witness for C16: the handle opened for writing, closed in a release build while the
OS close call fails. -/
theorem C16_pclose_result_is_os_close_result_witness :
    open_handle.c_file_ptr_ = some { childOut := [], eofInd := false } ∧
    (if release_build.ndebug = false ∧ os_pclose_fails.pcloseRet = -1 then
        open_handle.pclose release_build os_pclose_fails = .error Fault.assertion
      else open_handle.pclose release_build os_pclose_fails
        = .ok (decide (os_pclose_fails.pcloseRet ≠ -1),
          { open_handle with c_file_ptr_ := none,
                             trace := open_handle.trace ++ [OsCall.pclose] })) :=
  ⟨rfl, C16_pclose_result_is_os_close_result release_build os_pclose_fails open_handle
    { childOut := [], eofInd := false } rfl⟩

/-- C17 (code defect).  Claim: when the OS write for a full region of `C ≥ 2` units
reports only `k` units written, `0 < k < C`, the pipe handle's `write`, `overflow` and
`sync` report failure.  Code: `write` returns the count converted to `bool`.  With
capacity 2, the region full with `65, 66` and an OS write that transfers 1 of the 2 units:
`write` returns `true`; `overflow(67)` returns 67, stores 67 in slot 0 and leaves fill
level 1; `sync` returns 0.  The same conversion is behind C6. -/
theorem C17_partial_write_reported_as_success :
    ((opened release_build 2 ios_base.out []).bind fun s =>
      (put_units release_build (os_ok []) [65, 66] s).bind fun p =>
        (p.2.base_.write release_build os_write_one_short p.2.mem p.2.pbase_ 2).bind fun w =>
          (p.2.overflow release_build os_write_one_short 67).bind fun o =>
            (p.2.sync release_build os_write_one_short).map fun y =>
              (p.2.pptr_ - p.2.pbase_, 2 - os_write_one_short.fwriteShort, w.1, o.1,
                o.2.pptr_ - o.2.pbase_, peek o.2.mem o.2.pbase_ 2, y.1))
      = .ok (2, 1, true, 67, 1, [67, 66], 0) := by
  rfl

/-- C18 (code defect).  Claim: the build-time check accepts the configuration exactly
when the option is undefined or defined with a value of at least 1.  Code: the `#error`
directive fires when the option is defined and its value satisfies `>= 1`: the values 1
and 1024 are rejected, the values 0 and -4 are accepted and become the default capacity;
only the undefined option behaves as claimed (capacity 512). -/
theorem C18_valid_buffer_size_rejected :
    (buffer_size_rejected (some 1), buffer_size_rejected (some 1024),
      buffer_size_rejected (some 0), buffer_size_value (some 0),
      buffer_size_rejected (some (-4)), buffer_size_value (some (-4)),
      buffer_size_rejected none, buffer_size_value none)
      = (true, true, false, 0, false, -4, false, 512) := by
  rfl

/-- C19 (code defect).  Claim: for every non-eof unit `c`, `overflow(c)` on a full region
whose pipe write succeeds stores `c` in slot 0, leaves fill level 1 and returns a non-eof
value.  Code: with capacity 2 and the region full with `65, 66`, `overflow` called with
`to_int_type(0xFF) = 255`, which is not `eof`, takes the unit for `eof` (the test
`traits_type::eq(c, eof())` compares after narrowing both to `char`): it runs `sync`,
returns `eof`, stores nothing and leaves fill level 0.  The same test is behind C1. -/
theorem C19_unit_255_taken_for_eof_on_full_region :
    ((opened release_build 2 ios_base.out []).bind fun s =>
      (put_units release_build (os_ok []) [65, 66] s).bind fun p =>
        (p.2.overflow release_build (os_ok []) (traits_type.to_int_type 255)).map fun o =>
          (p.2.pptr_ - p.2.pbase_, traits_type.to_int_type 255,
            decide (traits_type.to_int_type 255 = traits_type.eof),
            o.1, o.2.pptr_ - o.2.pbase_, peek o.2.mem o.2.pbase_ 2,
            fwrite_blocks o.2.base_.trace))
      = .ok (2, 255, false, traits_type.eof, 0, [65, 66], [[65, 66]]) := by
  rfl

/-- C20 (claim as stated fails).  With a write region of `2^31 + 1` units, writing
`2^31 + 1` units fills the region and the following `sync` leaves the fill level at
`2^32`, beyond the capacity: `pbump` takes an `int`, and `-(2^31 + 1)` converted to `int`
is `2^31 - 1`. -/
theorem C20_counterexample_capacity_beyond_int :
    ∃ rs s1 r s2,
      put_units release_build (os_ok []) (List.replicate (2 ^ 31 + 1) 0) big_writer
        = .ok (rs, s1) ∧
      s1.sync release_build (os_ok []) = .ok (r, s2) ∧
      s1.pptr_ - s1.pbase_ = 2 ^ 31 + 1 ∧
      s2.epptr_ - s2.pbase_ = 2 ^ 31 + 1 ∧ s2.pptr_ - s2.pbase_ = 2 ^ 32 := by
  have hA : WriteArea big_writer (2 ^ 31 + 1) 0 :=
    { handle := ⟨_, rfl, rfl⟩, mode := (by decide), base_pos := (by decide), size := rfl,
      next := rfl, limit := rfl }
  obtain ⟨rs, s1, r, s2, h1, h2, h3, h4, h5⟩ :=
    fill_then_sync_beyond_int release_build (os_ok []) big_writer (2 ^ 31 + 1)
      (List.replicate (2 ^ 31 + 1) 0) hA (List.length_replicate _ _) (by omega) (by omega)
  refine ⟨rs, s1, r, s2, h1, h2, ?_, ?_, h5⟩
  · rw [h3]; norm_cast
  · rw [h4]; norm_cast

/-- C20 (amended).  For an adapter opened for writing whose write region has `C` units,
`1 ≤ C ≤ 2^31`, and is empty: after every sequence of unit writes, `overflow` calls on a
full region and `sync` calls that returned, under arbitrary outcomes of the OS write and
flush, the put area is still the same region with a fill level within `0..C`, and memory
outside the region is untouched.  Every call of the run (the run has a log of its calls,
and the log accounts for the whole trace) handed the pipe at most one block, made of the
`len ≤ C` units pending at the start of the write region as memory was at the moment of
the call, and stored at most one unit, at an index inside the region.  From the state
reached, each further unit write, `overflow` on a full region and `sync` returns and does
the same. -/
theorem C20_fill_level_within_region (cfg : Config) (C : Nat) (s s1 : basic_popenbuf)
    (hC1 : 1 ≤ C) (hC2 : C ≤ 2 ^ 31) (hA : PutArea s C 0) (hrun : WriteRun cfg s s1) :
    (∃ k1 : Nat, k1 ≤ C ∧ s1.pbase_ = s.pbase_ ∧ s1.pptr_ = s1.pbase_ + (k1 : Int) ∧
      s1.epptr_ = s1.pbase_ + (C : Int)) ∧
    PutStep s s1 C ∧
    (∃ log, WriteRunLog cfg s s1 log) ∧
    (∀ log, WriteRunLog cfg s s1 log →
      s1.base_.trace = s.base_.trace
        ++ (log.map fun p => p.2.base_.trace.drop p.1.base_.trace.length).flatten ∧
      ∀ p ∈ log, PutCall p.1 p.2 C) ∧
    (∀ env c, ∃ r s2, s1.sputc cfg env c = .ok (r, s2) ∧ PutCall s1 s2 C) ∧
    (∀ env c, s1.pptr_ = s1.epptr_ →
      ∃ r s2, s1.overflow cfg env c = .ok (r, s2) ∧ PutCall s1 s2 C) ∧
    (∀ env, ∃ r s2, s1.sync cfg env = .ok (r, s2) ∧ PutCall s1 s2 C) := by
  have hstep := write_run_put_step cfg C 0 s s1 hC1 hC2 hA (Nat.zero_le C) hrun
  obtain ⟨k1, hk1, hA1⟩ := hstep.area
  refine ⟨⟨k1, hk1, hstep.base, hA1.next, hA1.limit⟩, hstep, WriteRun.log cfg s s1 hrun,
    ?_, ?_, ?_, ?_⟩
  · intro log hlog
    exact ⟨write_run_log_trace cfg C 0 s s1 log hC1 hC2 hA (Nat.zero_le C) hlog,
      write_run_log_calls cfg C 0 s s1 log hC1 hC2 hA (Nat.zero_le C) hlog⟩
  · intro env c
    exact sputc_put_call cfg env s1 C k1 c hA1 hk1 hC1 hC2
  · intro env c hfull
    have hk : k1 = C := by
      have h1 := hA1.next
      have h2 := hA1.limit
      omega
    subst hk
    exact overflow_put_call cfg env s1 k1 c hA1 hC1 hC2
  · intro env
    exact sync_put_call cfg env s1 C k1 hA1 hk1 hC2

/-- Witness for C20: the fresh adapter opened for writing (capacity 512), after the unit
65 was written and `sync` was called while the flush fails. -/
theorem C20_fill_level_within_region_witness :
    1 ≤ 512 ∧ 512 ≤ 2 ^ 31 ∧ PutArea fresh_writer 512 0 ∧
    WriteRun debug_build fresh_writer writer_after_put_sync ∧
    ((∃ k1 : Nat, k1 ≤ 512 ∧ writer_after_put_sync.pbase_ = fresh_writer.pbase_ ∧
        writer_after_put_sync.pptr_ = writer_after_put_sync.pbase_ + (k1 : Int) ∧
        writer_after_put_sync.epptr_ = writer_after_put_sync.pbase_ + ((512 : Nat) : Int)) ∧
      PutStep fresh_writer writer_after_put_sync 512 ∧
      (∃ log, WriteRunLog debug_build fresh_writer writer_after_put_sync log) ∧
      (∀ log, WriteRunLog debug_build fresh_writer writer_after_put_sync log →
        writer_after_put_sync.base_.trace = fresh_writer.base_.trace
          ++ (log.map fun p => p.2.base_.trace.drop p.1.base_.trace.length).flatten ∧
        ∀ p ∈ log, PutCall p.1 p.2 512) ∧
      (∀ env c, ∃ r s2, writer_after_put_sync.sputc debug_build env c = .ok (r, s2) ∧
        PutCall writer_after_put_sync s2 512) ∧
      (∀ env c, writer_after_put_sync.pptr_ = writer_after_put_sync.epptr_ →
        ∃ r s2, writer_after_put_sync.overflow debug_build env c = .ok (r, s2) ∧
          PutCall writer_after_put_sync s2 512) ∧
      (∀ env, ∃ r s2, writer_after_put_sync.sync debug_build env = .ok (r, s2) ∧
        PutCall writer_after_put_sync s2 512)) :=
  ⟨by decide, by decide,
    { handle := rfl, mode := (by decide), base_pos := (by decide), size := rfl, next := rfl,
      limit := rfl },
    WriteRun.sync os_flush_fails writer_after_put writer_after_put_sync (-1)
      (WriteRun.put (os_ok []) 65 fresh_writer writer_after_put 65 WriteRun.refl rfl) rfl,
    C20_fill_level_within_region debug_build 512 fresh_writer writer_after_put_sync
      (by decide) (by decide)
      { handle := rfl, mode := (by decide), base_pos := (by decide), size := rfl, next := rfl,
        limit := rfl }
      (WriteRun.sync os_flush_fails writer_after_put writer_after_put_sync (-1)
        (WriteRun.put (os_ok []) 65 fresh_writer writer_after_put 65 WriteRun.refl rfl) rfl)⟩

end athena
